import Mathlib

/-!
# Synet `PriorBoxLayer` (src/Synet/PriorBoxLayer.h): embedding and properties

The layer is embedded generically over the scalar arithmetic it runs on.  A value of
`Arith F` lists the primitive operations of C++ `float` that the source uses, one field
per operation, and four facts about the constants `0` and `1` that every arithmetic given
here is shown to have.  The arithmetics given further down:

* `exactArith` : exact rational arithmetic (the idealised reading of the formulas);
* `fieldArith` : exact arithmetic in any ordered field, the reals with the real square
  root among them (on the rationals it is `exactArith`);
* `f32Arith`   : IEEE 754 binary32 with round-to-nearest-even, the arithmetic the
  compiled layer runs on (`Floats` is `std::vector<float>`).

`size_t` values are natural numbers: the lengths of the vectors held in memory, the indices
into the output buffer and `dim`, which is half the length of that buffer.  The exception is
the shape that `Reshape` computes before any buffer exists: its product is reduced modulo
`2^64`.  An `assert` that fails and an access outside a vector or buffer are both modelled
as `none`.
-/

namespace Synet

set_option maxRecDepth 100000

/-! ## Scalar arithmetic used by the layer -/

/-- The primitive `float` operations the layer uses; every field names the C++ expression
it stands for. -/
structure Arith (F : Type) where
  /-- `Type(0)` -/
  zero : F
  /-- `1.0f`, `Type(1)` -/
  one : F
  /-- `2.0f` -/
  two : F
  /-- `0.1f` -/
  tenth : F
  /-- conversion `size_t -> float` (`float(imgW)`, and the implicit one in `w + _offset`,
  `x / imgW`) -/
  ofNat : Nat → F
  /-- conversion `int -> float` (`(float)minS`) -/
  ofInt : Int → F
  /-- the cast `(int)x` -/
  toInt : F → Int
  /-- `a + b` -/
  add : F → F → F
  /-- `a - b` -/
  sub : F → F → F
  /-- `a * b` -/
  mul : F → F → F
  /-- `a / b` -/
  div : F → F → F
  /-- `sqrt(x)` on a `float` -/
  sqrt : F → F
  /-- `(float)::sqrt(n)` on an `int` -/
  sqrtInt : Int → F
  /-- `a < b` (used by `std::min`, `std::max`) -/
  lt : F → F → Bool
  /-- `x == 0` -/
  isZero : F → Bool
  /-- `::fabs(x) < 1e-6` -/
  absLtEps : F → Bool
  /-- `::fabs(x - 1.) < 1e-6`, the subtraction being done in `double` -/
  nearOne : F → Bool
  /-- `::fabs(1.0f - 1.) < 1e-6` holds -/
  nearOne_one : nearOne one = true
  /-- `Type(0) < Type(0)` is false -/
  lt_zero_zero : lt zero zero = false
  /-- `Type(1) < Type(0)` is false -/
  lt_one_zero : lt one zero = false
  /-- `Type(1) < Type(1)` is false -/
  lt_one_one : lt one one = false

/-! ## Data model -/

/-- `PriorBoxParam`: the static parameters read by `Setup`. -/
structure PriorBoxParam (F : Type) where
  minSize : List F
  maxSize : List F
  aspectRatio : List F
  flip : Bool
  clip : Bool
  variance : List F
  imgSize : List Nat
  step : List F
  offset : F
  deriving DecidableEq

/-- The private members of `PriorBoxLayer` after `Setup`. -/
structure PriorBoxLayer (F : Type) where
  minSizes : List F
  maxSizes : List F
  aspectRatios : List F
  variance : List F
  flip : Bool
  clip : Bool
  numPriors : Nat
  imgW : Nat
  imgH : Nat
  stepW : F
  stepH : F
  offset : F
  deriving DecidableEq

/-- Modelled from the spec: a tensor (Tensor.h is not part of the sources), of which the
layer uses the shape and the data buffer. -/
structure Tensor (F : Type) where
  shape : List Nat
  data : List F
  deriving DecidableEq

/-- Modelled from the spec: `Tensor::Axis(i)`, the extent of axis `i` (height is axis 2 and
width is axis 3; `none` when the tensor has no such axis). -/
def Tensor.Axis {F : Type} (t : Tensor F) (i : Nat) : Option Nat := t.shape.get? i

/-- Modelled from the spec: `Tensor::Size(i)` (Tensor.h is not part of the sources), the
number of elements spanned by the axes from `i` on; for the output shape `[1, 2, n]` the
spec places the variance block at offset `n`, the coordinate-block length. -/
def Tensor.Size {F : Type} (t : Tensor F) (i : Nat) : Nat := (t.shape.drop i).prod

/-! ## `Setup` -/

section Generic

variable {F : Type}

/-- Lines 54-62: the inner loop of `Setup`, `alreadyExist` after the loop. -/
def alreadyExist (A : Arith F) (aspectRatio : F) (aspectRatios : List F) : Bool :=
  aspectRatios.any fun e => A.absLtEps (A.sub aspectRatio e)

/-- Lines 53-68: the body of the outer loop of `Setup` on `_aspectRatios`. -/
def pushAspectRatio (A : Arith F) ( flip : Bool) (aspectRatios : List F) (aspectRatio : F) :
    List F :=
  if alreadyExist A aspectRatio aspectRatios then aspectRatios
  else if flip then aspectRatios ++ [aspectRatio] ++ [A.div A.one aspectRatio]
  else aspectRatios ++ [aspectRatio]

/-- Lines 49-69: `_aspectRatios` as `Setup` resolves it. -/
def resolveAspectRatios (A : Arith F) ( flip : Bool) (input : List F) : List F :=
  input.foldl (pushAspectRatio A flip) [A.one]

/-- Lines 87-101 and 102-116: a 0/1/2-element parameter becomes an (H, W) pair. -/
def resolvePair {α : Type} (dflt : α) (xs : List α) : α × α :=
  if xs.length = 2 then (xs.getD 0 dflt, xs.getD 1 dflt)
  else if xs.length = 1 then (xs.getD 0 dflt, xs.getD 0 dflt)
  else (dflt, dflt)

/-- Lines 78-86: `_variance` after `Setup`, `none` when the assertion of line 80 fails. -/
def resolveVariance (A : Arith F) (variance : List F) : Option (List F) :=
  if variance.length > 1 then
    if variance.length = 4 then some variance else none
  else if variance.length = 1 then some [variance.getD 0 A.tenth]
  else some [A.tenth]

/-- `PriorBoxLayer::Setup` on a freshly constructed layer; `none` is a failed `assert`. -/
def Setup (A : Arith F) (param : PriorBoxParam F) : Option (PriorBoxLayer F) :=
  let aspectRatios := resolveAspectRatios A param.flip param.aspectRatio
  let numPriors := aspectRatios.length * param.minSize.length
  if param.maxSize.length > 0 ∧ param.minSize.length ≠ param.maxSize.length then none
  else
    let maxSizes := if param.maxSize.length > 0 then param.maxSize else []
    let numPriors := if param.maxSize.length > 0 then numPriors + maxSizes.length else numPriors
    match resolveVariance A param.variance with
    | none => none
    | some variance =>
      let img := resolvePair 0 param.imgSize
      let step := resolvePair A.zero param.step
      some
        { minSizes := param.minSize
          maxSizes := maxSizes
          aspectRatios := aspectRatios
          variance := variance
          flip := param.flip
          clip := param.clip
          numPriors := numPriors
          imgH := img.1
          imgW := img.2
          stepH := step.1
          stepW := step.2
          offset := param.offset }

/-! ## `Reshape` -/

/-- `PriorBoxLayer::Reshape`: the shape given to `dst[0]`.  The product of line 127 is a
product of `size_t` values: it is taken modulo `2^64` (`size_t` of a 64-bit target). -/
def Reshape (L : PriorBoxLayer F) (src : List (Tensor F)) : Option (List Nat) := do
  let src0 ← src.get? 0
  let layerW ← src0.Axis 3
  let layerH ← src0.Axis 2
  some [1, 2, (layerW * layerH * L.numPriors * 4) % 2 ^ 64]

/-! ## `ForwardCpu` -/

/-- The output buffer behind `pDst` together with the running `index`. -/
abbrev Cursor (F : Type) := List F × Nat

/-- A store `pDst[base + index++] = v`; `none` when the address is outside the buffer. -/
def put (base : Nat) (v : F) (c : Cursor F) : Option (Cursor F) :=
  if base + c.2 < c.1.length then some (c.1.set (base + c.2) v, c.2 + 1) else none

/-- `std::max<Type>(a, b)`. -/
def stdMax (A : Arith F) (a b : F) : F := if A.lt a b then b else a

/-- `std::min<Type>(a, b)`. -/
def stdMin (A : Arith F) (a b : F) : F := if A.lt b a then b else a

/-- Line 205: `std::min<Type>(std::max<Type>(x, Type(0)), Type(1))`. -/
def clamp (A : Arith F) (x : F) : F := stdMin A (stdMax A x A.zero) A.one

/-- The product `minS * maxS` of two `int`s, wrapped to 32 bits (two's complement). -/
def mulInt32 (a b : Int) : Int := (a * b + 2 ^ 31) % 2 ^ 32 - 2 ^ 31

/-- Lines 174-177 (and 182-185, 194-197): the four stores of one box. -/
def putBox (A : Arith F) (centerX centerY boxW boxH : F) (imgW imgH : Nat) (c : Cursor F) :
    Option (Cursor F) := do
  let c ← put 0 (A.div (A.sub centerX (A.div boxW A.two)) (A.ofNat imgW)) c
  let c ← put 0 (A.div (A.sub centerY (A.div boxH A.two)) (A.ofNat imgH)) c
  let c ← put 0 (A.div (A.add centerX (A.div boxW A.two)) (A.ofNat imgW)) c
  put 0 (A.div (A.add centerY (A.div boxH A.two)) (A.ofNat imgH)) c

/-- Lines 189-197: the body of the loop over `_aspectRatios`, `sqrt(ar)` being the `float`
function and `minS` being converted to `float` for the product and the quotient. -/
def ratioStep (A : Arith F) (centerX centerY : F) (minS : Int) (imgW imgH : Nat)
    (c : Cursor F) (ar : F) : Option (Cursor F) :=
  if A.nearOne ar then some c
  else
    putBox A centerX centerY (A.mul (A.ofInt minS) (A.sqrt ar))
      (A.div (A.ofInt minS) (A.sqrt ar)) imgW imgH c

/-- Lines 172-198: the body of the loop over `s`. -/
def sizeStep (A : Arith F) (L : PriorBoxLayer F) (centerX centerY : F) (imgW imgH : Nat)
    (c : Cursor F) (s : Nat) : Option (Cursor F) := do
  let minSize ← L.minSizes.get? s
  let minS := A.toInt minSize
  let c ← putBox A centerX centerY (A.ofInt minS) (A.ofInt minS) imgW imgH c
  let c ←
    if L.maxSizes.length > 0 then do
      let maxSize ← L.maxSizes.get? s
      let maxS := A.toInt maxSize
      putBox A centerX centerY (A.sqrtInt (mulInt32 minS maxS)) (A.sqrtInt (mulInt32 minS maxS))
        imgW imgH c
    else some c
  L.aspectRatios.foldlM (ratioStep A centerX centerY minS imgW imgH) c

/-- Lines 167-199: the body of the loop over `w`. -/
def cellStep (A : Arith F) (L : PriorBoxLayer F) (imgW imgH : Nat) (stepW stepH : F) (h : Nat)
    (c : Cursor F) (w : Nat) : Option (Cursor F) :=
  let centerX := A.mul (A.add (A.ofNat w) L.offset) stepW
  let centerY := A.mul (A.add (A.ofNat h) L.offset) stepH
  (List.range L.minSizes.length).foldlM (sizeStep A L centerX centerY imgW imgH) c

/-- Lines 163-201: the loops over `h` and `w`, started at `index = 0`. -/
def boxLoop (A : Arith F) (L : PriorBoxLayer F) (layerH layerW imgW imgH : Nat)
    (stepW stepH : F) (pDst : List F) : Option (Cursor F) :=
  (List.range layerH).foldlM
    (fun c h => (List.range layerW).foldlM (cellStep A L imgW imgH stepW stepH h) c) (pDst, 0)

/-- Lines 204-205: the clip pass over `pDst[0 .. dim)`. -/
def clipLoop (A : Arith F) (dim : Nat) (pDst : List F) : Option (List F) :=
  (List.range dim).foldlM
    (fun buf d => do
      let x ← buf.get? d
      some (buf.set d (clamp A x))) pDst

/-- Modelled from the spec: `CpuSet(size, value, dst)` (Math.h is not part of the sources),
which broadcasts the scalar to every element of the block of `size` elements at `dst`. -/
def CpuSet (size : Nat) (value : F) (base : Nat) (pDst : List F) : Option (List F) :=
  ((List.range size).foldlM (fun c _ => put base value c) (pDst, 0)).map Prod.fst

/-- Lines 212-217: the four nested loops that tile `_variance[0..3]`. -/
def varianceLoop (L : PriorBoxLayer F) (layerH layerW base : Nat) (pDst : List F) :
    Option (List F) :=
  ((List.range layerH).foldlM
    (fun c _ => (List.range layerW).foldlM
      (fun c _ => (List.range L.numPriors).foldlM
        (fun c _ => (List.range 4).foldlM
          (fun c j => do
            let v ← L.variance.get? j
            put base v c) c) c) c) (pDst, 0)).map Prod.fst

/-- The sizes and steps `ForwardCpu` works with after lines 136-159. -/
structure Geometry (F : Type) where
  layerW : Nat
  layerH : Nat
  imgW : Nat
  imgH : Nat
  stepW : F
  stepH : F
  deriving DecidableEq

/-- Lines 138-148: the image size `(imgW, imgH)` in effect. -/
def resolveImg (L : PriorBoxLayer F) (src : List (Tensor F)) : Option (Nat × Nat) :=
  if L.imgH = 0 ∨ L.imgW = 0 then
    match src.get? 1 with
    | none => none
    | some src1 =>
      match src1.Axis 3, src1.Axis 2 with
      | some imgW, some imgH => some (imgW, imgH)
      | _, _ => none
  else some (L.imgW, L.imgH)

/-- Lines 149-159: the steps `(stepW, stepH)` in effect. -/
def resolveStep (A : Arith F) (L : PriorBoxLayer F) (layerW layerH imgW imgH : Nat) : F × F :=
  if A.isZero L.stepW ∨ A.isZero L.stepH then
    (A.div (A.ofNat imgW) (A.ofNat layerW), A.div (A.ofNat imgH) (A.ofNat layerH))
  else (L.stepW, L.stepH)

/-- Lines 136-159: the feature-map size, the image size and the steps in effect. -/
def resolveGeometry (A : Arith F) (L : PriorBoxLayer F) (src : List (Tensor F)) :
    Option (Geometry F) :=
  match src.get? 0 with
  | none => none
  | some src0 =>
    match src0.Axis 3, src0.Axis 2, resolveImg L src with
    | some layerW, some layerH, some (imgW, imgH) =>
      some { layerW := layerW, layerH := layerH, imgW := imgW, imgH := imgH,
             stepW := (resolveStep A L layerW layerH imgW imgH).1,
             stepH := (resolveStep A L layerW layerH imgW imgH).2 }
    | _, _, _ => none

/-- Line 161: `dim`, half the length of the output buffer. -/
def Geometry.dim (g : Geometry F) (L : PriorBoxLayer F) : Nat :=
  g.layerH * g.layerW * L.numPriors * 4

/-- Lines 160-218: the stores into `dst[0]`, whose data is returned. -/
def fill (A : Arith F) (L : PriorBoxLayer F) (g : Geometry F) (dst : Tensor F) :
    Option (List F) := do
  let dim := g.dim L
  let (pDst, _) ← boxLoop A L g.layerH g.layerW g.imgW g.imgH g.stepW g.stepH dst.data
  let pDst ← if L.clip then clipLoop A dim pDst else some pDst
  let base := dst.Size 2
  if L.variance.length = 1 then
    CpuSet dim (L.variance.getD 0 A.zero) base pDst
  else
    varianceLoop L g.layerH g.layerW base pDst

/-- `PriorBoxLayer::ForwardCpu`: the data of `dst[0]` after the call, `dst` being the tensor
`dst[0]` before the call.  `none` is an access outside a vector or outside the buffer. -/
def ForwardCpu (A : Arith F) (L : PriorBoxLayer F) (src : List (Tensor F)) (dst : Tensor F) :
    Option (List F) := do
  let g ← resolveGeometry A L src
  fill A L g dst

/-! ## The values written, as lists

The loops of `ForwardCpu` store a sequence of values at consecutive addresses.  The
functions below give that sequence; `boxLoop_eq_blit` and its companions relate them to the
loops. -/

/-- Consecutive stores of the values `vs`, the first at `pDst[base + index]`. -/
def blit (base : Nat) : List F → Cursor F → Option (Cursor F)
  | [], c => some c
  | v :: vs, c => (put base v c).bind (blit base vs)

/-- The four corner coordinates stored for one box. -/
def boxCoords (A : Arith F) (centerX centerY boxW boxH : F) (imgW imgH : Nat) : List F :=
  [A.div (A.sub centerX (A.div boxW A.two)) (A.ofNat imgW),
   A.div (A.sub centerY (A.div boxH A.two)) (A.ofNat imgH),
   A.div (A.add centerX (A.div boxW A.two)) (A.ofNat imgW),
   A.div (A.add centerY (A.div boxH A.two)) (A.ofNat imgH)]

/-- The values stored by one pass of the loop over `_aspectRatios`. -/
def ratioCoords (A : Arith F) (centerX centerY : F) (minS : Int) (imgW imgH : Nat) (ar : F) :
    List F :=
  if A.nearOne ar then []
  else
    boxCoords A centerX centerY (A.mul (A.ofInt minS) (A.sqrt ar))
      (A.div (A.ofInt minS) (A.sqrt ar)) imgW imgH

/-- The values stored by one pass of the loop over `s`, for the sizes `minSize`, `maxSize`. -/
def sizeCoords (A : Arith F) (L : PriorBoxLayer F) (centerX centerY : F) (imgW imgH : Nat)
    (minSize maxSize : F) : List F :=
  boxCoords A centerX centerY (A.ofInt (A.toInt minSize)) (A.ofInt (A.toInt minSize)) imgW imgH
    ++ (if L.maxSizes.length > 0 then
          boxCoords A centerX centerY (A.sqrtInt (mulInt32 (A.toInt minSize) (A.toInt maxSize)))
            (A.sqrtInt (mulInt32 (A.toInt minSize) (A.toInt maxSize))) imgW imgH
        else [])
    ++ L.aspectRatios.flatMap (ratioCoords A centerX centerY (A.toInt minSize) imgW imgH)

/-- The values stored for the cell `(h, w)`. -/
def cellCoords (A : Arith F) (L : PriorBoxLayer F) (imgW imgH : Nat) (stepW stepH : F)
    (h w : Nat) : List F :=
  (List.range L.minSizes.length).flatMap fun s =>
    sizeCoords A L (A.mul (A.add (A.ofNat w) L.offset) stepW)
      (A.mul (A.add (A.ofNat h) L.offset) stepH) imgW imgH
      (L.minSizes.getD s A.zero) (L.maxSizes.getD s A.zero)

/-- The values stored by the loops over `h` and `w`, in the order of the stores. -/
def coords (A : Arith F) (L : PriorBoxLayer F) (layerH layerW imgW imgH : Nat)
    (stepW stepH : F) : List F :=
  (List.range layerH).flatMap fun h =>
    (List.range layerW).flatMap fun w => cellCoords A L imgW imgH stepW stepH h w

/-- The number of boxes stored for one cell. -/
def boxesPerCell (A : Arith F) (L : PriorBoxLayer F) : Nat :=
  L.minSizes.length *
    (1 + (if L.maxSizes.length > 0 then 1 else 0)
      + (L.aspectRatios.filter fun ar => !A.nearOne ar).length)

/-- The variance values stored by lines 208-218, in the order of the stores: the single
configured value `dim` times (line 209), or else `_variance[0..3]` once per box. -/
def varianceValues (L : PriorBoxLayer F) (layerH layerW : Nat) : List F :=
  if L.variance.length = 1 then
    (List.replicate (layerH * layerW * L.numPriors * 4) (L.variance.take 1)).flatten
  else (List.replicate (layerH * layerW * L.numPriors) (L.variance.take 4)).flatten

/-- Line 205 applied to every element of a block. -/
def clipPass (A : Arith F) (block : List F) : List F := block.map (clamp A)

/-- What `Setup` leaves true of the size lists: `_maxSizes` is empty or as long as
`_minSizes`. -/
def PriorBoxLayer.MaxOk (L : PriorBoxLayer F) : Prop :=
  L.maxSizes.length > 0 → L.maxSizes.length = L.minSizes.length

end Generic

/-! ## Exact arithmetic -/

/-- The cast `(int)x` on a rational: truncation toward zero. -/
def truncRat (q : ℚ) : Int := if 0 ≤ q then ⌊q⌋ else ⌈q⌉

/-- Exact rational arithmetic, with `sqrt` left as a parameter.  Division is the division of
`ℚ`, which gives `0` for a zero divisor. -/
def exactArith (sqrt : ℚ → ℚ) : Arith ℚ where
  zero := 0
  one := 1
  two := 2
  tenth := 1 / 10
  ofNat n := n
  ofInt z := z
  toInt := truncRat
  add a b := a + b
  sub a b := a - b
  mul a b := a * b
  div a b := a / b
  sqrt := sqrt
  sqrtInt z := sqrt z
  lt a b := decide (a < b)
  isZero a := decide (a = 0)
  absLtEps a := decide (|a| < 1 / 1000000)
  nearOne a := decide (|a - 1| < 1 / 1000000)
  nearOne_one := by norm_num
  lt_zero_zero := by simp
  lt_one_zero := by simp
  lt_one_one := by simp

/-! ## IEEE 754 binary floating point -/

/-- A binary format: the number of significand bits, the exponent of the least positive
number, and the greatest exponent of a finite number. -/
structure Format where
  prec : Nat
  emin : Int
  emax : Int

/-- C++ `float`. -/
def binary32 : Format := { prec := 24, emin := -149, emax := 127 }

/-- C++ `double`. -/
def binary64 : Format := { prec := 53, emin := -1074, emax := 1023 }

/-- A floating-point datum: NaN, an infinity, or the finite number
`(-1)^neg * m * 2^e` (zero when `m = 0`, with its sign). -/
inductive Fp where
  | nan : Fp
  | inf (neg : Bool) : Fp
  | fin (neg : Bool) (m : Nat) (e : Int) : Fp
  deriving DecidableEq

/-- Halving `n` until it is below 2, at most `fuel` times, counting the steps. -/
def log2Aux : Nat → Nat → Nat
  | 0, _ => 0
  | fuel + 1, n => if 2 ≤ n then log2Aux fuel (n / 2) + 1 else 0

/-- The floor of the base-2 logarithm of a positive natural number. -/
def ilog2 (n : Nat) : Nat := log2Aux n n

/-- The floor of the base-2 logarithm of `N / D`, for positive `N` and `D`. -/
def floorLog2 (N D : Nat) : Int :=
  if D * 2 ^ ilog2 N ≤ N * 2 ^ ilog2 D then (ilog2 N : Int) - (ilog2 D : Int)
  else (ilog2 N : Int) - (ilog2 D : Int) - 1

/-- The integer nearest to `N / D`, ties going to the even one. -/
def roundHalfEven (N D : Nat) : Nat :=
  if 2 * (N % D) < D then N / D
  else if D < 2 * (N % D) then N / D + 1
  else if (N / D) % 2 = 0 then N / D
  else N / D + 1

/-- The exponent of the unit in the last place of `N / D * 2^e` in the format. -/
def Format.ulpExp (f : Format) (N D : Nat) (e : Int) : Int :=
  max (floorLog2 N D + e - ((f.prec : Int) - 1)) f.emin

/-- Round-to-nearest-even of `(-1)^neg * (N / D) * 2^e` (`D` positive) into the format. -/
def Format.round (f : Format) (neg : Bool) (N D : Nat) (e : Int) : Fp :=
  if N = 0 then Fp.fin neg 0 f.emin
  else
    let E := f.ulpExp N D e
    let n := roundHalfEven (N * 2 ^ (e - E).toNat) (D * 2 ^ (E - e).toNat)
    if (ilog2 n : Int) + E > f.emax then Fp.inf neg
    else if n = 2 ^ f.prec then Fp.fin neg (2 ^ (f.prec - 1)) (E + 1)
    else Fp.fin neg n E

/-- Sign change. -/
def Fp.neg : Fp → Fp
  | Fp.nan => Fp.nan
  | Fp.inf s => Fp.inf (!s)
  | Fp.fin s m e => Fp.fin (!s) m e

/-- `fabs`. -/
def Fp.abs : Fp → Fp
  | Fp.nan => Fp.nan
  | Fp.inf _ => Fp.inf false
  | Fp.fin _ m e => Fp.fin false m e

/-- The integer `(-1)^neg * m * 2^(e - e0)`, for `e0 ≤ e`. -/
def scaled (neg : Bool) (m : Nat) (e e0 : Int) : Int :=
  (if neg then -1 else 1) * ((m * 2 ^ (e - e0).toNat : Nat) : Int)

/-- IEEE 754 addition in the format. -/
def Format.add (f : Format) : Fp → Fp → Fp
  | Fp.nan, _ => Fp.nan
  | _, Fp.nan => Fp.nan
  | Fp.inf s, Fp.inf t => if s = t then Fp.inf s else Fp.nan
  | Fp.inf s, Fp.fin _ _ _ => Fp.inf s
  | Fp.fin _ _ _, Fp.inf t => Fp.inf t
  | Fp.fin s m e, Fp.fin t n e' =>
    let sum := scaled s m e (min e e') + scaled t n e' (min e e')
    if sum = 0 then Fp.fin (s && t) 0 f.emin
    else f.round (decide (sum < 0)) sum.natAbs 1 (min e e')

/-- IEEE 754 subtraction in the format. -/
def Format.sub (f : Format) (a b : Fp) : Fp := f.add a b.neg

/-- IEEE 754 multiplication in the format. -/
def Format.mul (f : Format) : Fp → Fp → Fp
  | Fp.nan, _ => Fp.nan
  | _, Fp.nan => Fp.nan
  | Fp.inf s, Fp.inf t => Fp.inf (xor s t)
  | Fp.inf s, Fp.fin t n _ => if n = 0 then Fp.nan else Fp.inf (xor s t)
  | Fp.fin s m _, Fp.inf t => if m = 0 then Fp.nan else Fp.inf (xor s t)
  | Fp.fin s m e, Fp.fin t n e' => f.round (xor s t) (m * n) 1 (e + e')

/-- IEEE 754 division in the format. -/
def Format.div (f : Format) : Fp → Fp → Fp
  | Fp.nan, _ => Fp.nan
  | _, Fp.nan => Fp.nan
  | Fp.inf _, Fp.inf _ => Fp.nan
  | Fp.inf s, Fp.fin t _ _ => Fp.inf (xor s t)
  | Fp.fin s _ _, Fp.inf t => Fp.fin (xor s t) 0 f.emin
  | Fp.fin s m e, Fp.fin t n e' =>
    if n = 0 then (if m = 0 then Fp.nan else Fp.inf (xor s t))
    else f.round (xor s t) m n (e - e')

/-- The comparison `a < b` of IEEE 754 (false when an operand is NaN). -/
def Fp.lt : Fp → Fp → Bool
  | Fp.nan, _ => false
  | _, Fp.nan => false
  | Fp.inf s, Fp.inf t => s && !t
  | Fp.inf s, Fp.fin _ _ _ => s
  | Fp.fin _ _ _, Fp.inf t => !t
  | Fp.fin s m e, Fp.fin t n e' =>
    decide (scaled s m e (min e e') < scaled t n e' (min e e'))

/-- `x == 0`. -/
def Fp.isZero : Fp → Bool
  | Fp.fin _ m _ => decide (m = 0)
  | _ => false

/-- Conversion of an integer into the format. -/
def Format.ofInt (f : Format) (z : Int) : Fp := f.round (decide (z < 0)) z.natAbs 1 0

/-- The cast `(int)x`: truncation toward zero; a value that does not fit in 32 bits, an
infinity or NaN gives `INT_MIN` (what the x86 conversion instruction returns). -/
def Fp.toInt32 : Fp → Int
  | Fp.fin s m e =>
    let t : Int := (if s then -1 else 1) * ((m * 2 ^ e.toNat / 2 ^ (-e).toNat : Nat) : Int)
    if -2 ^ 31 ≤ t ∧ t < 2 ^ 31 then t else -2 ^ 31
  | _ => -2 ^ 31

/-- The rational value of a finite datum (`0` for the others). -/
def Fp.toRat : Fp → ℚ
  | Fp.fin s m e => (if s then -1 else 1) * (m : ℚ) * 2 ^ e
  | _ => 0

/-- The `double` literal `1e-6`. -/
def eps : Fp := binary64.round false 1 1000000 0

/-- Whether a datum is a value of the format, in its unique representation: the significand
fits, the exponent is in range and is the least one possible. -/
def Format.Valid (f : Format) : Fp → Bool
  | Fp.fin _ m e =>
    decide (m < 2 ^ f.prec ∧ f.emin ≤ e ∧ e + (f.prec : Int) - 1 ≤ f.emax ∧
      (m < 2 ^ (f.prec - 1) → e = f.emin))
  | _ => true

/-- The arithmetic of C++ `float` where `float` expressions are evaluated in `float`
(binary32, round to nearest even; comparisons against the `double` literal `1e-6` and the
subtraction `ar - 1.` are done in binary64, into which every `float` converts exactly).
The two `sqrt` functions of the C library are parameters. -/
def f32Arith (sqrt : Fp → Fp) (sqrtInt : Int → Fp) : Arith Fp where
  zero := binary32.ofInt 0
  one := binary32.ofInt 1
  two := binary32.ofInt 2
  tenth := binary32.round false 1 10 0
  ofNat n := binary32.ofInt n
  ofInt z := binary32.ofInt z
  toInt := Fp.toInt32
  add := binary32.add
  sub := binary32.sub
  mul := binary32.mul
  div := binary32.div
  sqrt := sqrt
  sqrtInt := sqrtInt
  lt := Fp.lt
  isZero := Fp.isZero
  absLtEps x := Fp.lt x.abs eps
  nearOne x := Fp.lt (binary64.sub x (binary64.ofInt 1)).abs eps
  nearOne_one := by decide
  lt_zero_zero := by decide
  lt_one_zero := by decide
  lt_one_one := by decide

/-! ## A sample configuration

The scenario of the specification: `minSize = [30]`, `aspectRatio = [2]`, `flip`, no
`maxSize`, no clipping, `variance = [0.1]`, `offset = 0.5`, neither image size nor step
configured; a 2x2 feature map and a 300x300 image. -/

/-- The scenario's parameters in binary32. -/
def scenarioParam : PriorBoxParam Fp where
  minSize := [binary32.ofInt 30]
  maxSize := []
  aspectRatio := [binary32.ofInt 2]
  flip := true
  clip := false
  variance := [binary32.round false 1 10 0]
  imgSize := []
  step := []
  offset := binary32.round false 1 2 0

/-- The scenario's parameters in exact arithmetic. -/
def scenarioParamExact : PriorBoxParam ℚ where
  minSize := [30]
  maxSize := []
  aspectRatio := [2]
  flip := true
  clip := false
  variance := [1 / 10]
  imgSize := []
  step := []
  offset := 1 / 2

/-- The scenario's inputs: a 2x2 feature map and a 300x300 image. -/
def scenarioSrc (F : Type) : List (Tensor F) :=
  [{ shape := [1, 8, 2, 2], data := [] }, { shape := [1, 3, 300, 300], data := [] }]

/-- A `sqrt` that is never looked at, to have a closed binary32 arithmetic at hand. -/
def f32ArithNoSqrt : Arith Fp := f32Arith (fun _ => Fp.nan) (fun _ => Fp.nan)

/-- What `Setup` makes of the scenario in binary32. -/
def scenarioLayer : PriorBoxLayer Fp where
  minSizes := [binary32.ofInt 30]
  maxSizes := []
  aspectRatios := [binary32.ofInt 1, binary32.ofInt 2, binary32.round false 1 2 0]
  variance := [binary32.round false 1 10 0]
  flip := true
  clip := false
  numPriors := 3
  imgW := 0
  imgH := 0
  stepW := binary32.ofInt 0
  stepH := binary32.ofInt 0
  offset := binary32.round false 1 2 0

/-- The sizes and steps `ForwardCpu` resolves in the scenario (step `300 / 2 = 150`). -/
def scenarioGeometry : Geometry Fp where
  layerW := 2
  layerH := 2
  imgW := 300
  imgH := 300
  stepW := binary32.ofInt 150
  stepH := binary32.ofInt 150

/-- An output tensor for the scenario, shaped by `Reshape` and filled with zeros. -/
def scenarioDst : Tensor Fp where
  shape := [1, 2, 48]
  data := List.replicate 96 (binary32.ofInt 0)

/-- What `Setup` makes of the scenario in exact arithmetic. -/
def scenarioLayerExact : PriorBoxLayer ℚ where
  minSizes := [30]
  maxSizes := []
  aspectRatios := [1, 2, 1 / 2]
  variance := [1 / 10]
  flip := true
  clip := false
  numPriors := 3
  imgW := 0
  imgH := 0
  stepW := 0
  stepH := 0
  offset := 1 / 2

/-- The sizes and steps `ForwardCpu` resolves in the scenario, in exact arithmetic. -/
def scenarioGeometryExact : Geometry ℚ where
  layerW := 2
  layerH := 2
  imgW := 300
  imgH := 300
  stepW := 150
  stepH := 150

/-- The scenario with `imgSize = [300, 200]` and `step = [8]` configured. -/
def configuredParam : PriorBoxParam Fp :=
  { scenarioParam with imgSize := [300, 200], step := [binary32.ofInt 8] }

/-- What `Setup` makes of `configuredParam`. -/
def configuredLayer : PriorBoxLayer Fp :=
  { scenarioLayer with
    imgH := 300
    imgW := 200
    stepH := binary32.ofInt 8
    stepW := binary32.ofInt 8 }

/-- Inputs whose feature map has no rows (`layerH = 0`, `layerW = 2`), with the 300x300
image of the scenario. -/
def emptySrc : List (Tensor Fp) :=
  [{ shape := [1, 8, 0, 2], data := [] }, { shape := [1, 3, 300, 300], data := [] }]

/-- The output tensor `Reshape` asks for on `emptySrc`: shape `[1, 2, 0]`, no data. -/
def emptyDst : Tensor Fp where
  shape := [1, 2, 0]
  data := []

/-- The sizes and steps `ForwardCpu` resolves for the scenario's layer on `emptySrc`:
`stepW = 300 / 2` and `stepH = 300 / 0`, which is `+inf`. -/
def emptyGeometry : Geometry Fp where
  layerW := 2
  layerH := 0
  imgW := 300
  imgH := 300
  stepW := binary32.ofInt 150
  stepH := Fp.inf false

/-- The scenario with the minimal size `30.7f` in place of `30`. -/
def fractionalParam : PriorBoxParam Fp :=
  { scenarioParam with minSize := [binary32.round false 307 10 0] }

/-- What `Setup` makes of `fractionalParam`. -/
def fractionalLayer : PriorBoxLayer Fp :=
  { scenarioLayer with minSizes := [binary32.round false 307 10 0] }

/-- The scenario with the two ratios `30` and `29.999998f` (the binary32 number next below
`30`, which is `30 - 2^-19`), `flip` being set. -/
def closeRatiosParam : PriorBoxParam Fp :=
  { scenarioParam with aspectRatio := [binary32.ofInt 30, Fp.fin false 15728639 (-19)] }

/-- What `Setup` makes of `closeRatiosParam`: both ratios are kept, and both reciprocals
round to the binary32 number `8947849 * 2^-28`. -/
def closeRatiosLayer : PriorBoxLayer Fp :=
  { scenarioLayer with
    aspectRatios :=
      [binary32.ofInt 1, binary32.ofInt 30, Fp.fin false 8947849 (-28),
        Fp.fin false 15728639 (-19), Fp.fin false 8947849 (-28)]
    numPriors := 5 }

/-- An output tensor for the scenario in exact arithmetic, shaped by `Reshape` and filled
with zeros. -/
def scenarioDstExact : Tensor ℚ where
  shape := [1, 2, 48]
  data := List.replicate 96 0

/-! ## Exact arithmetic in an ordered field -/

/-- Exact arithmetic in an ordered field `K` (the rationals, the reals), with `sqrt` left as
a parameter: every operation is the operation of `K`, the cast `(int)x` truncates toward
zero, and `1e-6` is the number `1 / 1000000`.  Division is the division of `K`, which gives
`0` for a zero divisor. -/
def fieldArith {K : Type} [LinearOrderedField K] [FloorRing K] (sqrt : K → K) : Arith K where
  zero := 0
  one := 1
  two := 2
  tenth := 1 / 10
  ofNat n := n
  ofInt z := z
  toInt q := if 0 ≤ q then ⌊q⌋ else ⌈q⌉
  add a b := a + b
  sub a b := a - b
  mul a b := a * b
  div a b := a / b
  sqrt := sqrt
  sqrtInt z := sqrt z
  lt a b := decide (a < b)
  isZero a := decide (a = 0)
  absLtEps a := decide (|a| < 1 / 1000000)
  nearOne a := decide (|a - 1| < 1 / 1000000)
  nearOne_one := by norm_num
  lt_zero_zero := by simp
  lt_one_zero := by simp
  lt_one_one := by simp

/-! ## A configuration with the ratio 4

`minSize = [30]`, `aspectRatio = [4]`, no `flip`, `imgSize = [300]`, `offset = 0.5`, on a 1x1
feature map, in an ordered field `K`. -/

/-- The parameters. -/
def ratioFourParam (K : Type) [LinearOrderedField K] : PriorBoxParam K where
  minSize := [30]
  maxSize := []
  aspectRatio := [4]
  flip := false
  clip := false
  variance := []
  imgSize := [300]
  step := []
  offset := 1 / 2

/-- What `Setup` makes of `ratioFourParam`. -/
def ratioFourLayer (K : Type) [LinearOrderedField K] : PriorBoxLayer K where
  minSizes := [30]
  maxSizes := []
  aspectRatios := [1, 4]
  variance := [1 / 10]
  flip := false
  clip := false
  numPriors := 2
  imgW := 300
  imgH := 300
  stepW := 0
  stepH := 0
  offset := 1 / 2

/-- The input: a 1x1 feature map. -/
def ratioFourSrc (K : Type) : List (Tensor K) := [{ shape := [1, 8, 1, 1], data := [] }]

/-- An output tensor shaped by `Reshape`, filled with zeros. -/
def ratioFourDst (K : Type) [LinearOrderedField K] : Tensor K where
  shape := [1, 2, 8]
  data := List.replicate 16 0

/-- The sizes and steps `ForwardCpu` resolves (step `300 / 1`). -/
def ratioFourGeometry (K : Type) [LinearOrderedField K] : Geometry K where
  layerW := 1
  layerH := 1
  imgW := 300
  imgH := 300
  stepW := 300
  stepH := 300

/-! ## Further sample inputs -/

/-- An input whose primary tensor is `2^31` high and `2^31` wide and has no channel (so it
holds no data). -/
def wideSrc : List (Tensor Fp) := [{ shape := [1, 0, 2147483648, 2147483648], data := [] }]

/-- The parameters `minSize = [0.5f]`, no `aspectRatio`, `clip`, `variance = [0.1f]`,
`offset = 0.5f`, neither image size nor step configured. -/
def halfSizeParam : PriorBoxParam Fp where
  minSize := [binary32.round false 1 2 0]
  maxSize := []
  aspectRatio := []
  flip := false
  clip := true
  variance := [binary32.round false 1 10 0]
  imgSize := []
  step := []
  offset := binary32.round false 1 2 0

/-- What `Setup` makes of `halfSizeParam`. -/
def halfSizeLayer : PriorBoxLayer Fp where
  minSizes := [binary32.round false 1 2 0]
  maxSizes := []
  aspectRatios := [binary32.ofInt 1]
  variance := [binary32.round false 1 10 0]
  flip := false
  clip := true
  numPriors := 1
  imgW := 0
  imgH := 0
  stepW := binary32.ofInt 0
  stepH := binary32.ofInt 0
  offset := binary32.round false 1 2 0

/-- Inputs with a 1x1 feature map and an image tensor 300 high and 0 wide. -/
def noWidthSrc : List (Tensor Fp) :=
  [{ shape := [1, 8, 1, 1], data := [] }, { shape := [1, 3, 300, 0], data := [] }]

/-- The output tensor `Reshape` asks for with `halfSizeLayer` on `noWidthSrc`, filled with
zeros. -/
def halfSizeDst : Tensor Fp where
  shape := [1, 2, 4]
  data := List.replicate 8 (binary32.ofInt 0)

/-! ## Lemmas on the stores -/

section StoreLemmas

variable {F : Type}

theorem blit_append (base : Nat) (xs ys : List F) (c : Cursor F) :
    blit base (xs ++ ys) c = (blit base xs c).bind (blit base ys) := by
  induction xs generalizing c with
  | nil => simp [blit]
  | cons x xs ih =>
    simp only [List.cons_append, blit]
    cases put base x c with
    | none => simp
    | some c1 => simpa using ih c1

theorem foldlM_eq_blit {α : Type} (base : Nat) (g : Cursor F → α → Option (Cursor F))
    (f : α → List F) (l : List α) (hg : ∀ x ∈ l, ∀ c, g c x = blit base (f x) c)
    (c : Cursor F) : l.foldlM g c = blit base (l.flatMap f) c := by
  induction l generalizing c with
  | nil => simp [blit]
  | cons x l ih =>
    rw [List.foldlM_cons, List.flatMap_cons, blit_append, hg x (List.mem_cons_self _ _)]
    cases blit base (f x) c with
    | none => simp
    | some c1 =>
      simpa using ih (fun y hy => hg y (List.mem_cons_of_mem _ hy)) c1

theorem set_take_drop (buf : List F) (n k : Nat) (v : F) (vs : List F) (hlt : n < buf.length) :
    List.take (n + 1) (buf.set n v) ++ vs ++ List.drop (n + 1 + k) (buf.set n v) =
      List.take n buf ++ v :: vs ++ List.drop (n + (k + 1)) buf := by
  rw [List.set_eq_take_append_cons_drop, if_pos hlt]
  have hl : (List.take n buf).length = n := by rw [List.length_take]; omega
  have e1 : List.take (n + 1) (List.take n buf ++ v :: List.drop (n + 1) buf)
      = List.take n buf ++ [v] := by
    rw [List.take_append_eq_append_take]
    simp [hl]
  have e2 : List.drop (n + 1 + k) (List.take n buf ++ v :: List.drop (n + 1) buf)
      = List.drop (n + (k + 1)) buf := by
    rw [List.drop_append_eq_append_drop, hl]
    have h1 : n + 1 + k - n = k + 1 := by omega
    have h2 : List.drop (n + 1 + k) (List.take n buf) = [] := by
      apply List.drop_eq_nil_of_le; omega
    rw [h1, h2]
    simp only [List.nil_append, List.drop_succ_cons, List.drop_drop]
    congr 1; omega
  rw [e1, e2]
  simp

theorem blit_of_le (base : Nat) (vs : List F) (c : Cursor F)
    (h : base + c.2 + vs.length ≤ c.1.length) :
    blit base vs c =
      some (c.1.take (base + c.2) ++ vs ++ c.1.drop (base + c.2 + vs.length),
        c.2 + vs.length) := by
  induction vs generalizing c with
  | nil => simp [blit]
  | cons v vs ih =>
    obtain ⟨buf, i⟩ := c
    simp only [List.length_cons] at h
    simp only [blit, put]
    have hlt : base + i < buf.length := by omega
    rw [if_pos hlt]
    simp only [Option.some_bind]
    rw [ih]
    · simp only [List.length_cons, Option.some.injEq, Prod.mk.injEq]
      refine ⟨?_, by omega⟩
      have e1 : base + (i + 1) = (base + i) + 1 := by omega
      rw [e1]
      exact set_take_drop buf (base + i) vs.length v vs hlt
    · simpa using (by omega : base + (i + 1) + vs.length ≤ buf.length)

theorem blit_isSome (base : Nat) (vs : List F) (c : Cursor F) (hne : vs ≠ []) :
    (blit base vs c).isSome = true ↔ base + c.2 + vs.length ≤ c.1.length := by
  constructor
  · intro h
    induction vs generalizing c with
    | nil => exact absurd rfl hne
    | cons v vs ih =>
      obtain ⟨buf, i⟩ := c
      simp only [blit, put] at h
      by_cases hlt : base + i < buf.length
      · rw [if_pos hlt] at h
        simp only [Option.some_bind] at h
        by_cases hvs : vs = []
        · subst hvs; simp; omega
        · have := ih _ hvs h
          simp at this
          simp; omega
      · rw [if_neg hlt] at h
        simp at h
  · intro h
    rw [blit_of_le base vs c h]; rfl

theorem blit_length (base : Nat) (vs : List F) (c c1 : Cursor F)
    (h : blit base vs c = some c1) : c1.1.length = c.1.length ∧ c1.2 = c.2 + vs.length := by
  by_cases hne : vs = []
  · subst hne; simp [blit] at h; subst h; simp
  · have hle := (blit_isSome base vs c hne).1 (by rw [h]; rfl)
    rw [blit_of_le base vs c hle] at h
    simp only [Option.some.injEq] at h
    subst h
    simp only [List.length_append, List.length_take, List.length_drop, and_true]
    omega

end StoreLemmas
/-! ## The loops of `ForwardCpu` as consecutive stores -/

section LoopLemmas

variable {F : Type}

theorem putBox_eq_blit (A : Arith F) (cx cy bw bh : F) (iw ih : Nat) (c : Cursor F) :
    putBox A cx cy bw bh iw ih c = blit 0 (boxCoords A cx cy bw bh iw ih) c := by
  simp only [putBox, boxCoords, blit, bind, Option.bind]
  cases put 0 _ c with
  | none => rfl
  | some c1 =>
    simp only
    cases put 0 _ c1 with
    | none => rfl
    | some c2 =>
      simp only
      cases put 0 _ c2 with
      | none => rfl
      | some c3 =>
        simp only
        cases put 0 _ c3 <;> rfl

theorem ratioStep_eq_blit (A : Arith F) (cx cy : F) (minS : Int) (iw ih : Nat) (c : Cursor F)
    (ar : F) :
    ratioStep A cx cy minS iw ih c ar = blit 0 (ratioCoords A cx cy minS iw ih ar) c := by
  unfold ratioStep ratioCoords
  by_cases h : A.nearOne ar = true
  · simp [h, blit]
  · simp only [h, if_false, Bool.false_eq_true]
    exact putBox_eq_blit _ _ _ _ _ _ _ _

theorem sizeStep_eq_blit (A : Arith F) (L : PriorBoxLayer F) (cx cy : F) (iw ih : Nat)
    (c : Cursor F) (s : Nat) (hs : s < L.minSizes.length)
    (hmax : L.maxSizes.length > 0 → s < L.maxSizes.length) :
    sizeStep A L cx cy iw ih c s =
      blit 0 (sizeCoords A L cx cy iw ih (L.minSizes.getD s A.zero) (L.maxSizes.getD s A.zero))
        c := by
  unfold sizeStep sizeCoords
  have h1 : L.minSizes.get? s = some (L.minSizes.getD s A.zero) := by
    simp [List.getD, List.getElem?_eq_getElem hs]
  rw [blit_append, blit_append]
  simp only [h1, bind, Option.bind, putBox_eq_blit]
  cases hb : blit 0 (boxCoords A cx cy (A.ofInt (A.toInt (L.minSizes.getD s A.zero)))
      (A.ofInt (A.toInt (L.minSizes.getD s A.zero))) iw ih) c with
  | none => rfl
  | some c1 =>
    simp only
    by_cases hm : L.maxSizes.length > 0
    · have h2 : L.maxSizes.get? s = some (L.maxSizes.getD s A.zero) := by
        simp [List.getD, List.getElem?_eq_getElem (hmax hm)]
      simp only [hm, if_true, h2]
      cases blit 0 _ c1 with
      | none => rfl
      | some c2 =>
        simp only
        exact foldlM_eq_blit 0 _ _ _ (fun x _ c => ratioStep_eq_blit A cx cy _ iw ih c x) c2
    · simp only [hm, if_false, blit]
      exact foldlM_eq_blit 0 _ _ _ (fun x _ c => ratioStep_eq_blit A cx cy _ iw ih c x) c1

theorem cellStep_eq_blit (A : Arith F) (L : PriorBoxLayer F) (hL : L.MaxOk) (iw ih : Nat)
    (stepW stepH : F) (h : Nat) (c : Cursor F) (w : Nat) :
    cellStep A L iw ih stepW stepH h c w = blit 0 (cellCoords A L iw ih stepW stepH h w) c := by
  unfold cellStep cellCoords
  apply foldlM_eq_blit
  intro s hs c
  have hs1 : s < L.minSizes.length := List.mem_range.1 hs
  exact sizeStep_eq_blit A L _ _ iw ih c s hs1 (fun hm => by rw [hL hm]; exact hs1)

theorem boxLoop_eq_blit (A : Arith F) (L : PriorBoxLayer F) (hL : L.MaxOk)
    (layerH layerW iw ih : Nat) (stepW stepH : F) (pDst : List F) :
    boxLoop A L layerH layerW iw ih stepW stepH pDst =
      blit 0 (coords A L layerH layerW iw ih stepW stepH) (pDst, 0) := by
  unfold boxLoop coords
  apply foldlM_eq_blit
  intro h _ c
  apply foldlM_eq_blit
  intro w _ c
  exact cellStep_eq_blit A L hL iw ih stepW stepH h c w

theorem clipLoop_eq (A : Arith F) (dim : Nat) (pDst : List F) (h : dim ≤ pDst.length) :
    clipLoop A dim pDst = some (clipPass A (pDst.take dim) ++ pDst.drop dim) := by
  unfold clipLoop clipPass
  induction dim with
  | zero => simp
  | succ d ih =>
    rw [List.range_succ, List.foldlM_append, ih (by omega)]
    have hd : d < pDst.length := by omega
    simp only [List.foldlM_cons, List.foldlM_nil, bind, Option.bind]
    have hlen : (List.map (clamp A) (List.take d pDst)).length = d := by
      simp; omega
    have hget : (List.map (clamp A) (List.take d pDst) ++ List.drop d pDst).get? d
        = some (pDst.get ⟨d, hd⟩) := by
      rw [List.get?_eq_getElem?, List.getElem?_append_right (by omega), hlen]
      simp [List.getElem?_eq_getElem hd]
    rw [hget]
    simp only [pure, Option.some.injEq]
    rw [List.set_append_right _ _ (by omega), hlen, Nat.sub_self]
    rw [List.take_succ, List.getElem?_eq_getElem hd]
    simp only [Option.toList_some, List.map_append, List.map_cons, List.map_nil,
      List.append_assoc, List.singleton_append]
    congr 1
    rw [List.drop_eq_getElem_cons hd, List.set_cons_zero]
    rfl

theorem clipLoop_isSome (A : Arith F) (dim : Nat) (pDst out : List F)
    (h : clipLoop A dim pDst = some out) : dim ≤ pDst.length := by
  by_contra hn
  have hlt : pDst.length < dim := by omega
  obtain ⟨k, hk⟩ : ∃ k, dim = pDst.length + 1 + k := ⟨dim - pDst.length - 1, by omega⟩
  subst hk
  unfold clipLoop at h
  rw [List.range_add, List.foldlM_append] at h
  have h0 := clipLoop_eq A (pDst.length + 1 - 1) pDst (by omega)
  unfold clipLoop clipPass at h0
  rw [List.range_succ, List.foldlM_append] at h
  simp only [Nat.add_sub_cancel] at h0
  rw [h0] at h
  simp [bind, Option.bind] at h

end LoopLemmas
/-! ## The variance stores -/

section VarianceLemmas

variable {F : Type}

theorem flatMap_const_range {α : Type} (n : Nat) (xs : List α) :
    (List.range n).flatMap (fun _ => xs) = (List.replicate n xs).flatten := by
  induction n with
  | zero => simp
  | succ n ih =>
    rw [List.range_succ, List.flatMap_append, ih, List.replicate_succ']
    simp

theorem flatten_replicate_mul {α : Type} (n m : Nat) (xs : List α) :
    (List.replicate n (List.replicate m xs).flatten).flatten
      = (List.replicate (n * m) xs).flatten := by
  induction n with
  | zero => simp
  | succ n ih =>
    rw [List.replicate_succ, List.flatten_cons, ih, Nat.succ_mul, Nat.add_comm (n * m) m,
      List.replicate_add, List.flatten_append]

theorem foldlM_const_blit (base n : Nat) (xs : List F) (g : Cursor F → Option (Cursor F))
    (hg : ∀ c, g c = blit base xs c) (c : Cursor F) :
    (List.range n).foldlM (fun c _ => g c) c = blit base (List.replicate n xs).flatten c := by
  rw [← flatMap_const_range]
  exact foldlM_eq_blit base _ _ _ (fun _ _ c => hg c) c

theorem length_flatten_replicate {α : Type} (n : Nat) (xs : List α) :
    (List.replicate n xs).flatten.length = n * xs.length := by
  induction n with
  | zero => simp
  | succ n ih =>
    rw [List.replicate_succ, List.flatten_cons, List.length_append, ih]
    ring

theorem getElem?_flatten_replicate {α : Type} (n : Nat) (xs : List α) (k : Nat)
    (hk : k < n * xs.length) :
    (List.replicate n xs).flatten.get? k = xs.get? (k % xs.length) := by
  induction n generalizing k with
  | zero => simp at hk
  | succ n ih =>
    rw [List.replicate_succ, List.flatten_cons]
    by_cases h : k < xs.length
    · rw [List.get?_eq_getElem?, List.getElem?_append_left h, Nat.mod_eq_of_lt h,
        List.get?_eq_getElem?]
    · have hle : xs.length ≤ k := by omega
      have hpos : 0 < xs.length := by
        rcases Nat.eq_zero_or_pos xs.length with h0 | h0
        · rw [h0] at hk; simp at hk
        · exact h0
      rw [List.get?_eq_getElem?, List.getElem?_append_right hle, ← List.get?_eq_getElem?,
        ih (k - xs.length) (by rw [Nat.succ_mul] at hk; omega)]
      congr 1
      rw [Nat.mod_eq_sub_mod hle]

theorem CpuSet_eq_blit (size : Nat) (value : F) (base : Nat) (pDst : List F) :
    CpuSet size value base pDst
      = (blit base (List.replicate size value) (pDst, 0)).map Prod.fst := by
  unfold CpuSet
  rw [foldlM_const_blit base size [value] (fun c => put base value c)]
  · congr 2
    induction size with
    | zero => simp
    | succ n ih => rw [List.replicate_succ, List.flatten_cons, ih]; simp [List.replicate_succ]
  · intro c
    simp only [blit]
    cases put base value c <;> rfl

theorem varianceInner_eq_blit (variance : List F) (hv : 4 ≤ variance.length) (base : Nat)
    (c : Cursor F) :
    (List.range 4).foldlM
        (fun c j => do
          let v ← variance.get? j
          put base v c) c
      = blit base (variance.take 4) c := by
  have h := foldlM_eq_blit base
    (fun c j => do
      let v ← variance.get? j
      put base v c) (fun j => (variance.get? j).toList) (List.range 4) ?_ c
  · rw [h]
    congr 1
    match variance, hv with
    | a :: b :: c :: d :: rest, _ => rfl
  · intro j hj c
    have hj4 : j < variance.length := by
      have := List.mem_range.1 hj
      omega
    simp only [List.get?_eq_getElem?, List.getElem?_eq_getElem hj4, Option.toList_some, blit,
      bind, Option.bind]
    cases put base _ c <;> rfl

theorem varianceLoop_eq_blit (L : PriorBoxLayer F) (hv : L.variance.length = 4)
    (layerH layerW base : Nat) (pDst : List F) :
    varianceLoop L layerH layerW base pDst
      = (blit base (varianceValues L layerH layerW) (pDst, 0)).map Prod.fst := by
  unfold varianceLoop varianceValues
  rw [if_neg (by omega)]
  congr 1
  rw [← flatten_replicate_mul, ← flatten_replicate_mul]
  apply foldlM_const_blit
  intro c
  apply foldlM_const_blit
  intro c
  apply foldlM_const_blit
  intro c
  exact varianceInner_eq_blit L.variance (by omega) base c

theorem CpuSet_eq_varianceValues (L : PriorBoxLayer F) (hv : L.variance.length = 1)
    (dflt : F) (layerH layerW base : Nat) (pDst : List F) :
    CpuSet (layerH * layerW * L.numPriors * 4) (L.variance.getD 0 dflt) base pDst
      = (blit base (varianceValues L layerH layerW) (pDst, 0)).map Prod.fst := by
  rw [CpuSet_eq_blit]
  unfold varianceValues
  rw [if_pos hv]
  congr 2
  match hl : L.variance, hv with
  | [v], _ =>
    simp only [List.getD_cons_zero, List.take_succ_cons, List.take_zero]
    generalize layerH * layerW * L.numPriors * 4 = n
    induction n with
    | zero => simp
    | succ n ih => rw [List.replicate_succ, List.replicate_succ, List.flatten_cons, ← ih]; simp

theorem length_varianceValues (L : PriorBoxLayer F)
    (hv : L.variance.length = 1 ∨ L.variance.length = 4) (layerH layerW : Nat) :
    (varianceValues L layerH layerW).length = layerH * layerW * L.numPriors * 4 := by
  unfold varianceValues
  rcases hv with hv | hv
  · rw [if_pos hv, length_flatten_replicate, List.length_take, hv]; simp
  · rw [if_neg (by omega), length_flatten_replicate, List.length_take, hv]; simp

end VarianceLemmas
/-! ## `fill` in closed form -/

section FillLemmas

variable {F : Type}

/-- The coordinate block `pDst[0 .. dim)` after the loops over `h` and `w`: the values
stored, followed by the previous content of the places not stored to. -/
theorem fill_eq (A : Arith F) (L : PriorBoxLayer F) (g : Geometry F) (dst : Tensor F)
    (hL : L.MaxOk) (hv : L.variance.length = 1 ∨ L.variance.length = 4)
    (hshape : dst.shape = [1, 2, g.dim L]) (hdata : dst.data.length = 2 * g.dim L)
    (hn : (coords A L g.layerH g.layerW g.imgW g.imgH g.stepW g.stepH).length ≤ g.dim L) :
    fill A L g dst =
      some ((if L.clip then
              clipPass A ((coords A L g.layerH g.layerW g.imgW g.imgH g.stepW g.stepH
                ++ dst.data.drop
                    (coords A L g.layerH g.layerW g.imgW g.imgH g.stepW g.stepH).length).take
                  (g.dim L))
            else
              (coords A L g.layerH g.layerW g.imgW g.imgH g.stepW g.stepH
                ++ dst.data.drop
                    (coords A L g.layerH g.layerW g.imgW g.imgH g.stepW g.stepH).length).take
                  (g.dim L))
          ++ varianceValues L g.layerH g.layerW) := by
  unfold fill
  generalize hcs : coords A L g.layerH g.layerW g.imgW g.imgH g.stepW g.stepH = cs at hn ⊢
  have hbase : dst.Size 2 = g.dim L := by simp [Tensor.Size, hshape]
  rw [boxLoop_eq_blit A L hL, hcs, blit_of_le 0 cs (dst.data, 0) (by simp; omega)]
  simp only [Nat.zero_add, List.take_zero, List.nil_append, bind, Option.bind]
  have hb1 : (cs ++ List.drop cs.length dst.data).length = 2 * g.dim L := by
    rw [List.length_append, List.length_drop]; omega
  have key : ∀ X : List F, X.length = g.dim L →
      (if L.variance.length = 1 then
          CpuSet (g.dim L) (L.variance.getD 0 A.zero) (dst.Size 2) (X ++ dst.data.drop (g.dim L))
        else varianceLoop L g.layerH g.layerW (dst.Size 2) (X ++ dst.data.drop (g.dim L)))
        = some (X ++ varianceValues L g.layerH g.layerW) := by
    intro X hX
    have hvv := length_varianceValues L hv g.layerH g.layerW
    have hblit : (blit (dst.Size 2) (varianceValues L g.layerH g.layerW)
        (X ++ dst.data.drop (g.dim L), 0)).map Prod.fst
        = some (X ++ varianceValues L g.layerH g.layerW) := by
      rw [blit_of_le]
      · simp only [Nat.add_zero, Option.map_some', Option.some.injEq, hbase]
        rw [List.take_left' hX, List.drop_eq_nil_of_le, List.append_nil]
        simp only [List.length_append, List.length_drop, hvv, hX, Geometry.dim]
        simp only [Geometry.dim] at hdata
        omega
      · simp only [Nat.add_zero, hbase, List.length_append, List.length_drop, hvv, hX]
        simp only [Geometry.dim] at hdata ⊢
        omega
    by_cases h1 : L.variance.length = 1
    · rw [if_pos h1]
      have := CpuSet_eq_varianceValues L h1 A.zero g.layerH g.layerW (dst.Size 2)
        (X ++ dst.data.drop (g.dim L))
      simp only [Geometry.dim] at this ⊢
      rw [this]; exact hblit
    · rw [if_neg h1]
      have h4 : L.variance.length = 4 := by omega
      rw [varianceLoop_eq_blit L h4]; exact hblit
  have hsplit : cs ++ List.drop cs.length dst.data
      = (cs ++ List.drop cs.length dst.data).take (g.dim L) ++ dst.data.drop (g.dim L) := by
    conv_lhs => rw [← List.take_append_drop (g.dim L) (cs ++ List.drop cs.length dst.data)]
    congr 1
    rw [List.drop_append_eq_append_drop, List.drop_eq_nil_of_le hn, List.nil_append,
      List.drop_drop]
    congr 1; omega
  have htl : ((cs ++ List.drop cs.length dst.data).take (g.dim L)).length = g.dim L := by
    rw [List.length_take, hb1]; omega
  by_cases hc : L.clip = true
  · simp only [hc, if_true]
    rw [clipLoop_eq A (g.dim L) _ (by rw [hb1]; omega)]
    simp only
    have hd : List.drop (g.dim L) (cs ++ List.drop cs.length dst.data)
        = dst.data.drop (g.dim L) := by
      rw [List.drop_append_eq_append_drop, List.drop_eq_nil_of_le hn, List.nil_append,
        List.drop_drop]
      congr 1; omega
    rw [hd]
    exact key _ (by simp only [clipPass, List.length_map]; exact htl)
  · simp only [hc, if_false, Bool.false_eq_true]
    rw [hsplit]
    have := key _ htl
    rw [this]
    congr 2
    rw [← hsplit]

end FillLemmas
/-! ## `Setup` -/

section SetupLemmas

variable {F : Type}

theorem Setup_eq_none_iff (A : Arith F) (p : PriorBoxParam F) :
    Setup A p = none ↔
      (p.maxSize.length > 0 ∧ p.minSize.length ≠ p.maxSize.length) ∨
        (p.variance.length > 1 ∧ p.variance.length ≠ 4) := by
  unfold Setup resolveVariance
  by_cases h1 : p.maxSize.length > 0 ∧ p.minSize.length ≠ p.maxSize.length
  · simp [h1]
  · rw [if_neg h1]
    by_cases h2 : p.variance.length > 1
    · by_cases h3 : p.variance.length = 4
      · simp [h1, h2, h3]
      · simp [h1, h2, h3]
    · by_cases h4 : p.variance.length = 1
      · simp [h1, h2, h4]
      · simp [h1, h2, h4]

theorem resolveVariance_length (A : Arith F) (variance v : List F)
    (h : resolveVariance A variance = some v) : v.length = 1 ∨ v.length = 4 := by
  unfold resolveVariance at h
  by_cases h2 : variance.length > 1
  · rw [if_pos h2] at h
    by_cases h3 : variance.length = 4
    · rw [if_pos h3] at h
      simp only [Option.some.injEq] at h
      subst h; exact Or.inr h3
    · rw [if_neg h3] at h; simp at h
  · rw [if_neg h2] at h
    by_cases h4 : variance.length = 1
    · rw [if_pos h4] at h
      simp only [Option.some.injEq] at h
      subst h; exact Or.inl rfl
    · rw [if_neg h4] at h
      simp only [Option.some.injEq] at h
      subst h; exact Or.inl rfl

/-- What an accepted `Setup` stores. -/
theorem Setup_some (A : Arith F) (p : PriorBoxParam F) (L : PriorBoxLayer F)
    (h : Setup A p = some L) :
    L.minSizes = p.minSize ∧ L.maxSizes = p.maxSize ∧
      L.aspectRatios = resolveAspectRatios A p.flip p.aspectRatio ∧
      L.numPriors = L.aspectRatios.length * L.minSizes.length + L.maxSizes.length ∧
      L.MaxOk ∧ resolveVariance A p.variance = some L.variance ∧
      L.clip = p.clip ∧ L.flip = p.flip ∧ L.offset = p.offset ∧
      (L.imgH, L.imgW) = resolvePair 0 p.imgSize ∧
      (L.stepH, L.stepW) = resolvePair A.zero p.step := by
  unfold Setup at h
  by_cases h1 : p.maxSize.length > 0 ∧ p.minSize.length ≠ p.maxSize.length
  · rw [if_pos h1] at h; simp at h
  · rw [if_neg h1] at h
    cases hv : resolveVariance A p.variance with
    | none => rw [hv] at h; simp at h
    | some v =>
      rw [hv] at h
      simp only [Option.some.injEq] at h
      subst h
      have hmax : (if p.maxSize.length > 0 then p.maxSize else []) = p.maxSize := by
        by_cases h0 : p.maxSize.length > 0
        · rw [if_pos h0]
        · rw [if_neg h0]
          have : p.maxSize.length = 0 := by omega
          exact (List.length_eq_zero.1 this).symm
      simp only [hmax, PriorBoxLayer.MaxOk, true_and]
      refine ⟨?_, ?_, trivial⟩
      · by_cases h0 : p.maxSize.length > 0
        · rw [if_pos h0]
        · rw [if_neg h0]; omega
      · intro h0
        by_contra hne
        exact h1 ⟨h0, fun e => hne e.symm⟩

theorem length_pushAspectRatio_ge (A : Arith F) (fl : Bool) (acc : List F) (r : F) :
    acc.length ≤ (pushAspectRatio A fl acc r).length := by
  unfold pushAspectRatio
  split
  · exact Nat.le_refl _
  · split <;> simp

theorem length_foldl_push_ge (A : Arith F) (fl : Bool) (input acc : List F) :
    acc.length ≤ (input.foldl (pushAspectRatio A fl) acc).length := by
  induction input generalizing acc with
  | nil => exact Nat.le_refl _
  | cons r rs ih =>
    exact Nat.le_trans (length_pushAspectRatio_ge A fl acc r) (ih _)

theorem length_resolveAspectRatios_pos (A : Arith F) (fl : Bool) (input : List F) :
    1 ≤ (resolveAspectRatios A fl input).length :=
  length_foldl_push_ge A fl input [A.one]

theorem resolveAspectRatios_append (A : Arith F) (fl : Bool) (xs ys : List F) :
    resolveAspectRatios A fl (xs ++ ys)
      = ys.foldl (pushAspectRatio A fl) (resolveAspectRatios A fl xs) := by
  simp [resolveAspectRatios, List.foldl_append]

/-- Removing a ratio that `Setup` finds already present changes nothing. -/
theorem resolveAspectRatios_remove (A : Arith F) (fl : Bool) (pre post : List F) (r : F)
    (h : alreadyExist A r (resolveAspectRatios A fl pre) = true) :
    resolveAspectRatios A fl (pre ++ r :: post) = resolveAspectRatios A fl (pre ++ post) := by
  rw [resolveAspectRatios_append, resolveAspectRatios_append, List.foldl_cons]
  congr 1
  simp [pushAspectRatio, h]

/-- The resolved list is `1.0f` followed by configured ratios that `Setup` found not to be
within `1e-6` of `1.0f` and, with `flip`, their reciprocals. -/
theorem resolveAspectRatios_shape (A : Arith F) (fl : Bool) (input : List F) :
    ∃ tl, resolveAspectRatios A fl input = A.one :: tl ∧
      ∀ t ∈ tl, ∃ r ∈ input, A.absLtEps (A.sub r A.one) = false ∧
        (t = r ∨ (fl = true ∧ t = A.div A.one r)) := by
  unfold resolveAspectRatios
  suffices hgen : ∀ (inp : List F) (tl : List F),
      (∀ t ∈ tl, ∃ r ∈ input, A.absLtEps (A.sub r A.one) = false ∧
        (t = r ∨ (fl = true ∧ t = A.div A.one r))) →
      (∀ r ∈ inp, r ∈ input) →
      ∃ tl', inp.foldl (pushAspectRatio A fl) (A.one :: tl) = A.one :: tl' ∧
        ∀ t ∈ tl', ∃ r ∈ input, A.absLtEps (A.sub r A.one) = false ∧
          (t = r ∨ (fl = true ∧ t = A.div A.one r)) by
    exact hgen input [] (by simp) (fun r hr => hr)
  intro inp
  induction inp with
  | nil => intro tl htl _; exact ⟨tl, rfl, htl⟩
  | cons r rs ih =>
    intro tl htl hsub
    rw [List.foldl_cons]
    have hr : r ∈ input := hsub r (List.mem_cons_self _ _)
    have hrs : ∀ x ∈ rs, x ∈ input := fun x hx => hsub x (List.mem_cons_of_mem _ hx)
    unfold pushAspectRatio
    by_cases hex : alreadyExist A r (A.one :: tl) = true
    · rw [if_pos hex]; exact ih tl htl hrs
    · rw [if_neg hex]
      have hone : A.absLtEps (A.sub r A.one) = false := by
        simp only [alreadyExist, List.any_cons, Bool.or_eq_true, not_or,
          Bool.not_eq_true] at hex
        exact hex.1
      by_cases hf : fl = true
      · rw [if_pos hf]
        have e : A.one :: tl ++ [r] ++ [A.div A.one r] = A.one :: (tl ++ [r, A.div A.one r]) := by
          simp
        rw [e]
        apply ih _ _ hrs
        intro t ht
        rcases List.mem_append.1 ht with ht | ht
        · exact htl t ht
        · simp only [List.mem_cons, List.mem_singleton, List.not_mem_nil, or_false] at ht
          rcases ht with ht | ht
          · exact ⟨r, hr, hone, Or.inl ht⟩
          · exact ⟨r, hr, hone, Or.inr ⟨hf, ht⟩⟩
      · rw [if_neg hf]
        have e : A.one :: tl ++ [r] = A.one :: (tl ++ [r]) := by simp
        rw [e]
        apply ih _ _ hrs
        intro t ht
        rcases List.mem_append.1 ht with ht | ht
        · exact htl t ht
        · simp only [List.mem_singleton] at ht
          exact ⟨r, hr, hone, Or.inl ht⟩

end SetupLemmas
/-! ## Counting the stores -/

section CountLemmas

variable {F : Type}

theorem length_boxCoords (A : Arith F) (cx cy bw bh : F) (iw ih : Nat) :
    (boxCoords A cx cy bw bh iw ih).length = 4 := rfl

theorem length_flatMap_ratioCoords (A : Arith F) (cx cy : F) (minS : Int) (iw ih : Nat)
    (ars : List F) :
    (ars.flatMap (ratioCoords A cx cy minS iw ih)).length
      = (ars.filter fun ar => !A.nearOne ar).length * 4 := by
  induction ars with
  | nil => rfl
  | cons a as ih' =>
    rw [List.flatMap_cons, List.length_append, ih', List.filter_cons]
    unfold ratioCoords
    by_cases h : A.nearOne a = true
    · simp [h]
    · simp only [Bool.not_eq_true] at h
      simp [h, length_boxCoords]
      ring

theorem length_sizeCoords (A : Arith F) (L : PriorBoxLayer F) (cx cy : F) (iw ih : Nat)
    (minSize maxSize : F) :
    (sizeCoords A L cx cy iw ih minSize maxSize).length
      = (1 + (if L.maxSizes.length > 0 then 1 else 0)
          + (L.aspectRatios.filter fun ar => !A.nearOne ar).length) * 4 := by
  unfold sizeCoords
  rw [List.length_append, List.length_append, length_flatMap_ratioCoords, length_boxCoords]
  by_cases h : L.maxSizes.length > 0
  · simp only [h, if_true, length_boxCoords]; ring
  · simp only [h, if_false, List.length_nil]; ring

theorem length_flatMap_const {α β : Type} (l : List α) (f : α → List β) (c : Nat)
    (hc : ∀ x ∈ l, (f x).length = c) : (l.flatMap f).length = l.length * c := by
  induction l with
  | nil => simp
  | cons a as ih =>
    rw [List.flatMap_cons, List.length_append, hc a (List.mem_cons_self _ _),
      ih (fun x hx => hc x (List.mem_cons_of_mem _ hx)), List.length_cons]
    ring

theorem length_cellCoords (A : Arith F) (L : PriorBoxLayer F) (iw ih : Nat) (stepW stepH : F)
    (h w : Nat) :
    (cellCoords A L iw ih stepW stepH h w).length = boxesPerCell A L * 4 := by
  unfold cellCoords boxesPerCell
  rw [length_flatMap_const _ _ _ (fun s _ => length_sizeCoords A L _ _ iw ih _ _),
    List.length_range]
  ring

theorem length_coords (A : Arith F) (L : PriorBoxLayer F) (layerH layerW iw ih : Nat)
    (stepW stepH : F) :
    (coords A L layerH layerW iw ih stepW stepH).length
      = layerH * layerW * boxesPerCell A L * 4 := by
  unfold coords
  rw [length_flatMap_const _ _ (layerW * (boxesPerCell A L * 4)), List.length_range]
  · ring
  · intro h _
    rw [length_flatMap_const _ _ _ (fun w _ => length_cellCoords A L iw ih stepW stepH h w),
      List.length_range]

/-- With `1.0f` found to be within `1e-6` of `1`, a cell never receives more than
`_numPriors` boxes. -/
theorem boxesPerCell_le (A : Arith F) (hA : A.nearOne A.one = true) (p : PriorBoxParam F)
    (L : PriorBoxLayer F) (h : Setup A p = some L) : boxesPerCell A L ≤ L.numPriors := by
  obtain ⟨-, -, har, hnp, hmax, -⟩ := Setup_some A p L h
  obtain ⟨tl, htl, -⟩ := resolveAspectRatios_shape A p.flip p.aspectRatio
  rw [htl] at har
  unfold boxesPerCell
  rw [hnp, har, List.filter_cons]
  simp only [hA, Bool.not_true, Bool.false_eq_true, if_false, List.length_cons]
  have hf : (tl.filter fun ar => !A.nearOne ar).length ≤ tl.length := List.length_filter_le _ _
  by_cases h0 : L.maxSizes.length > 0
  · rw [if_pos h0, hmax h0]
    nlinarith [Nat.mul_le_mul_left L.minSizes.length hf]
  · rw [if_neg h0]
    have : L.maxSizes.length = 0 := by omega
    rw [this]
    nlinarith [Nat.mul_le_mul_left L.minSizes.length hf]

/-- A cell receives exactly `_numPriors` boxes when, besides, no configured ratio that
`Setup` keeps, and no reciprocal it adds, is found to be within `1e-6` of `1` by line 190. -/
theorem boxesPerCell_eq (A : Arith F) (hA : A.nearOne A.one = true) (p : PriorBoxParam F)
    (L : PriorBoxLayer F) (h : Setup A p = some L)
    (hsafe : ∀ r ∈ p.aspectRatio, A.absLtEps (A.sub r A.one) = false →
      A.nearOne r = false ∧ (p.flip = true → A.nearOne (A.div A.one r) = false)) :
    boxesPerCell A L = L.numPriors := by
  obtain ⟨-, -, har, hnp, hmax, -⟩ := Setup_some A p L h
  obtain ⟨tl, htl, hshape⟩ := resolveAspectRatios_shape A p.flip p.aspectRatio
  rw [htl] at har
  unfold boxesPerCell
  rw [hnp, har, List.filter_cons]
  simp only [hA, Bool.not_true, Bool.false_eq_true, if_false, List.length_cons]
  have hf : (tl.filter fun ar => !A.nearOne ar) = tl := by
    rw [List.filter_eq_self]
    intro t ht
    obtain ⟨r, hr, hr1, hcase⟩ := hshape t ht
    rcases hcase with e | ⟨hfl, e⟩
    · rw [e, (hsafe r hr hr1).1]; rfl
    · rw [e, (hsafe r hr hr1).2 hfl]; rfl
  rw [hf]
  by_cases h0 : L.maxSizes.length > 0
  · rw [if_pos h0, hmax h0]; ring
  · rw [if_neg h0]
    have : L.maxSizes.length = 0 := by omega
    rw [this]; ring

theorem get?_flatMap_const {α β : Type} (l : List α) (f : α → List β) (c : Nat)
    (hc : ∀ x ∈ l, (f x).length = c) (i j : Nat) (hi : i < l.length) (hj : j < c) :
    (l.flatMap f).get? (i * c + j) = (f (l.get ⟨i, hi⟩)).get? j := by
  induction l generalizing i with
  | nil => simp at hi
  | cons a as ih =>
    rw [List.flatMap_cons]
    have ha : (f a).length = c := hc a (List.mem_cons_self _ _)
    cases i with
    | zero =>
      simp only [Nat.zero_mul, Nat.zero_add, List.get?_eq_getElem?]
      rw [List.getElem?_append_left (by omega)]
      rfl
    | succ i =>
      simp only [List.get?_eq_getElem?]
      rw [List.getElem?_append_right (by rw [ha, Nat.succ_mul]; omega)]
      have e : (i + 1) * c + j - (f a).length = i * c + j := by
        rw [ha, Nat.succ_mul]; omega
      rw [e]
      have hi' : i < as.length := by simpa using hi
      have := ih (fun x hx => hc x (List.mem_cons_of_mem _ hx)) i hi'
      simp only [List.get?_eq_getElem?] at this
      rw [this]
      rfl

end CountLemmas
/-! ## `ForwardCpu` in closed form -/

section ForwardLemmas

variable {F : Type}

theorem resolveGeometry_eq_some (A : Arith F) (L : PriorBoxLayer F) (src : List (Tensor F))
    (g : Geometry F) (hg : resolveGeometry A L src = some g) :
    ∃ t, src.get? 0 = some t ∧ t.Axis 3 = some g.layerW ∧ t.Axis 2 = some g.layerH ∧
      resolveImg L src = some (g.imgW, g.imgH) ∧
      resolveStep A L g.layerW g.layerH g.imgW g.imgH = (g.stepW, g.stepH) := by
  unfold resolveGeometry at hg
  cases h0 : src.get? 0 with
  | none => rw [h0] at hg; exact absurd hg (by simp)
  | some t =>
    rw [h0] at hg
    simp only at hg
    split at hg
    · rename_i W H iw ih h3 h2 hi
      simp only [Option.some.injEq] at hg
      subst hg
      exact ⟨t, rfl, h3, h2, hi, rfl⟩
    · exact absurd hg (by simp)

theorem resolveGeometry_layer (A : Arith F) (L : PriorBoxLayer F) (src : List (Tensor F))
    (g : Geometry F) (hg : resolveGeometry A L src = some g) :
    ∃ t, src.get? 0 = some t ∧ t.Axis 3 = some g.layerW ∧ t.Axis 2 = some g.layerH := by
  obtain ⟨t, h0, h3, h2, -⟩ := resolveGeometry_eq_some A L src g hg
  exact ⟨t, h0, h3, h2⟩

/-- The shape `Reshape` gives: `[1, 2, dim mod 2^64]`. -/
theorem Reshape_of_geometry (A : Arith F) (L : PriorBoxLayer F) (src : List (Tensor F))
    (g : Geometry F) (hg : resolveGeometry A L src = some g) :
    Reshape L src = some [1, 2, g.dim L % 2 ^ 64] := by
  obtain ⟨t, h0, h3, h2⟩ := resolveGeometry_layer A L src g hg
  unfold Reshape
  rw [h0]
  simp only [h3, h2, bind, Option.bind, Geometry.dim, Nat.mul_comm g.layerW g.layerH]

/-- When `dim` is below `2^64`, `Reshape` gives the shape `[1, 2, dim]`. -/
theorem Reshape_of_lt (A : Arith F) (L : PriorBoxLayer F) (src : List (Tensor F))
    (g : Geometry F) (hg : resolveGeometry A L src = some g) (hlt : g.dim L < 2 ^ 64) :
    Reshape L src = some [1, 2, g.dim L] := by
  rw [Reshape_of_geometry A L src g hg, Nat.mod_eq_of_lt hlt]

/-- The output of `ForwardCpu` on a tensor of the shape `[1, 2, dim]`: the coordinate block, clipped
or not, followed by the variance block. -/
theorem ForwardCpu_closed (A : Arith F) (L : PriorBoxLayer F) (src : List (Tensor F))
    (dst : Tensor F) (g : Geometry F) (hok : L.MaxOk)
    (hv : L.variance.length = 1 ∨ L.variance.length = 4)
    (hb : boxesPerCell A L ≤ L.numPriors)
    (hg : resolveGeometry A L src = some g) (hR : dst.shape = [1, 2, g.dim L])
    (hD : dst.data.length = dst.shape.prod) :
    ForwardCpu A L src dst =
      some ((if L.clip then
              clipPass A ((coords A L g.layerH g.layerW g.imgW g.imgH g.stepW g.stepH
                ++ dst.data.drop
                    (coords A L g.layerH g.layerW g.imgW g.imgH g.stepW g.stepH).length).take
                  (g.dim L))
            else
              (coords A L g.layerH g.layerW g.imgW g.imgH g.stepW g.stepH
                ++ dst.data.drop
                    (coords A L g.layerH g.layerW g.imgW g.imgH g.stepW g.stepH).length).take
                  (g.dim L))
          ++ varianceValues L g.layerH g.layerW) := by
  have hshape := hR
  have hdata : dst.data.length = 2 * g.dim L := by
    rw [hD, hshape]; simp
  have hn : (coords A L g.layerH g.layerW g.imgW g.imgH g.stepW g.stepH).length ≤ g.dim L := by
    rw [length_coords, Geometry.dim]
    exact Nat.mul_le_mul_right 4 (Nat.mul_le_mul_left _ hb)
  unfold ForwardCpu
  simp only [hg, bind, Option.bind]
  exact fill_eq A L g dst hok hv hshape hdata hn

theorem Setup_variance_length (A : Arith F) (p : PriorBoxParam F) (L : PriorBoxLayer F)
    (hS : Setup A p = some L) : L.variance.length = 1 ∨ L.variance.length = 4 := by
  obtain ⟨-, -, -, -, -, hv, -⟩ := Setup_some A p L hS
  exact resolveVariance_length A p.variance L.variance hv

theorem clamp_cases (A : Arith F) (x : F) :
    (clamp A x = A.zero ∨ clamp A x = A.one ∨
      (clamp A x = x ∧ A.lt x A.zero = false ∧ A.lt A.one x = false)) := by
  unfold clamp stdMin stdMax
  by_cases h1 : A.lt x A.zero = true
  · simp [h1, A.lt_one_zero]
  · simp only [Bool.not_eq_true] at h1
    by_cases h2 : A.lt A.one x = true
    · simp [h1, h2]
    · simp only [Bool.not_eq_true] at h2
      simp [h1, h2]

theorem clamp_range (A : Arith F) (x : F) :
    A.lt (clamp A x) A.zero = false ∧ A.lt A.one (clamp A x) = false := by
  rcases clamp_cases A x with h | h | ⟨h, h1, h2⟩
  · rw [h]; exact ⟨A.lt_zero_zero, A.lt_one_zero⟩
  · rw [h]; exact ⟨A.lt_one_zero, A.lt_one_one⟩
  · rw [h]; exact ⟨h1, h2⟩

theorem clamp_idem (A : Arith F) (x : F) : clamp A (clamp A x) = clamp A x := by
  rcases clamp_cases A x with h | h | ⟨h, h1, h2⟩
  · rw [h]; simp [clamp, stdMin, stdMax, A.lt_one_zero]
  · rw [h]; simp [clamp, stdMin, stdMax, A.lt_one_zero, A.lt_one_one]
  · rw [h]; simp [clamp, stdMin, stdMax, h1, h2]

end ForwardLemmas
/-! ## Where a cell's values lie in the coordinate block -/

section LayoutLemmas

variable {F : Type}

theorem coords_get? (A : Arith F) (L : PriorBoxLayer F) (layerH layerW iw ih : Nat)
    (stepW stepH : F) (h w k : Nat) (hh : h < layerH) (hw : w < layerW)
    (hk : k < boxesPerCell A L * 4) :
    (coords A L layerH layerW iw ih stepW stepH).get?
        ((h * layerW + w) * (boxesPerCell A L * 4) + k)
      = (cellCoords A L iw ih stepW stepH h w).get? k := by
  unfold coords
  have e : (h * layerW + w) * (boxesPerCell A L * 4) + k
      = h * (layerW * (boxesPerCell A L * 4)) + (w * (boxesPerCell A L * 4) + k) := by ring
  have hj : w * (boxesPerCell A L * 4) + k < layerW * (boxesPerCell A L * 4) := by
    have : (w + 1) * (boxesPerCell A L * 4) ≤ layerW * (boxesPerCell A L * 4) :=
      Nat.mul_le_mul_right _ hw
    rw [Nat.succ_mul] at this
    omega
  rw [e, get?_flatMap_const (List.range layerH) _ (layerW * (boxesPerCell A L * 4)) ?_ h _
    (by rw [List.length_range]; exact hh) hj]
  · simp only [List.get_eq_getElem, List.getElem_range]
    rw [get?_flatMap_const (List.range layerW) _ (boxesPerCell A L * 4)
      (fun w' _ => length_cellCoords A L iw ih stepW stepH h w') w k
      (by rw [List.length_range]; exact hw) hk]
    simp only [List.get_eq_getElem, List.getElem_range]
  · intro h' _
    rw [length_flatMap_const _ _ _ (fun w' _ => length_cellCoords A L iw ih stepW stepH h' w'),
      List.length_range]

theorem cellCoords_head (A : Arith F) (L : PriorBoxLayer F) (iw ih : Nat) (stepW stepH : F)
    (h w : Nat) (m0 : F) (rest : List F) (hmin : L.minSizes = m0 :: rest) :
    ∃ tl, cellCoords A L iw ih stepW stepH h w =
      boxCoords A (A.mul (A.add (A.ofNat w) L.offset) stepW)
        (A.mul (A.add (A.ofNat h) L.offset) stepH)
        (A.ofInt (A.toInt m0)) (A.ofInt (A.toInt m0)) iw ih ++ tl := by
  unfold cellCoords
  rw [hmin, List.length_cons, List.range_succ_eq_map, List.flatMap_cons]
  simp only [List.getD_cons_zero, sizeCoords, List.append_assoc]
  exact ⟨_, rfl⟩

end LayoutLemmas
/-! ## The output for an accepted configuration -/

section AcceptedLemmas

variable {F : Type}

theorem Setup_clip (A : Arith F) (p : PriorBoxParam F) (b : Bool) :
    Setup A { p with clip := b } = (Setup A p).map fun L => { L with clip := b } := by
  unfold Setup
  simp only
  split
  · rfl
  · cases resolveVariance A p.variance <;> rfl

/-- The coordinate block before the clip pass. -/
theorem ForwardCpu_accepted (A : Arith F) (p : PriorBoxParam F) (L : PriorBoxLayer F)
    (src : List (Tensor F)) (dst : Tensor F) (g : Geometry F) (hS : Setup A p = some L)
    (hg : resolveGeometry A L src = some g) (hR : dst.shape = [1, 2, g.dim L])
    (hD : dst.data.length = dst.shape.prod) :
    ∃ blk : List F, blk.length = g.dim L ∧
      (boxesPerCell A L = L.numPriors →
        blk = coords A L g.layerH g.layerW g.imgW g.imgH g.stepW g.stepH) ∧
      ∀ b : Bool, ForwardCpu A { L with clip := b } src dst =
        some ((if b then clipPass A blk else blk) ++ varianceValues L g.layerH g.layerW) := by
  obtain ⟨-, -, -, -, hok, -⟩ := Setup_some A p L hS
  have hv := Setup_variance_length A p L hS
  have hb := boxesPerCell_le A A.nearOne_one p L hS
  have hshape := hR
  have hdata : dst.data.length = 2 * g.dim L := by
    rw [hD, hshape]; simp
  have hn : (coords A L g.layerH g.layerW g.imgW g.imgH g.stepW g.stepH).length ≤ g.dim L := by
    rw [length_coords, Geometry.dim]
    exact Nat.mul_le_mul_right 4 (Nat.mul_le_mul_left _ hb)
  refine ⟨(coords A L g.layerH g.layerW g.imgW g.imgH g.stepW g.stepH
      ++ dst.data.drop (coords A L g.layerH g.layerW g.imgW g.imgH g.stepW g.stepH).length).take
        (g.dim L), ?_, ?_, ?_⟩
  · rw [List.length_take, List.length_append, List.length_drop]
    omega
  · intro hbox
    apply List.take_left'
    rw [length_coords, hbox, Geometry.dim]
  · intro b
    have := ForwardCpu_closed A { L with clip := b } src dst g hok hv hb hg hR hD
    rw [this]
    rfl

theorem get?_varianceValues (L : PriorBoxLayer F) (layerH layerW k : Nat)
    (hv : L.variance.length = 1 ∨ L.variance.length = 4)
    (hk : k < layerH * layerW * L.numPriors * 4) :
    (varianceValues L layerH layerW).get? k = L.variance.get? (k % L.variance.length) := by
  unfold varianceValues
  rcases hv with hv | hv
  · rw [if_pos hv]
    have ht : L.variance.take 1 = L.variance := List.take_of_length_le (by omega)
    rw [ht, getElem?_flatten_replicate _ _ _ (by rw [hv]; omega)]
  · rw [if_neg (by omega)]
    have ht : L.variance.take 4 = L.variance := List.take_of_length_le (by omega)
    rw [ht, getElem?_flatten_replicate _ _ _ (by rw [hv]; exact hk)]

end AcceptedLemmas
section LayoutTheorem

/-- The four values a cell's first box leaves in the output. -/
theorem row_major_layout {F : Type} (A : Arith F) (p : PriorBoxParam F)
    (L : PriorBoxLayer F) (src : List (Tensor F)) (dst : Tensor F) (g : Geometry F)
    (m0 : F) (rest : List F) (h w : Nat)
    (hS : Setup A p = some L) (hclip : p.clip = false) (hmin : p.minSize = m0 :: rest)
    (hbox : boxesPerCell A L = L.numPriors)
    (hg : resolveGeometry A L src = some g) (hR : dst.shape = [1, 2, g.dim L])
    (hD : dst.data.length = dst.shape.prod) (hh : h < g.layerH) (hw : w < g.layerW) :
    ∃ out, ForwardCpu A L src dst = some out ∧
      out.get? ((h * g.layerW + w) * L.numPriors * 4) =
        some (A.div (A.sub (A.mul (A.add (A.ofNat w) p.offset) g.stepW)
          (A.div (A.ofInt (A.toInt m0)) A.two)) (A.ofNat g.imgW)) ∧
      out.get? ((h * g.layerW + w) * L.numPriors * 4 + 1) =
        some (A.div (A.sub (A.mul (A.add (A.ofNat h) p.offset) g.stepH)
          (A.div (A.ofInt (A.toInt m0)) A.two)) (A.ofNat g.imgH)) ∧
      out.get? ((h * g.layerW + w) * L.numPriors * 4 + 2) =
        some (A.div (A.add (A.mul (A.add (A.ofNat w) p.offset) g.stepW)
          (A.div (A.ofInt (A.toInt m0)) A.two)) (A.ofNat g.imgW)) ∧
      out.get? ((h * g.layerW + w) * L.numPriors * 4 + 3) =
        some (A.div (A.add (A.mul (A.add (A.ofNat h) p.offset) g.stepH)
          (A.div (A.ofInt (A.toInt m0)) A.two)) (A.ofNat g.imgH)) := by
  obtain ⟨hmn, -, -, -, hok, -, hcl, -, hoff, -⟩ := Setup_some A p L hS
  have hv := Setup_variance_length A p L hS
  have hFw := ForwardCpu_closed A L src dst g hok hv (le_of_eq hbox) hg hR hD
  rw [hcl, hclip] at hFw
  simp only [Bool.false_eq_true, if_false] at hFw
  have hlen : (coords A L g.layerH g.layerW g.imgW g.imgH g.stepW g.stepH).length = g.dim L := by
    rw [length_coords, hbox, Geometry.dim]
  rw [List.take_left' hlen] at hFw
  refine ⟨_, hFw, ?_⟩
  have hmin' : L.minSizes = m0 :: rest := by rw [hmn, hmin]
  obtain ⟨tl, htl⟩ := cellCoords_head A L g.imgW g.imgH g.stepW g.stepH h w m0 rest hmin'
  have hpos : 1 ≤ boxesPerCell A L := by
    unfold boxesPerCell
    rw [hmin']
    simp only [List.length_cons]
    have : 1 * 1 ≤ (rest.length + 1) * (1 + (if L.maxSizes.length > 0 then 1 else 0)
        + (L.aspectRatios.filter fun ar => !A.nearOne ar).length) :=
      Nat.mul_le_mul (by omega) (by omega)
    omega
  have key : ∀ k, k < 4 →
      (coords A L g.layerH g.layerW g.imgW g.imgH g.stepW g.stepH
          ++ varianceValues L g.layerH g.layerW).get? ((h * g.layerW + w) * L.numPriors * 4 + k)
        = (boxCoords A (A.mul (A.add (A.ofNat w) L.offset) g.stepW)
            (A.mul (A.add (A.ofNat h) L.offset) g.stepH)
            (A.ofInt (A.toInt m0)) (A.ofInt (A.toInt m0)) g.imgW g.imgH).get? k := by
    intro k hk
    have hk' : k < boxesPerCell A L * 4 := by omega
    have hidx : (h * g.layerW + w) * L.numPriors * 4 + k
        = (h * g.layerW + w) * (boxesPerCell A L * 4) + k := by rw [hbox]; ring
    have hlt : (h * g.layerW + w) * (boxesPerCell A L * 4) + k
        < (coords A L g.layerH g.layerW g.imgW g.imgH g.stepW g.stepH).length := by
      rw [length_coords]
      have h1 : h * g.layerW + w + 1 ≤ g.layerH * g.layerW := by
        have : (h + 1) * g.layerW ≤ g.layerH * g.layerW := Nat.mul_le_mul_right _ hh
        rw [Nat.succ_mul] at this
        omega
      have h2 : (h * g.layerW + w + 1) * (boxesPerCell A L * 4)
          ≤ g.layerH * g.layerW * (boxesPerCell A L * 4) := Nat.mul_le_mul_right _ h1
      rw [Nat.succ_mul] at h2
      have h3 : g.layerH * g.layerW * boxesPerCell A L * 4
          = g.layerH * g.layerW * (boxesPerCell A L * 4) := by ring
      omega
    rw [hidx, List.get?_eq_getElem?, List.getElem?_append_left hlt, ← List.get?_eq_getElem?,
      coords_get? A L g.layerH g.layerW g.imgW g.imgH g.stepW g.stepH h w k hh hw hk', htl,
      List.get?_eq_getElem?, List.getElem?_append_left (by rw [length_boxCoords]; exact hk),
      List.get?_eq_getElem?]
  rw [← hoff]
  refine ⟨?_, ?_, ?_, ?_⟩
  · have := key 0 (by omega)
    rw [Nat.add_zero] at this
    rw [this]; rfl
  · rw [key 1 (by omega)]; rfl
  · rw [key 2 (by omega)]; rfl
  · rw [key 3 (by omega)]; rfl


end LayoutTheorem
section Scenario

theorem scenario_Setup_exact (sqrt : ℚ → ℚ) :
    Setup (exactArith sqrt) scenarioParamExact = some scenarioLayerExact := by
  norm_num [Setup, resolveAspectRatios, pushAspectRatio, alreadyExist, resolveVariance,
    resolvePair, exactArith, scenarioParamExact, scenarioLayerExact, abs_lt]

theorem scenario_geometry_exact (sqrt : ℚ → ℚ) :
    resolveGeometry (exactArith sqrt) scenarioLayerExact (scenarioSrc ℚ)
      = some scenarioGeometryExact := by
  norm_num [resolveGeometry, resolveImg, resolveStep, exactArith, scenarioLayerExact,
    scenarioSrc, scenarioGeometryExact, Tensor.Axis]

theorem scenario_boxes_exact (sqrt : ℚ → ℚ) :
    boxesPerCell (exactArith sqrt) scenarioLayerExact = scenarioLayerExact.numPriors := by
  norm_num [boxesPerCell, exactArith, scenarioLayerExact, List.filter, abs_lt]

theorem scenario_Setup_f32 (sqrt : Fp → Fp) (sqrtInt : Int → Fp) :
    Setup (f32Arith sqrt sqrtInt) scenarioParam = some scenarioLayer := by
  rfl

theorem scenario_geometry_f32 (sqrt : Fp → Fp) (sqrtInt : Int → Fp) :
    resolveGeometry (f32Arith sqrt sqrtInt) scenarioLayer (scenarioSrc Fp)
      = some scenarioGeometry := by
  rfl

theorem scenario_boxes_f32 (sqrt : Fp → Fp) (sqrtInt : Int → Fp) :
    boxesPerCell (f32Arith sqrt sqrtInt) scenarioLayer = scenarioLayer.numPriors := by
  rfl

theorem boxLoop_count {F : Type} (A : Arith F) (p : PriorBoxParam F) (L : PriorBoxLayer F)
    (hS : Setup A p = some L) (hbox : boxesPerCell A L = L.numPriors)
    (layerH layerW imgW imgH : Nat) (stepW stepH : F) (pDst : List F)
    (hle : layerH * layerW * L.numPriors * 4 ≤ pDst.length) :
    ∃ buf, boxLoop A L layerH layerW imgW imgH stepW stepH pDst
      = some (buf, layerH * layerW * L.numPriors * 4) := by
  obtain ⟨-, -, -, -, hok, -⟩ := Setup_some _ p L hS
  have hlen := length_coords A L layerH layerW imgW imgH stepW stepH
  rw [hbox] at hlen
  rw [boxLoop_eq_blit _ L hok, blit_of_le 0 _ (pDst, 0) (by simp only [hlen]; omega), hlen]
  simp only [Nat.zero_add]
  exact ⟨_, rfl⟩

end Scenario
/-! ## A feature map without cells -/

section ZeroSized

variable {F : Type}

theorem foldlM_some_id {α β : Type} (l : List α) (c : β) :
    l.foldlM (fun (c : β) (_ : α) => (some c : Option β)) c = some c := by
  induction l generalizing c with
  | nil => rfl
  | cons x xs ih => rw [List.foldlM_cons]; exact ih c

/-- With `layerH = 0` or `layerW = 0` no loop of `ForwardCpu` has an iteration (`dim` is 0
as well): nothing is stored and the buffer is returned as it was. -/
theorem fill_zero_sized (A : Arith F) (L : PriorBoxLayer F) (g : Geometry F) (dst : Tensor F)
    (h0 : g.layerH = 0 ∨ g.layerW = 0) : fill A L g dst = some dst.data := by
  have hdim : g.dim L = 0 := by
    unfold Geometry.dim
    rcases h0 with h | h <;> simp [h]
  have hbox : boxLoop A L g.layerH g.layerW g.imgW g.imgH g.stepW g.stepH dst.data
      = some (dst.data, 0) := by
    unfold boxLoop
    rcases h0 with h | h
    · rw [h]; rfl
    · rw [h]
      exact foldlM_some_id (List.range g.layerH) (dst.data, 0)
  have hvar : varianceLoop L g.layerH g.layerW (dst.Size 2) dst.data = some dst.data := by
    unfold varianceLoop
    rcases h0 with h | h
    · rw [h]; rfl
    · rw [h]
      have := foldlM_some_id (List.range g.layerH) ((dst.data, 0) : Cursor F)
      simp only [List.range_zero, List.foldlM_nil] at this ⊢
      change Option.map Prod.fst (List.foldlM (fun (c : Cursor F) (_ : Nat) => some c)
        (dst.data, 0) (List.range g.layerH)) = some dst.data
      rw [this]; rfl
  unfold fill
  rw [hbox, hdim]
  simp only [bind, Option.bind]
  have hc0 : clipLoop A 0 dst.data = some dst.data := rfl
  have hset : CpuSet 0 (L.variance.getD 0 A.zero) (dst.Size 2) dst.data = some dst.data := rfl
  rw [hc0]
  by_cases hc : L.clip = true <;> by_cases hv : L.variance.length = 1 <;>
    simp only [hc, hv, if_true, if_false, hset, hvar] <;> trivial

end ZeroSized

/-! ## The sizes enter through `(int)` only -/

section Truncation

variable {F : Type}

/-- The body of the loop over `s` reads `_minSizes[s]` and `_maxSizes[s]` through the cast
`(int)` and nothing else. -/
theorem sizeStep_eq_trunc (A : Arith F) (L : PriorBoxLayer F) (cx cy : F) (iw ih : Nat)
    (c : Cursor F) (s : Nat) :
    sizeStep A L cx cy iw ih c s =
      ((L.minSizes.map A.toInt).get? s).bind fun minS =>
        (putBox A cx cy (A.ofInt minS) (A.ofInt minS) iw ih c).bind fun c =>
          (if (L.maxSizes.map A.toInt).length > 0 then
              ((L.maxSizes.map A.toInt).get? s).bind fun maxS =>
                putBox A cx cy (A.sqrtInt (mulInt32 minS maxS)) (A.sqrtInt (mulInt32 minS maxS))
                  iw ih c
            else some c).bind fun c =>
            L.aspectRatios.foldlM (ratioStep A cx cy minS iw ih) c := by
  unfold sizeStep
  simp only [List.get?_eq_getElem?, List.getElem?_map, List.length_map]
  cases L.minSizes[s]? with
  | none => rfl
  | some m =>
    simp only [Option.map_some', Option.some_bind, bind, Option.bind]
    cases putBox A cx cy (A.ofInt (A.toInt m)) (A.ofInt (A.toInt m)) iw ih c with
    | none => rfl
    | some c1 =>
      simp only
      by_cases hm : L.maxSizes.length > 0
      · simp only [hm, if_true]
        cases L.maxSizes[s]? with
        | none => rfl
        | some x => rfl
      · simp only [hm, if_false]

/-- Two layers that differ in `_minSizes` and `_maxSizes` only, the truncations of the
sizes being the same, run the same `ForwardCpu`. -/
theorem ForwardCpu_congr_trunc (A : Arith F) (L L' : PriorBoxLayer F)
    (hmin : L'.minSizes.map A.toInt = L.minSizes.map A.toInt)
    (hmax : L'.maxSizes.map A.toInt = L.maxSizes.map A.toInt)
    (hrest : { L' with minSizes := L.minSizes, maxSizes := L.maxSizes } = L)
    (src : List (Tensor F)) (dst : Tensor F) :
    ForwardCpu A L' src dst = ForwardCpu A L src dst := by
  have har : L'.aspectRatios = L.aspectRatios := by rw [← hrest]
  have hvar : L'.variance = L.variance := by rw [← hrest]
  have hclip : L'.clip = L.clip := by rw [← hrest]
  have hnum : L'.numPriors = L.numPriors := by rw [← hrest]
  have hiw : L'.imgW = L.imgW := by rw [← hrest]
  have hih : L'.imgH = L.imgH := by rw [← hrest]
  have hsw : L'.stepW = L.stepW := by rw [← hrest]
  have hsh : L'.stepH = L.stepH := by rw [← hrest]
  have hoff : L'.offset = L.offset := by rw [← hrest]
  have hlen : L'.minSizes.length = L.minSizes.length := by
    have := congrArg List.length hmin
    simpa using this
  have hsize : ∀ cx cy iw ih c s,
      sizeStep A L' cx cy iw ih c s = sizeStep A L cx cy iw ih c s := by
    intro cx cy iw ih c s
    rw [sizeStep_eq_trunc, sizeStep_eq_trunc, hmin, hmax, har]
  have hcell : ∀ iw ih sw sh h c w,
      cellStep A L' iw ih sw sh h c w = cellStep A L iw ih sw sh h c w := by
    intro iw ih sw sh h c w
    unfold cellStep
    rw [hlen, hoff]
    have hf : ∀ cx cy, sizeStep A L' cx cy iw ih = sizeStep A L cx cy iw ih := by
      intro cx cy
      funext c s
      exact hsize _ _ _ _ _ _
    simp only [hf]
  have hbox : ∀ lh lw iw ih sw sh buf,
      boxLoop A L' lh lw iw ih sw sh buf = boxLoop A L lh lw iw ih sw sh buf := by
    intro lh lw iw ih sw sh buf
    unfold boxLoop
    have hf : ∀ h, cellStep A L' iw ih sw sh h = cellStep A L iw ih sw sh h := by
      intro h
      funext c w
      exact hcell _ _ _ _ _ _ _
    simp only [hf]
  have hvl : ∀ lh lw base buf,
      varianceLoop L' lh lw base buf = varianceLoop L lh lw base buf := by
    intro lh lw base buf
    unfold varianceLoop
    rw [hnum, hvar]
  have hgeo : resolveGeometry A L' src = resolveGeometry A L src := by
    unfold resolveGeometry resolveImg resolveStep
    rw [hiw, hih, hsw, hsh]
  have hfill : ∀ g, fill A L' g dst = fill A L g dst := by
    intro g
    unfold fill Geometry.dim
    rw [hbox, hnum, hclip, hvar]
    simp only [hvl]
  unfold ForwardCpu
  rw [hgeo]
  cases resolveGeometry A L src with
  | none => rfl
  | some g => exact hfill g

end Truncation

/-! ## The ratios kept by `Setup` -/

section Kept

variable {F : Type}

/-- A value that the comparison of line 57 finds equal to itself, and that is not found in
the list, is not an element of the list. -/
theorem not_mem_of_alreadyExist_false (A : Arith F) (r : F) (acc : List F)
    (hrefl : A.absLtEps (A.sub r r) = true) (h : alreadyExist A r acc = false) : r ∉ acc := by
  intro hm
  have : alreadyExist A r acc = true := by
    unfold alreadyExist
    exact List.any_eq_true.2 ⟨r, hm, hrefl⟩
  rw [h] at this
  cases this

/-- The list resolved by `Setup` is `1.0f` followed by the configured ratios that were kept
(each followed by its reciprocal when `flip` is set); a kept ratio was not found by line 57
among the entries before it. -/
theorem resolveAspectRatios_kept (A : Arith F) (fl : Bool) (input : List F) :
    ∃ kept : List F,
      resolveAspectRatios A fl input
        = A.one :: (if fl then kept.flatMap (fun r => [r, A.div A.one r]) else kept) ∧
      (∀ r ∈ kept, r ∈ input) ∧
      ∀ pre r post, kept = pre ++ r :: post →
        alreadyExist A r
          (A.one :: (if fl then pre.flatMap (fun r => [r, A.div A.one r]) else pre)) = false := by
  induction input using List.reverseRecOn with
  | nil =>
    refine ⟨[], ?_, ?_, ?_⟩
    · cases fl <;> rfl
    · intro r hr; cases hr
    · intro pre r post h
      cases pre <;> cases h
  | append_singleton xs x ih =>
    obtain ⟨kept, hk, hmem, hdec⟩ := ih
    rw [resolveAspectRatios_append, List.foldl_cons, List.foldl_nil]
    unfold pushAspectRatio
    by_cases hex : alreadyExist A x (resolveAspectRatios A fl xs) = true
    · rw [if_pos hex]
      exact ⟨kept, hk, fun r hr => List.mem_append_left _ (hmem r hr), hdec⟩
    · rw [if_neg hex]
      have hex' : alreadyExist A x (resolveAspectRatios A fl xs) = false := by
        simpa using hex
      refine ⟨kept ++ [x], ?_, ?_, ?_⟩
      · rw [hk]
        cases fl
        · simp
        · simp [List.flatMap_append]
      · intro r hr
        rcases List.mem_append.1 hr with h | h
        · exact List.mem_append_left _ (hmem r h)
        · exact List.mem_append_right _ h
      · intro pre r post h
        rcases List.eq_nil_or_concat post with hp | ⟨post', y, hp⟩
        · subst hp
          have h2 := List.append_inj' h (by simp)
          obtain ⟨e1, e2⟩ := h2
          have e3 : x = r := by simpa using e2
          subst e3
          subst e1
          rw [hk] at hex'
          exact hex'
        · subst hp
          have h' : kept ++ [x] = (pre ++ r :: post') ++ [y] := by
            rw [h]; simp
          have h2 := List.append_inj' h' (by simp)
          exact hdec pre r post' h2.1

/-- A list in which no element occurs among the elements before it has no two equal
entries. -/
theorem nodup_of_not_mem_earlier {α : Type} (l : List α)
    (h : ∀ pre r post, l = pre ++ r :: post → r ∉ pre) : l.Nodup := by
  induction l with
  | nil => exact List.nodup_nil
  | cons a l ih =>
    rw [List.nodup_cons]
    constructor
    · intro ha
      obtain ⟨s, t, hst⟩ := List.append_of_mem ha
      have := h (a :: s) a t (by rw [hst]; rfl)
      exact this (List.mem_cons_self a s)
    · apply ih
      intro pre r post hl
      have := h (a :: pre) r post (by rw [hl]; rfl)
      intro hr
      exact this (List.mem_cons_of_mem a hr)

end Kept

/-! ## Exact arithmetic: the geometry of a box -/

section ExactGeometry

variable {K : Type} [LinearOrderedField K] [FloorRing K]

/-- On the rationals `fieldArith` is `exactArith`. -/
theorem exactArith_eq_fieldArith (sqrt : ℚ → ℚ) : exactArith sqrt = fieldArith sqrt := by
  unfold exactArith fieldArith truncRat
  congr

/-- Exact arithmetic: the four stores of lines 194-197 for a ratio that is not skipped, and
the width and height of the box they describe, `sqrt ar` being a square root of `ar`. -/
theorem ratioStep_exact (sqrt : K → K) (cx cy : K) (minS : Int) (imgW imgH : Nat) (ar : K)
    (buf : List K) (n : Nat) (hsq : sqrt ar * sqrt ar = ar) (har : 0 < ar)
    (hbox : (fieldArith sqrt).nearOne ar = false) (hiw : imgW ≠ 0) (hih : imgH ≠ 0)
    (hroom : n + 4 ≤ buf.length) :
    ∃ xmin ymin xmax ymax : K,
      ratioStep (fieldArith sqrt) cx cy minS imgW imgH (buf, n) ar
        = some (buf.take n ++ [xmin, ymin, xmax, ymax] ++ buf.drop (n + 4), n + 4) ∧
      (xmax - xmin) * imgW = minS * sqrt ar ∧
      (ymax - ymin) * imgH = minS / sqrt ar ∧
      (xmax - xmin) * imgW = ar * ((ymax - ymin) * imgH) ∧
      (xmax - xmin) * imgW * ((ymax - ymin) * imgH) = minS * minS := by
  have hs0 : sqrt ar ≠ 0 := by
    intro h0
    rw [h0, mul_zero] at hsq
    rw [← hsq] at har
    exact lt_irrefl _ har
  have hw0 : (imgW : K) ≠ 0 := Nat.cast_ne_zero.2 hiw
  have hh0 : (imgH : K) ≠ 0 := Nat.cast_ne_zero.2 hih
  have hrc : ratioCoords (fieldArith sqrt) cx cy minS imgW imgH ar
      = [(cx - (minS : K) * sqrt ar / 2) / imgW, (cy - (minS : K) / sqrt ar / 2) / imgH,
         (cx + (minS : K) * sqrt ar / 2) / imgW, (cy + (minS : K) / sqrt ar / 2) / imgH] := by
    unfold ratioCoords
    rw [hbox]
    rfl
  have hW : ((cx + (minS : K) * sqrt ar / 2) / imgW - (cx - (minS : K) * sqrt ar / 2) / imgW)
      * imgW = minS * sqrt ar := by
    field_simp
    ring
  have hH : ((cy + (minS : K) / sqrt ar / 2) / imgH - (cy - (minS : K) / sqrt ar / 2) / imgH)
      * imgH = minS / sqrt ar := by
    field_simp
    ring
  refine ⟨_, _, _, _, ?_, hW, hH, ?_, ?_⟩
  · rw [ratioStep_eq_blit, hrc, blit_of_le 0 _ (buf, n) (by simpa using hroom)]
    simp
  · rw [hW, hH]
    calc (minS : K) * sqrt ar = sqrt ar * sqrt ar * ((minS : K) / sqrt ar) := by
          field_simp
          ring
      _ = ar * ((minS : K) / sqrt ar) := by rw [hsq]
  · rw [hW, hH]
    field_simp
    ring

/-- Exact arithmetic: the width and the height of the box that four stored corners
describe. -/
theorem boxCoords_exact (sqrt : K → K) (cx cy bw bh : K) (iw ih : Nat) (hiw : iw ≠ 0)
    (hih : ih ≠ 0) :
    ∃ xmin ymin xmax ymax : K,
      boxCoords (fieldArith sqrt) cx cy bw bh iw ih = [xmin, ymin, xmax, ymax] ∧
      (xmax - xmin) * iw = bw ∧ (ymax - ymin) * ih = bh := by
  have hw0 : (iw : K) ≠ 0 := Nat.cast_ne_zero.2 hiw
  have hh0 : (ih : K) ≠ 0 := Nat.cast_ne_zero.2 hih
  refine ⟨(cx - bw / 2) / iw, (cy - bh / 2) / ih, (cx + bw / 2) / iw, (cy + bh / 2) / ih,
    rfl, ?_, ?_⟩
  · field_simp
    ring
  · field_simp
    ring

end ExactGeometry

/-! ## The sizes and steps in effect -/

section Effective

variable {F : Type}

/-- Lines 138-148 with both configured image sizes non-zero: `src[1]` is not looked at. -/
theorem resolveImg_configured (L : PriorBoxLayer F) (src : List (Tensor F))
    (hH : L.imgH ≠ 0) (hW : L.imgW ≠ 0) : resolveImg L src = some (L.imgW, L.imgH) := by
  unfold resolveImg
  rw [if_neg (by rintro (h | h) <;> contradiction)]

/-- Lines 138-148 with a configured image size that is zero: both sizes are those of
`src[1]`. -/
theorem resolveImg_runtime (L : PriorBoxLayer F) (src : List (Tensor F)) (t1 : Tensor F)
    (ih iw : Nat) (hz : L.imgH = 0 ∨ L.imgW = 0) (h1 : src.get? 1 = some t1)
    (h2 : t1.Axis 2 = some ih) (h3 : t1.Axis 3 = some iw) :
    resolveImg L src = some (iw, ih) := by
  unfold resolveImg
  rw [if_pos hz, h1]
  simp only [h2, h3]

/-- Lines 136-159 when every tensor read is there. -/
theorem resolveGeometry_of_parts (A : Arith F) (L : PriorBoxLayer F) (src : List (Tensor F))
    (t0 : Tensor F) (lw lh iw ih : Nat) (h0 : src.get? 0 = some t0)
    (h3 : t0.Axis 3 = some lw) (h2 : t0.Axis 2 = some lh)
    (hi : resolveImg L src = some (iw, ih)) :
    resolveGeometry A L src =
      some { layerW := lw, layerH := lh, imgW := iw, imgH := ih,
             stepW := (resolveStep A L lw lh iw ih).1,
             stepH := (resolveStep A L lw lh iw ih).2 } := by
  unfold resolveGeometry
  rw [h0]
  simp only [h3, h2, hi]

/-- With both configured image sizes non-zero, `ForwardCpu` reads `src[0]` only. -/
theorem ForwardCpu_configured (A : Arith F) (L : PriorBoxLayer F) (src src' : List (Tensor F))
    (dst : Tensor F) (hH : L.imgH ≠ 0) (hW : L.imgW ≠ 0) (h0 : src'.get? 0 = src.get? 0) :
    ForwardCpu A L src' dst = ForwardCpu A L src dst := by
  have hg : resolveGeometry A L src' = resolveGeometry A L src := by
    unfold resolveGeometry
    rw [h0, resolveImg_configured L src hH hW, resolveImg_configured L src' hH hW]
  unfold ForwardCpu
  rw [hg]

end Effective

/-! ## The boxes of a cell -/

section CellBoxes

variable {F : Type}

/-- The values stored by one pass of the loop over `s` are those of a sequence of boxes with
the centre of the cell. -/
theorem sizeCoords_boxes (A : Arith F) (L : PriorBoxLayer F) (cx cy : F) (iw ih : Nat)
    (minSize maxSize : F) :
    ∃ dims : List (F × F),
      sizeCoords A L cx cy iw ih minSize maxSize
        = dims.flatMap fun d => boxCoords A cx cy d.1 d.2 iw ih := by
  refine ⟨[(A.ofInt (A.toInt minSize), A.ofInt (A.toInt minSize))]
      ++ (if L.maxSizes.length > 0 then
            [(A.sqrtInt (mulInt32 (A.toInt minSize) (A.toInt maxSize)),
              A.sqrtInt (mulInt32 (A.toInt minSize) (A.toInt maxSize)))]
          else [])
      ++ (L.aspectRatios.flatMap fun ar =>
            if A.nearOne ar then []
            else [(A.mul (A.ofInt (A.toInt minSize)) (A.sqrt ar),
                   A.div (A.ofInt (A.toInt minSize)) (A.sqrt ar))]), ?_⟩
  unfold sizeCoords
  rw [List.flatMap_append, List.flatMap_append, List.flatMap_singleton, List.flatMap_assoc]
  congr 1
  · congr 1
    split
    · rw [List.flatMap_singleton]
    · rfl
  · congr 1
    funext ar
    unfold ratioCoords
    split
    · rfl
    · rw [List.flatMap_singleton]

/-- The values stored for a cell are those of `boxesPerCell` boxes with the centre of the
cell. -/
theorem cellCoords_boxes (A : Arith F) (L : PriorBoxLayer F) (iw ih : Nat) (stepW stepH : F)
    (h w : Nat) :
    ∃ dims : List (F × F), dims.length = boxesPerCell A L ∧
      cellCoords A L iw ih stepW stepH h w
        = dims.flatMap fun d =>
            boxCoords A (A.mul (A.add (A.ofNat w) L.offset) stepW)
              (A.mul (A.add (A.ofNat h) L.offset) stepH) d.1 d.2 iw ih := by
  have hex : ∃ dims : List (F × F),
      cellCoords A L iw ih stepW stepH h w
        = dims.flatMap fun d =>
            boxCoords A (A.mul (A.add (A.ofNat w) L.offset) stepW)
              (A.mul (A.add (A.ofNat h) L.offset) stepH) d.1 d.2 iw ih := by
    unfold cellCoords
    generalize List.range L.minSizes.length = ss
    induction ss with
    | nil => exact ⟨[], rfl⟩
    | cons s ss ihs =>
      obtain ⟨d2, hd2⟩ := ihs
      obtain ⟨d1, hd1⟩ := sizeCoords_boxes A L (A.mul (A.add (A.ofNat w) L.offset) stepW)
        (A.mul (A.add (A.ofNat h) L.offset) stepH) iw ih
        (L.minSizes.getD s A.zero) (L.maxSizes.getD s A.zero)
      refine ⟨d1 ++ d2, ?_⟩
      rw [List.flatMap_cons, List.flatMap_append, hd1, hd2]
  obtain ⟨dims, hd⟩ := hex
  refine ⟨dims, ?_, hd⟩
  have h1 := length_cellCoords A L iw ih stepW stepH h w
  rw [hd, length_flatMap_const dims _ 4 (fun d _ => length_boxCoords A _ _ d.1 d.2 iw ih)] at h1
  omega

/-- The `k`-th box stored for the cell `(h, w)`: four values at the places `4k .. 4k + 3`
of the cell's values, which are the corners of a box with the centre of the cell. -/
theorem cellCoords_box (A : Arith F) (L : PriorBoxLayer F) (iw ih : Nat) (stepW stepH : F)
    (h w k : Nat) (hk : k < boxesPerCell A L) :
    ∃ bw bh : F, ∀ i, i < 4 →
      (cellCoords A L iw ih stepW stepH h w).get? (k * 4 + i)
        = (boxCoords A (A.mul (A.add (A.ofNat w) L.offset) stepW)
            (A.mul (A.add (A.ofNat h) L.offset) stepH) bw bh iw ih).get? i := by
  obtain ⟨dims, hlen, hd⟩ := cellCoords_boxes A L iw ih stepW stepH h w
  have hk' : k < dims.length := by rw [hlen]; exact hk
  refine ⟨(dims.get ⟨k, hk'⟩).1, (dims.get ⟨k, hk'⟩).2, ?_⟩
  intro i hi
  rw [hd, get?_flatMap_const dims _ 4 (fun d _ => length_boxCoords A _ _ d.1 d.2 iw ih) k i
    hk' hi]

/-- Without clipping, the places of the coordinate block that the loops over `h` and `w`
store to hold the values stored. -/
theorem ForwardCpu_get?_coords (A : Arith F) (p : PriorBoxParam F) (L : PriorBoxLayer F)
    (src : List (Tensor F)) (dst : Tensor F) (g : Geometry F) (hS : Setup A p = some L)
    (hclip : p.clip = false) (hg : resolveGeometry A L src = some g)
    (hR : dst.shape = [1, 2, g.dim L]) (hD : dst.data.length = dst.shape.prod) :
    ∃ out, ForwardCpu A L src dst = some out ∧
      ∀ j, j < (coords A L g.layerH g.layerW g.imgW g.imgH g.stepW g.stepH).length →
        out.get? j = (coords A L g.layerH g.layerW g.imgW g.imgH g.stepW g.stepH).get? j := by
  obtain ⟨-, -, -, -, hok, -, hc, -⟩ := Setup_some A p L hS
  have hv := Setup_variance_length A p L hS
  have hb := boxesPerCell_le A A.nearOne_one p L hS
  have hrun := ForwardCpu_closed A L src dst g hok hv hb hg hR hD
  have hcl : L.clip = false := by rw [hc, hclip]
  rw [hcl] at hrun
  simp only [Bool.false_eq_true, if_false] at hrun
  refine ⟨_, hrun, ?_⟩
  intro j hj
  have hlen := length_coords A L g.layerH g.layerW g.imgW g.imgH g.stepW g.stepH
  have hle : (coords A L g.layerH g.layerW g.imgW g.imgH g.stepW g.stepH).length ≤ g.dim L := by
    rw [hlen]
    unfold Geometry.dim
    exact Nat.mul_le_mul_right 4 (Nat.mul_le_mul_left (g.layerH * g.layerW) hb)
  have hjd : j < g.dim L := by omega
  have hshape := hR
  have hdl : dst.data.length = 2 * g.dim L := by
    rw [hD, hshape]
    simp only [List.prod_cons, List.prod_nil]
    omega
  rw [List.get?_eq_getElem?, List.get?_eq_getElem?, List.getElem?_append_left,
    List.getElem?_take, if_pos hjd, List.getElem?_append_left hj]
  rw [List.length_take, List.length_append, List.length_drop]
  omega

/-- Without clipping, the `k`-th box stored for the cell `(h, w)` lies at the places
`((h*layerW + w)*boxesPerCell + k)*4 ..+3` of the output and is a box with the centre of
the cell. -/
theorem ForwardCpu_box (A : Arith F) (p : PriorBoxParam F) (L : PriorBoxLayer F)
    (src : List (Tensor F)) (dst : Tensor F) (g : Geometry F) (hS : Setup A p = some L)
    (hclip : p.clip = false) (hg : resolveGeometry A L src = some g)
    (hR : dst.shape = [1, 2, g.dim L]) (hD : dst.data.length = dst.shape.prod) :
    ∃ out, ForwardCpu A L src dst = some out ∧
      ∀ h w k, h < g.layerH → w < g.layerW → k < boxesPerCell A L →
        ∃ bw bh : F,
          out.get? (((h * g.layerW + w) * boxesPerCell A L + k) * 4)
            = some (A.div (A.sub (A.mul (A.add (A.ofNat w) L.offset) g.stepW)
                (A.div bw A.two)) (A.ofNat g.imgW)) ∧
          out.get? (((h * g.layerW + w) * boxesPerCell A L + k) * 4 + 1)
            = some (A.div (A.sub (A.mul (A.add (A.ofNat h) L.offset) g.stepH)
                (A.div bh A.two)) (A.ofNat g.imgH)) ∧
          out.get? (((h * g.layerW + w) * boxesPerCell A L + k) * 4 + 2)
            = some (A.div (A.add (A.mul (A.add (A.ofNat w) L.offset) g.stepW)
                (A.div bw A.two)) (A.ofNat g.imgW)) ∧
          out.get? (((h * g.layerW + w) * boxesPerCell A L + k) * 4 + 3)
            = some (A.div (A.add (A.mul (A.add (A.ofNat h) L.offset) g.stepH)
                (A.div bh A.two)) (A.ofNat g.imgH)) := by
  obtain ⟨out, hout, hget⟩ := ForwardCpu_get?_coords A p L src dst g hS hclip hg hR hD
  refine ⟨out, hout, ?_⟩
  intro h w k hh hw hk
  obtain ⟨bw, bh, hbox⟩ := cellCoords_box A L g.imgW g.imgH g.stepW g.stepH h w k hk
  have key : ∀ i, i < 4 →
      out.get? (((h * g.layerW + w) * boxesPerCell A L + k) * 4 + i)
        = (boxCoords A (A.mul (A.add (A.ofNat w) L.offset) g.stepW)
            (A.mul (A.add (A.ofNat h) L.offset) g.stepH) bw bh g.imgW g.imgH).get? i := by
    intro i hi
    have e : ((h * g.layerW + w) * boxesPerCell A L + k) * 4 + i
        = (h * g.layerW + w) * (boxesPerCell A L * 4) + (k * 4 + i) := by ring
    have hc := coords_get? A L g.layerH g.layerW g.imgW g.imgH g.stepW g.stepH h w (k * 4 + i)
      hh hw (by omega)
    rw [hbox i hi] at hc
    have hsome : ∃ v, (boxCoords A (A.mul (A.add (A.ofNat w) L.offset) g.stepW)
        (A.mul (A.add (A.ofNat h) L.offset) g.stepH) bw bh g.imgW g.imgH).get? i = some v := by
      have hlt : i < (boxCoords A (A.mul (A.add (A.ofNat w) L.offset) g.stepW)
          (A.mul (A.add (A.ofNat h) L.offset) g.stepH) bw bh g.imgW g.imgH).length := by
        rw [length_boxCoords]; exact hi
      exact ⟨_, List.get?_eq_get hlt⟩
    obtain ⟨v, hv⟩ := hsome
    have hlt : (h * g.layerW + w) * (boxesPerCell A L * 4) + (k * 4 + i)
        < (coords A L g.layerH g.layerW g.imgW g.imgH g.stepW g.stepH).length := by
      rw [hv] at hc
      exact (List.get?_eq_some.1 hc).1
    rw [e, hget _ hlt, hc]
  refine ⟨bw, bh, ?_, ?_, ?_, ?_⟩
  · have := key 0 (by omega)
    rw [Nat.add_zero] at this
    rw [this]; rfl
  · rw [key 1 (by omega)]; rfl
  · rw [key 2 (by omega)]; rfl
  · rw [key 3 (by omega)]; rfl

end CellBoxes

/-! ## Where the box of a ratio lies -/

section RatioBox

variable {F : Type}

theorem get?_append_offset {α : Type} (l1 l2 : List α) (n k : Nat) (h : l1.length = n) :
    (l1 ++ l2).get? (n + k) = l2.get? k := by
  rw [List.get?_eq_getElem?, List.get?_eq_getElem?,
    List.getElem?_append_right (by omega)]
  congr 1
  omega

/-- The ratios before place `j` that are not skipped are fewer than all the ratios that are
not skipped, the one at place `j` being one of them. -/
theorem count_take_lt {α : Type} (q : α → Bool) (l : List α) (j : Nat) (a : α)
    (hj : l.get? j = some a) (hq : q a = true) :
    ((l.take j).filter q).length < (l.filter q).length := by
  induction l generalizing j with
  | nil => cases hj
  | cons b bs ih =>
    cases j with
    | zero =>
      have hb : b = a := by simpa using hj
      subst hb
      simp [List.filter_cons, hq]
    | succ j =>
      have hj2 : bs.get? j = some a := by simpa using hj
      have := ih j hj2
      rw [List.take_succ_cons, List.filter_cons, List.filter_cons]
      by_cases hb : q b = true
      · simp only [hb, if_true, List.length_cons]; omega
      · simp only [hb, if_false]; exact this

/-- The values stored for the ratio at place `j`, which is not skipped, follow those of the
ratios before it that are not skipped. -/
theorem flatMap_ratioCoords_get? (A : Arith F) (cx cy : F) (minS : Int) (iw ih : Nat)
    (ars : List F) (j : Nat) (ar : F) (hj : ars.get? j = some ar)
    (hns : A.nearOne ar = false) (i : Nat) (hi : i < 4) :
    (ars.flatMap (ratioCoords A cx cy minS iw ih)).get?
        (((ars.take j).filter fun a => !A.nearOne a).length * 4 + i)
      = (boxCoords A cx cy (A.mul (A.ofInt minS) (A.sqrt ar))
          (A.div (A.ofInt minS) (A.sqrt ar)) iw ih).get? i := by
  induction ars generalizing j with
  | nil => cases hj
  | cons b bs ihb =>
    cases j with
    | zero =>
      have hb : b = ar := by simpa using hj
      subst hb
      have hrc : ratioCoords A cx cy minS iw ih b
          = boxCoords A cx cy (A.mul (A.ofInt minS) (A.sqrt b))
              (A.div (A.ofInt minS) (A.sqrt b)) iw ih := by
        unfold ratioCoords
        rw [hns]
        rfl
      rw [List.flatMap_cons, hrc]
      simp only [List.take_zero, List.filter_nil, List.length_nil, Nat.zero_mul, Nat.zero_add]
      rw [List.get?_eq_getElem?, List.get?_eq_getElem?,
        List.getElem?_append_left (by rw [length_boxCoords]; exact hi)]
    | succ j =>
      have hj2 : bs.get? j = some ar := by simpa using hj
      have hrec := ihb j hj2
      rw [List.flatMap_cons, List.take_succ_cons, List.filter_cons]
      by_cases hb : A.nearOne b = true
      · have hrc : ratioCoords A cx cy minS iw ih b = [] := by
          unfold ratioCoords
          rw [hb]
          rfl
        rw [hrc, List.nil_append]
        simp only [hb, Bool.not_true, Bool.false_eq_true, if_false]
        exact hrec
      · have hb2 : A.nearOne b = false := by simpa using hb
        have hrc : (ratioCoords A cx cy minS iw ih b).length = 4 := by
          unfold ratioCoords
          rw [hb2]
          rfl
        simp only [hb2, Bool.not_false, if_true, List.length_cons]
        have e : ((List.filter (fun a => !A.nearOne a) (List.take j bs)).length + 1) * 4 + i
            = 4 + ((List.filter (fun a => !A.nearOne a) (List.take j bs)).length * 4 + i) := by
          ring
        rw [e, get?_append_offset _ _ 4 _ hrc]
        exact hrec

/-- In one pass of the loop over `s`, the box of the ratio at place `j` follows the box of
the minimal size, the box of the maximal size when there is one, and the boxes of the ratios
before it that are not skipped. -/
theorem sizeCoords_ratio_get? (A : Arith F) (L : PriorBoxLayer F) (cx cy : F) (iw ih : Nat)
    (minSize maxSize : F) (j : Nat) (ar : F) (hj : L.aspectRatios.get? j = some ar)
    (hns : A.nearOne ar = false) (i : Nat) (hi : i < 4) :
    (sizeCoords A L cx cy iw ih minSize maxSize).get?
        ((1 + (if L.maxSizes.length > 0 then 1 else 0)
          + ((L.aspectRatios.take j).filter fun a => !A.nearOne a).length) * 4 + i)
      = (boxCoords A cx cy (A.mul (A.ofInt (A.toInt minSize)) (A.sqrt ar))
          (A.div (A.ofInt (A.toInt minSize)) (A.sqrt ar)) iw ih).get? i := by
  unfold sizeCoords
  have hlen : (boxCoords A cx cy (A.ofInt (A.toInt minSize)) (A.ofInt (A.toInt minSize)) iw ih
      ++ (if L.maxSizes.length > 0 then
            boxCoords A cx cy (A.sqrtInt (mulInt32 (A.toInt minSize) (A.toInt maxSize)))
              (A.sqrtInt (mulInt32 (A.toInt minSize) (A.toInt maxSize))) iw ih
          else [])).length = (1 + (if L.maxSizes.length > 0 then 1 else 0)) * 4 := by
    rw [List.length_append, length_boxCoords]
    by_cases h : L.maxSizes.length > 0
    · simp only [h, if_true, length_boxCoords]
    · simp only [h, if_false, List.length_nil]
  have e : (1 + (if L.maxSizes.length > 0 then 1 else 0)
        + ((L.aspectRatios.take j).filter fun a => !A.nearOne a).length) * 4 + i
      = (1 + (if L.maxSizes.length > 0 then 1 else 0)) * 4
        + (((L.aspectRatios.take j).filter fun a => !A.nearOne a).length * 4 + i) := by
    ring
  rw [e, get?_append_offset _ _ _ _ hlen]
  exact flatMap_ratioCoords_get? A cx cy (A.toInt minSize) iw ih L.aspectRatios j ar hj hns i hi

/-- Among the values stored for a cell, the box of the size at place `s` and the ratio at
place `j`. -/
theorem cellCoords_ratio_get? (A : Arith F) (L : PriorBoxLayer F) (iw ih : Nat)
    (stepW stepH : F) (h w s j : Nat) (minSize ar : F)
    (hs : L.minSizes.get? s = some minSize) (hj : L.aspectRatios.get? j = some ar)
    (hns : A.nearOne ar = false) (i : Nat) (hi : i < 4) :
    (cellCoords A L iw ih stepW stepH h w).get?
        ((s * (1 + (if L.maxSizes.length > 0 then 1 else 0)
              + (L.aspectRatios.filter fun a => !A.nearOne a).length)
          + (1 + (if L.maxSizes.length > 0 then 1 else 0)
              + ((L.aspectRatios.take j).filter fun a => !A.nearOne a).length)) * 4 + i)
      = (boxCoords A (A.mul (A.add (A.ofNat w) L.offset) stepW)
          (A.mul (A.add (A.ofNat h) L.offset) stepH)
          (A.mul (A.ofInt (A.toInt minSize)) (A.sqrt ar))
          (A.div (A.ofInt (A.toInt minSize)) (A.sqrt ar)) iw ih).get? i := by
  have hslt : s < L.minSizes.length := (List.get?_eq_some.1 hs).1
  have hgetD : L.minSizes.getD s A.zero = minSize := by
    rw [List.getD_eq_getElem?_getD, ← List.get?_eq_getElem?, hs]
    rfl
  have hcnt := count_take_lt (fun a => !A.nearOne a) L.aspectRatios j ar hj (by simp [hns])
  generalize hP : (1 + (if L.maxSizes.length > 0 then 1 else 0)
    + (L.aspectRatios.filter fun a => !A.nearOne a).length) = P at *
  generalize hC : ((L.aspectRatios.take j).filter fun a => !A.nearOne a).length = C at *
  generalize hM : (if L.maxSizes.length > 0 then 1 else 0) = M at *
  have e : (s * P + (1 + M + C)) * 4 + i = s * (P * 4) + ((1 + M + C) * 4 + i) := by ring
  have hlt : (1 + M + C) * 4 + i < P * 4 := by omega
  unfold cellCoords
  rw [e, get?_flatMap_const (List.range L.minSizes.length) _ (P * 4) ?_ s _
    (by rw [List.length_range]; exact hslt) hlt]
  · simp only [List.get_eq_getElem, List.getElem_range]
    rw [hgetD, ← hM, ← hC]
    exact sizeCoords_ratio_get? A L _ _ iw ih minSize _ j ar hj hns i hi
  · intro s' _
    rw [length_sizeCoords, hM, ← hP]

/-- Without clipping, the box stored for the cell `(h, w)`, the size at place `s` and the
ratio at place `j` (not skipped): where it lies in the output and what its corners are. -/
theorem ForwardCpu_ratio_box (A : Arith F) (p : PriorBoxParam F) (L : PriorBoxLayer F)
    (src : List (Tensor F)) (dst : Tensor F) (g : Geometry F) (hS : Setup A p = some L)
    (hclip : p.clip = false) (hg : resolveGeometry A L src = some g)
    (hR : dst.shape = [1, 2, g.dim L]) (hD : dst.data.length = dst.shape.prod) :
    ∃ out, ForwardCpu A L src dst = some out ∧
      ∀ (h w s j : Nat) (minSize ar : F), h < g.layerH → w < g.layerW →
        L.minSizes.get? s = some minSize → L.aspectRatios.get? j = some ar →
        A.nearOne ar = false →
        ∀ i, i < 4 →
          out.get? (((h * g.layerW + w) * boxesPerCell A L
              + (s * (1 + (if L.maxSizes.length > 0 then 1 else 0)
                    + (L.aspectRatios.filter fun a => !A.nearOne a).length)
                + (1 + (if L.maxSizes.length > 0 then 1 else 0)
                    + ((L.aspectRatios.take j).filter fun a => !A.nearOne a).length))) * 4 + i)
            = (boxCoords A (A.mul (A.add (A.ofNat w) L.offset) g.stepW)
                (A.mul (A.add (A.ofNat h) L.offset) g.stepH)
                (A.mul (A.ofInt (A.toInt minSize)) (A.sqrt ar))
                (A.div (A.ofInt (A.toInt minSize)) (A.sqrt ar)) g.imgW g.imgH).get? i := by
  obtain ⟨out, hout, hget⟩ := ForwardCpu_get?_coords A p L src dst g hS hclip hg hR hD
  refine ⟨out, hout, ?_⟩
  intro h w s j minSize ar hh hw hs hj hns i hi
  have hcell := cellCoords_ratio_get? A L g.imgW g.imgH g.stepW g.stepH h w s j minSize ar
    hs hj hns i hi
  generalize hk : (s * (1 + (if L.maxSizes.length > 0 then 1 else 0)
      + (L.aspectRatios.filter fun a => !A.nearOne a).length)
    + (1 + (if L.maxSizes.length > 0 then 1 else 0)
      + ((L.aspectRatios.take j).filter fun a => !A.nearOne a).length)) = k at *
  have hsome : ∃ v, (boxCoords A (A.mul (A.add (A.ofNat w) L.offset) g.stepW)
      (A.mul (A.add (A.ofNat h) L.offset) g.stepH)
      (A.mul (A.ofInt (A.toInt minSize)) (A.sqrt ar))
      (A.div (A.ofInt (A.toInt minSize)) (A.sqrt ar)) g.imgW g.imgH).get? i = some v := by
    have hlt : i < (boxCoords A (A.mul (A.add (A.ofNat w) L.offset) g.stepW)
        (A.mul (A.add (A.ofNat h) L.offset) g.stepH)
        (A.mul (A.ofInt (A.toInt minSize)) (A.sqrt ar))
        (A.div (A.ofInt (A.toInt minSize)) (A.sqrt ar)) g.imgW g.imgH).length := by
      rw [length_boxCoords]; exact hi
    exact ⟨_, List.get?_eq_get hlt⟩
  obtain ⟨v, hv⟩ := hsome
  have hklt : k * 4 + i < boxesPerCell A L * 4 := by
    have h1 := hcell
    rw [hv] at h1
    have h2 := (List.get?_eq_some.1 h1).1
    rw [length_cellCoords] at h2
    exact h2
  have hc := coords_get? A L g.layerH g.layerW g.imgW g.imgH g.stepW g.stepH h w (k * 4 + i)
    hh hw hklt
  have e : ((h * g.layerW + w) * boxesPerCell A L + k) * 4 + i
      = (h * g.layerW + w) * (boxesPerCell A L * 4) + (k * 4 + i) := by ring
  have hlt : (h * g.layerW + w) * (boxesPerCell A L * 4) + (k * 4 + i)
      < (coords A L g.layerH g.layerW g.imgW g.imgH g.stepW g.stepH).length := by
    have h1 := hc
    rw [hcell, hv] at h1
    exact (List.get?_eq_some.1 h1).1
  rw [e, hget _ hlt, hc, hcell]

end RatioBox

/-! ## Exact arithmetic: the box of a ratio in the output -/

section ExactRatioBox

variable {K : Type} [LinearOrderedField K] [FloorRing K]

/-- Exact arithmetic, `sqrt` giving a square root of every positive number: the box stored
for a cell, a size and a ratio `r > 0` that is not skipped has the width `m * sqrt r` and the
height `m / sqrt r`. -/
theorem ForwardCpu_ratio_box_exact (sqrt : K → K) (hsq : ∀ x, 0 < x → sqrt x * sqrt x = x)
    (p : PriorBoxParam K) (L : PriorBoxLayer K) (src : List (Tensor K)) (dst : Tensor K)
    (g : Geometry K) (hS : Setup (fieldArith sqrt) p = some L) (hclip : p.clip = false)
    (hg : resolveGeometry (fieldArith sqrt) L src = some g)
    (hR : dst.shape = [1, 2, g.dim L]) (hD : dst.data.length = dst.shape.prod)
    (hiw : g.imgW ≠ 0) (hih : g.imgH ≠ 0) :
    ∃ out, ForwardCpu (fieldArith sqrt) L src dst = some out ∧
      ∀ (h w s j : Nat) (minSize r : K), h < g.layerH → w < g.layerW →
        L.minSizes.get? s = some minSize → L.aspectRatios.get? j = some r → 0 < r →
        (fieldArith sqrt).nearOne r = false →
        ∃ xmin ymin xmax ymax : K,
          (∀ i, i < 4 →
            out.get? (((h * g.layerW + w) * boxesPerCell (fieldArith sqrt) L
                + (s * (1 + (if L.maxSizes.length > 0 then 1 else 0)
                      + (L.aspectRatios.filter fun a => !(fieldArith sqrt).nearOne a).length)
                  + (1 + (if L.maxSizes.length > 0 then 1 else 0)
                      + ((L.aspectRatios.take j).filter
                          fun a => !(fieldArith sqrt).nearOne a).length))) * 4 + i)
              = [xmin, ymin, xmax, ymax].get? i) ∧
          (xmax - xmin) * g.imgW = ((fieldArith sqrt).toInt minSize : K) * sqrt r ∧
          (ymax - ymin) * g.imgH = ((fieldArith sqrt).toInt minSize : K) / sqrt r ∧
          (xmax - xmin) * g.imgW = r * ((ymax - ymin) * g.imgH) ∧
          (xmax - xmin) * g.imgW * ((ymax - ymin) * g.imgH)
            = ((fieldArith sqrt).toInt minSize : K) * ((fieldArith sqrt).toInt minSize : K) := by
  obtain ⟨out, hout, hbox⟩ :=
    ForwardCpu_ratio_box (fieldArith sqrt) p L src dst g hS hclip hg hR hD
  refine ⟨out, hout, ?_⟩
  intro h w s j minSize r hh hw hs hj hr hns
  have hget := hbox h w s j minSize r hh hw hs hj hns
  obtain ⟨xmin, ymin, xmax, ymax, hbc, hW, hH⟩ :=
    boxCoords_exact sqrt
      ((fieldArith sqrt).mul ((fieldArith sqrt).add ((fieldArith sqrt).ofNat w) L.offset) g.stepW)
      ((fieldArith sqrt).mul ((fieldArith sqrt).add ((fieldArith sqrt).ofNat h) L.offset) g.stepH)
      ((fieldArith sqrt).mul ((fieldArith sqrt).ofInt ((fieldArith sqrt).toInt minSize))
        ((fieldArith sqrt).sqrt r))
      ((fieldArith sqrt).div ((fieldArith sqrt).ofInt ((fieldArith sqrt).toInt minSize))
        ((fieldArith sqrt).sqrt r))
      g.imgW g.imgH hiw hih
  have hs2 := hsq r hr
  have hs0 : sqrt r ≠ 0 := by
    intro h0
    rw [h0, mul_zero] at hs2
    rw [← hs2] at hr
    exact lt_irrefl _ hr
  have hW' : (xmax - xmin) * g.imgW = ((fieldArith sqrt).toInt minSize : K) * sqrt r := hW
  have hH' : (ymax - ymin) * g.imgH = ((fieldArith sqrt).toInt minSize : K) / sqrt r := hH
  refine ⟨xmin, ymin, xmax, ymax, ?_, hW', hH', ?_, ?_⟩
  · intro i hi
    rw [hget i hi, hbc]
  · rw [hW', hH']
    calc (((fieldArith sqrt).toInt minSize : Int) : K) * sqrt r
        = sqrt r * sqrt r * ((((fieldArith sqrt).toInt minSize : Int) : K) / sqrt r) := by
          field_simp
          ring
      _ = r * ((((fieldArith sqrt).toInt minSize : Int) : K) / sqrt r) := by rw [hs2]
  · rw [hW', hH']
    field_simp
    ring

end ExactRatioBox

/-! ## Values of floating-point data -/

section FloatValues

theorem two_zpow_pos (e : Int) : (0 : ℚ) < 2 ^ e := zpow_pos (by norm_num) e

theorem two_pow_toNat (k : Int) (hk : 0 ≤ k) : ((2 : ℚ) ^ k.toNat) = 2 ^ k := by
  rw [← zpow_natCast, Int.toNat_of_nonneg hk]

theorem scaled_toRat (s : Bool) (m : Nat) (e e0 : Int) (h : e0 ≤ e) :
    ((scaled s m e e0 : Int) : ℚ) * 2 ^ e0 = (Fp.fin s m e).toRat := by
  unfold scaled Fp.toRat
  have h2 : (2 : ℚ) ^ (e - e0) * 2 ^ e0 = 2 ^ e := by
    rw [← zpow_add₀ (by norm_num : (2 : ℚ) ≠ 0)]
    congr 1; omega
  push_cast
  rw [two_pow_toNat (e - e0) (by omega)]
  cases s
  · simp only [Bool.false_eq_true, if_false]
    rw [← h2]; ring
  · simp only [if_true]
    rw [← h2]; ring

theorem lt_fin_iff (s : Bool) (m : Nat) (e : Int) (t : Bool) (n : Nat) (e' : Int) :
    Fp.lt (Fp.fin s m e) (Fp.fin t n e') = true
      ↔ (Fp.fin s m e).toRat < (Fp.fin t n e').toRat := by
  unfold Fp.lt
  rw [decide_eq_true_iff, ← scaled_toRat s m e (min e e') (min_le_left _ _),
    ← scaled_toRat t n e' (min e e') (min_le_right _ _)]
  rw [mul_lt_mul_right (two_zpow_pos _)]
  exact Int.cast_lt.symm

theorem toRat_abs (s : Bool) (m : Nat) (e : Int) :
    (Fp.fin s m e).abs.toRat = |(Fp.fin s m e).toRat| := by
  unfold Fp.abs Fp.toRat
  have hp : (0 : ℚ) ≤ (m : ℚ) * 2 ^ e := mul_nonneg (Nat.cast_nonneg m) (two_zpow_pos e).le
  cases s
  · simp only [Bool.false_eq_true, if_false, one_mul]
    rw [abs_of_nonneg hp]
  · simp only [Bool.false_eq_true, if_false, if_true, one_mul]
    rw [neg_one_mul, neg_mul, abs_neg, abs_of_nonneg hp]

end FloatValues
/-! ## Rounding -/

section Rounding

theorem log2Aux_spec (fuel n : Nat) (h : n ≤ fuel) (hn : 0 < n) :
    2 ^ log2Aux fuel n ≤ n ∧ n < 2 ^ (log2Aux fuel n + 1) := by
  induction fuel generalizing n with
  | zero => omega
  | succ fuel ih =>
    unfold log2Aux
    by_cases h2 : 2 ≤ n
    · rw [if_pos h2]
      have hh := ih (n / 2) (by omega) (by omega)
      constructor
      · rw [pow_succ]
        have := Nat.div_mul_le_self n 2
        nlinarith [hh.1]
      · rw [pow_succ]
        have : n < (n / 2 + 1) * 2 := by omega
        nlinarith [hh.2]
    · rw [if_neg h2]
      constructor <;> simp <;> omega

theorem ilog2_spec (n : Nat) (hn : 0 < n) : 2 ^ ilog2 n ≤ n ∧ n < 2 ^ (ilog2 n + 1) :=
  log2Aux_spec n n (Nat.le_refl n) hn

theorem floorLog2_spec (N D : Nat) (hN : 0 < N) (hD : 0 < D) :
    (2 : ℚ) ^ floorLog2 N D ≤ (N : ℚ) / D ∧ (N : ℚ) / D < 2 ^ (floorLog2 N D + 1) := by
  obtain ⟨ha1, ha2⟩ := ilog2_spec N hN
  obtain ⟨hb1, hb2⟩ := ilog2_spec D hD
  have hDq : (0 : ℚ) < D := by exact_mod_cast hD
  have hpa : (0 : ℚ) < 2 ^ ilog2 N := by positivity
  have hpb : (0 : ℚ) < 2 ^ ilog2 D := by positivity
  have ha1q : (2 : ℚ) ^ ilog2 N ≤ N := by exact_mod_cast ha1
  have ha2q : (N : ℚ) < 2 ^ (ilog2 N + 1) := by exact_mod_cast ha2
  have hb1q : (2 : ℚ) ^ ilog2 D ≤ D := by exact_mod_cast hb1
  have hb2q : (D : ℚ) < 2 ^ (ilog2 D + 1) := by exact_mod_cast hb2
  have hsub : ∀ k : Int, (2 : ℚ) ^ ((ilog2 N : Int) - (ilog2 D : Int) + k)
      = 2 ^ ilog2 N / 2 ^ ilog2 D * 2 ^ k := by
    intro k
    rw [zpow_add₀ (by norm_num : (2 : ℚ) ≠ 0), zpow_sub₀ (by norm_num : (2 : ℚ) ≠ 0),
      zpow_natCast, zpow_natCast]
  unfold floorLog2
  by_cases hc : D * 2 ^ ilog2 N ≤ N * 2 ^ ilog2 D
  · rw [if_pos hc]
    have hcq : (D : ℚ) * 2 ^ ilog2 N ≤ N * 2 ^ ilog2 D := by exact_mod_cast hc
    constructor
    · have := hsub 0
      rw [add_zero, zpow_zero, mul_one] at this
      rw [this, div_le_div_iff₀ hpb hDq]
      linarith
    · rw [hsub 1, zpow_one, div_mul_eq_mul_div, div_lt_div_iff₀ hDq hpb]
      rw [pow_succ] at ha2q
      nlinarith
  · rw [if_neg hc]
    have hcq : (N : ℚ) * 2 ^ ilog2 D < D * 2 ^ ilog2 N := by
      have : N * 2 ^ ilog2 D < D * 2 ^ ilog2 N := by omega
      exact_mod_cast this
    constructor
    · have := hsub (-1)
      rw [← sub_eq_add_neg] at this
      rw [this, zpow_neg, zpow_one, div_mul_eq_mul_div, div_le_div_iff₀ hpb hDq]
      rw [pow_succ] at hb2q
      nlinarith
    · have e : (ilog2 N : Int) - (ilog2 D : Int) - 1 + 1 = (ilog2 N : Int) - (ilog2 D : Int) + 0 := by
        ring
      rw [e, hsub 0, zpow_zero, mul_one, div_lt_div_iff₀ hDq hpb]
      linarith

theorem roundHalfEven_spec (N D : Nat) (hD : 0 < D) :
    |((roundHalfEven N D : Nat) : ℚ) - (N : ℚ) / D| ≤ 1 / 2 := by
  have hDq : (0 : ℚ) < D := by exact_mod_cast hD
  have hdm : (N : ℚ) = D * (N / D : Nat) + (N % D : Nat) := by
    exact_mod_cast (Nat.div_add_mod N D).symm
  have hr : N % D < D := Nat.mod_lt N hD
  have hrq : ((N % D : Nat) : ℚ) < D := by exact_mod_cast hr
  have hr0 : (0 : ℚ) ≤ ((N % D : Nat) : ℚ) := Nat.cast_nonneg _
  have e0 : ((N / D : Nat) : ℚ) - (N : ℚ) / D = -(((N % D : Nat) : ℚ) / D) := by
    field_simp
    linarith
  have e1 : ((N / D + 1 : Nat) : ℚ) - (N : ℚ) / D = ((D : ℚ) - ((N % D : Nat) : ℚ)) / D := by
    push_cast
    field_simp
    linarith
  have lo : 2 * (N % D) ≤ D → |((N / D : Nat) : ℚ) - (N : ℚ) / D| ≤ 1 / 2 := by
    intro h
    have hq : 2 * ((N % D : Nat) : ℚ) ≤ D := by exact_mod_cast h
    rw [e0, abs_neg, abs_of_nonneg (div_nonneg hr0 hDq.le), div_le_iff₀ hDq]
    linarith
  have hi : D ≤ 2 * (N % D) → |((N / D + 1 : Nat) : ℚ) - (N : ℚ) / D| ≤ 1 / 2 := by
    intro h
    have hq : (D : ℚ) ≤ 2 * ((N % D : Nat) : ℚ) := by exact_mod_cast h
    rw [e1, abs_of_nonneg (div_nonneg (by linarith) hDq.le), div_le_iff₀ hDq]
    linarith
  unfold roundHalfEven
  split_ifs with h1 h2 h3
  · exact lo (by omega)
  · exact hi (by omega)
  · exact lo (by omega)
  · exact hi (by omega)

theorem pow_toNat_div (k : Int) :
    ((2 : ℚ) ^ k.toNat) / 2 ^ (-k).toNat = 2 ^ k := by
  rcases le_total 0 k with h | h
  · have : (-k).toNat = 0 := Int.toNat_eq_zero.2 (by omega)
    rw [this, pow_zero, div_one, two_pow_toNat k h]
  · have : k.toNat = 0 := Int.toNat_eq_zero.2 h
    rw [this, pow_zero, two_pow_toNat (-k) (by omega), zpow_neg, one_div, inv_inv]

end Rounding
section RoundSpec

/-- What `Format.round` returns for a positive `N / D * 2^e`: with `E` the exponent of the
unit in the last place and `n` the nearest integer to the scaled value, either an infinity
(and then `n * 2^E` is out of range) or a finite datum of value `n * 2^E`. -/
theorem round_spec (f : Format) (hp : 1 ≤ f.prec) (hle : f.emin ≤ f.emax) (neg : Bool)
    (N D : Nat) (e : Int) (hN : 0 < N) (hD : 0 < D) :
    ∃ (n : Nat) (E : Int), f.emin ≤ E ∧
      |(n : ℚ) - (N : ℚ) / D * 2 ^ e / 2 ^ E| ≤ 1 / 2 ∧
      (N : ℚ) / D * 2 ^ e < 2 ^ (E + f.prec) ∧
      (E = f.emin ∨ (2 : ℚ) ^ (E + f.prec - 1) ≤ (N : ℚ) / D * 2 ^ e) ∧
      ((f.round neg N D e = Fp.inf neg ∧ (2 : ℚ) ^ (f.emax + 1) ≤ n * 2 ^ E) ∨
        ∃ m' e', f.round neg N D e = Fp.fin neg m' e' ∧ (m' : ℚ) * 2 ^ e' = n * 2 ^ E) := by
  obtain ⟨hL1, hL2⟩ := floorLog2_spec N D hN hD
  have h2 : (2 : ℚ) ≠ 0 := by norm_num
  have h1le : (1 : ℚ) ≤ 2 := by norm_num
  have hpe : (0 : ℚ) < 2 ^ e := two_zpow_pos e
  set E := f.ulpExp N D e with hE
  have hEmin : f.emin ≤ E := le_max_right _ _
  have hEge : floorLog2 N D + e - ((f.prec : Int) - 1) ≤ E := le_max_left _ _
  set n := roundHalfEven (N * 2 ^ (e - E).toNat) (D * 2 ^ (E - e).toNat) with hn
  have hDpos : 0 < D * 2 ^ (E - e).toNat := Nat.mul_pos hD (Nat.pow_pos (by norm_num))
  have hx : ((N * 2 ^ (e - E).toNat : Nat) : ℚ) / ((D * 2 ^ (E - e).toNat : Nat) : ℚ)
      = (N : ℚ) / D * 2 ^ e / 2 ^ E := by
    have hk := pow_toNat_div (e - E)
    rw [neg_sub] at hk
    have hDq : (D : ℚ) ≠ 0 := by exact_mod_cast hD.ne'
    have hp2 : ((2 : ℚ) ^ (E - e).toNat) ≠ 0 := pow_ne_zero _ h2
    push_cast
    rw [mul_div_mul_comm, hk, zpow_sub₀ h2, mul_div_assoc]
  have hnear : |(n : ℚ) - (N : ℚ) / D * 2 ^ e / 2 ^ E| ≤ 1 / 2 := by
    rw [← hx]
    exact roundHalfEven_spec _ _ hDpos
  have hupper : (N : ℚ) / D * 2 ^ e < 2 ^ (E + f.prec) := by
    have h1 : (N : ℚ) / D * 2 ^ e < 2 ^ (floorLog2 N D + 1) * 2 ^ e :=
      mul_lt_mul_of_pos_right hL2 hpe
    rw [← zpow_add₀ h2] at h1
    exact lt_of_lt_of_le h1 (zpow_le_zpow_right₀ h1le (by omega))
  have hlow : E = f.emin ∨ (2 : ℚ) ^ (E + f.prec - 1) ≤ (N : ℚ) / D * 2 ^ e := by
    by_cases hc : E = f.emin
    · exact Or.inl hc
    · right
      have hEeq : E = floorLog2 N D + e - ((f.prec : Int) - 1) := by
        rcases max_choice (floorLog2 N D + e - ((f.prec : Int) - 1)) f.emin with h | h
        · exact h
        · exact absurd h hc
      have : E + f.prec - 1 = floorLog2 N D + e := by omega
      rw [this, zpow_add₀ h2]
      exact mul_le_mul_of_nonneg_right hL1 hpe.le
  refine ⟨n, E, hEmin, hnear, hupper, hlow, ?_⟩
  have hround : f.round neg N D e =
      if (ilog2 n : Int) + E > f.emax then Fp.inf neg
      else if n = 2 ^ f.prec then Fp.fin neg (2 ^ (f.prec - 1)) (E + 1)
      else Fp.fin neg n E := by
    unfold Format.round
    rw [if_neg (by omega)]
  rw [hround]
  by_cases hov : (ilog2 n : Int) + E > f.emax
  · rw [if_pos hov]
    left
    refine ⟨rfl, ?_⟩
    have hnpos : 0 < n := by
      by_contra h0
      have hn0 : n = 0 := by omega
      rw [hn0] at hov hnear
      have hE' : E ≠ f.emin := by
        intro h
        have : ilog2 0 = 0 := rfl
        rw [this, h] at hov
        omega
      rcases hlow with h | h
      · exact hE' h
      · have hpE : (0 : ℚ) < 2 ^ E := two_zpow_pos E
        have h1 : (1 : ℚ) ≤ (N : ℚ) / D * 2 ^ e / 2 ^ E := by
          rw [le_div_iff₀ hpE, one_mul]
          refine le_trans ?_ h
          exact zpow_le_zpow_right₀ h1le (by omega)
        rw [Nat.cast_zero, zero_sub, abs_neg, abs_of_nonneg (by linarith)] at hnear
        linarith
    have h1 := (ilog2_spec n hnpos).1
    have h1q : (2 : ℚ) ^ (ilog2 n) ≤ n := by exact_mod_cast h1
    have hpE : (0 : ℚ) < 2 ^ E := two_zpow_pos E
    calc (2 : ℚ) ^ (f.emax + 1) ≤ 2 ^ ((ilog2 n : Int) + E) :=
          zpow_le_zpow_right₀ h1le (by omega)
      _ = 2 ^ (ilog2 n) * 2 ^ E := by rw [zpow_add₀ h2, zpow_natCast]
      _ ≤ n * 2 ^ E := mul_le_mul_of_nonneg_right h1q hpE.le
  · rw [if_neg hov]
    right
    by_cases hn2 : n = 2 ^ f.prec
    · rw [if_pos hn2]
      refine ⟨_, _, rfl, ?_⟩
      rw [hn2]
      push_cast
      rw [zpow_add₀ h2, zpow_one]
      have : f.prec = (f.prec - 1) + 1 := by omega
      conv_rhs => rw [this, pow_succ]
      ring
    · rw [if_neg hn2]
      exact ⟨_, _, rfl, rfl⟩

/-- The error of `Format.round`: at most half a unit in the last place. -/
theorem round_err (f : Format) (hp : 1 ≤ f.prec) (hle : f.emin ≤ f.emax) (neg : Bool)
    (N D : Nat) (e : Int) (hN : 0 < N) (hD : 0 < D) :
    (f.round neg N D e = Fp.inf neg ∧ (2 : ℚ) ^ f.emax ≤ (N : ℚ) / D * 2 ^ e) ∨
      ∃ m' e', f.round neg N D e = Fp.fin neg m' e' ∧
        |(m' : ℚ) * 2 ^ e' - (N : ℚ) / D * 2 ^ e|
          ≤ (N : ℚ) / D * 2 ^ e * 2 ^ (-(f.prec : Int)) + 2 ^ (f.emin - 1) := by
  obtain ⟨n, E, hEmin, hnear, hupper, hlow, hres⟩ := round_spec f hp hle neg N D e hN hD
  have h2 : (2 : ℚ) ≠ 0 := by norm_num
  have h1le : (1 : ℚ) ≤ 2 := by norm_num
  have hpE : (0 : ℚ) < 2 ^ E := two_zpow_pos E
  have hq : (0 : ℚ) < (N : ℚ) / D * 2 ^ e :=
    mul_pos (div_pos (by exact_mod_cast hN) (by exact_mod_cast hD)) (two_zpow_pos e)
  set q := (N : ℚ) / D * 2 ^ e with hqdef
  have herr : |(n : ℚ) * 2 ^ E - q| ≤ 2 ^ E / 2 := by
    have : (n : ℚ) * 2 ^ E - q = ((n : ℚ) - q / 2 ^ E) * 2 ^ E := by
      field_simp
    rw [this, abs_mul, abs_of_pos hpE]
    calc |(n : ℚ) - q / 2 ^ E| * 2 ^ E ≤ 1 / 2 * 2 ^ E :=
          mul_le_mul_of_nonneg_right hnear hpE.le
      _ = 2 ^ E / 2 := by ring
  have hhalf : (2 : ℚ) ^ E / 2 ≤ q * 2 ^ (-(f.prec : Int)) + 2 ^ (f.emin - 1) := by
    have hE1 : (2 : ℚ) ^ E / 2 = 2 ^ (E - 1) := by
      rw [zpow_sub₀ h2, zpow_one]
    rw [hE1]
    rcases hlow with h | h
    · rw [h]
      have : (0 : ℚ) ≤ q * 2 ^ (-(f.prec : Int)) := mul_nonneg hq.le (two_zpow_pos _).le
      linarith
    · have : (2 : ℚ) ^ (E - 1) = 2 ^ (E + f.prec - 1) * 2 ^ (-(f.prec : Int)) := by
        rw [← zpow_add₀ h2]
        congr 1; ring
      rw [this]
      have h3 : (2 : ℚ) ^ (E + f.prec - 1) * 2 ^ (-(f.prec : Int)) ≤ q * 2 ^ (-(f.prec : Int)) :=
        mul_le_mul_of_nonneg_right h (two_zpow_pos _).le
      have : (0 : ℚ) ≤ 2 ^ (f.emin - 1) := (two_zpow_pos _).le
      linarith
  rcases hres with ⟨hinf, hbig⟩ | ⟨m', e', hfin, hval⟩
  · left
    refine ⟨hinf, ?_⟩
    -- `n * 2^E ≥ 2^(emax+1)` and the error is at most `2^E / 2 ≤ n * 2^E / 2`
    have hn1 : (1 : ℚ) ≤ n := by
      have : 0 < n := by
        by_contra h0
        have hn0 : n = 0 := by omega
        rw [hn0, Nat.cast_zero, zero_mul] at hbig
        exact absurd hbig (not_le.2 (two_zpow_pos _))
      exact_mod_cast this
    have h3 : (2 : ℚ) ^ E / 2 ≤ (n : ℚ) * 2 ^ E / 2 := by
      have : (2 : ℚ) ^ E ≤ n * 2 ^ E := by nlinarith
      linarith
    have h4 := (abs_le.1 herr).2
    have h5 : (2 : ℚ) ^ (f.emax + 1) = 2 * 2 ^ f.emax := by
      rw [zpow_add₀ h2, zpow_one]; ring
    rw [h5] at hbig
    linarith
  · right
    exact ⟨m', e', hfin, by rw [hval]; exact le_trans herr hhalf⟩

end RoundSpec
section AddSpec

theorem toRat_neg (s : Bool) (m : Nat) (e : Int) :
    (Fp.fin s m e).neg.toRat = -(Fp.fin s m e).toRat := by
  unfold Fp.neg Fp.toRat
  cases s <;> simp

/-- The sum of two finite data: zero when the exact sum is zero, else the exact sum
rounded. -/
theorem add_fin_spec (f : Format) (hp : 1 ≤ f.prec) (hle : f.emin ≤ f.emax)
    (s : Bool) (m : Nat) (e : Int) (t : Bool) (n : Nat) (e' : Int) :
    ((Fp.fin s m e).toRat + (Fp.fin t n e').toRat = 0 ∧
        ∃ s', f.add (Fp.fin s m e) (Fp.fin t n e') = Fp.fin s' 0 f.emin) ∨
      ((Fp.fin s m e).toRat + (Fp.fin t n e').toRat ≠ 0 ∧
        ((∃ s', f.add (Fp.fin s m e) (Fp.fin t n e') = Fp.inf s' ∧
            (2 : ℚ) ^ f.emax ≤ |(Fp.fin s m e).toRat + (Fp.fin t n e').toRat|) ∨
          ∃ s' m' e2, f.add (Fp.fin s m e) (Fp.fin t n e') = Fp.fin s' m' e2 ∧
            |(m' : ℚ) * 2 ^ e2 - abs ((Fp.fin s m e).toRat + (Fp.fin t n e').toRat)|
              ≤ |(Fp.fin s m e).toRat + (Fp.fin t n e').toRat| * 2 ^ (-(f.prec : Int))
                + 2 ^ (f.emin - 1))) := by
  have hsum : ((scaled s m e (min e e') + scaled t n e' (min e e') : Int) : ℚ) * 2 ^ (min e e')
      = (Fp.fin s m e).toRat + (Fp.fin t n e').toRat := by
    rw [Int.cast_add, add_mul, scaled_toRat s m e _ (min_le_left _ _),
      scaled_toRat t n e' _ (min_le_right _ _)]
  have hadd : f.add (Fp.fin s m e) (Fp.fin t n e') =
      if scaled s m e (min e e') + scaled t n e' (min e e') = 0 then Fp.fin (s && t) 0 f.emin
      else f.round (decide (scaled s m e (min e e') + scaled t n e' (min e e') < 0))
        (scaled s m e (min e e') + scaled t n e' (min e e')).natAbs 1 (min e e') := rfl
  set sum := scaled s m e (min e e') + scaled t n e' (min e e') with hsumdef
  have hpe : (0 : ℚ) < 2 ^ (min e e') := two_zpow_pos _
  by_cases h0 : sum = 0
  · left
    rw [hadd, if_pos h0]
    refine ⟨?_, _, rfl⟩
    rw [← hsum, h0]; simp
  · right
    have hy : (Fp.fin s m e).toRat + (Fp.fin t n e').toRat ≠ 0 := by
      rw [← hsum]
      exact mul_ne_zero (by exact_mod_cast h0) hpe.ne'
    refine ⟨hy, ?_⟩
    rw [hadd, if_neg h0]
    have hq : ((sum.natAbs : Nat) : ℚ) / (1 : Nat) * 2 ^ (min e e')
        = |(Fp.fin s m e).toRat + (Fp.fin t n e').toRat| := by
      rw [← hsum, abs_mul, abs_of_pos hpe, Nat.cast_one, div_one, Nat.cast_natAbs, Int.cast_abs]
    have := round_err f hp hle (decide (sum < 0)) sum.natAbs 1 (min e e')
      (Int.natAbs_pos.2 h0) Nat.one_pos
    rw [hq] at this
    rcases this with ⟨h1, h2⟩ | ⟨m', e'', h1, h2⟩
    · exact Or.inl ⟨_, h1, h2⟩
    · exact Or.inr ⟨_, m', e'', h1, h2⟩

theorem eps_eq : eps = Fp.fin false 4722366482869645 (-72) := by decide

theorem eps_toRat : (Fp.fin false 4722366482869645 (-72)).toRat = 4722366482869645 / 2 ^ 72 := by
  simp only [Fp.toRat, Bool.false_eq_true, if_false, one_mul]
  rw [zpow_neg]
  norm_num

theorem one32_eq : binary32.ofInt 1 = Fp.fin false (2 ^ 23) (-23) := by decide

theorem one64_eq : binary64.ofInt 1 = Fp.fin false (2 ^ 52) (-52) := by decide

theorem one32_toRat : (Fp.fin false (2 ^ 23) (-23)).toRat = 1 := by
  simp only [Fp.toRat, Bool.false_eq_true, if_false, one_mul]
  norm_num

theorem one64_toRat : (Fp.fin false (2 ^ 52) (-52)).toRat = 1 := by
  simp only [Fp.toRat, Bool.false_eq_true, if_false, one_mul]
  norm_num

theorem emin_bound (k : Int) (hk : k ≤ -100) : (2 : ℚ) ^ k ≤ 1 / 2 ^ 100 := by
  have := zpow_le_zpow_right₀ (by norm_num : (1 : ℚ) ≤ 2) hk
  have e : (2 : ℚ) ^ (-100 : Int) = 1 / 2 ^ 100 := by
    rw [zpow_neg]; norm_num
  rw [e] at this
  exact this

/-- Line 190 finds a finite number at distance at least `1.01e-6` from 1 not to be within
`1e-6` of 1. -/
theorem nearOne_false_of_far (s : Bool) (m : Nat) (e : Int)
    (h : (101 : ℚ) / 10 ^ 8 ≤ |(Fp.fin s m e).toRat - 1|) :
    Fp.lt (binary64.sub (Fp.fin s m e) (binary64.ofInt 1)).abs eps = false := by
  rw [eps_eq, one64_eq]
  unfold Format.sub
  have hneg : (Fp.fin false (2 ^ 52) (-52)).neg = Fp.fin true (2 ^ 52) (-52) := rfl
  have hnv : (Fp.fin true (2 ^ 52) (-52)).toRat = -1 := by
    rw [← hneg, toRat_neg, one64_toRat]
  rw [hneg]
  have hy : (Fp.fin s m e).toRat + (Fp.fin true (2 ^ 52) (-52)).toRat
      = (Fp.fin s m e).toRat - 1 := by rw [hnv]; ring
  have hspec := add_fin_spec binary64 (by decide) (by decide) s m e true (2 ^ 52) (-52)
  rw [hy] at hspec
  rcases hspec with ⟨h0, -⟩ | ⟨-, ⟨s', h1, -⟩ | ⟨s', m', e', h1, h2⟩⟩
  · rw [h0, abs_zero] at h
    norm_num at h
  · rw [h1]; rfl
  · rw [h1]
    have : ¬ (Fp.lt (Fp.fin s' m' e').abs (Fp.fin false 4722366482869645 (-72)) = true) := by
      unfold Fp.abs
      rw [lt_fin_iff, eps_toRat]
      have hm : (Fp.fin false m' e').toRat = (m' : ℚ) * 2 ^ e' := by
        simp [Fp.toRat]
      rw [hm]
      have hb := emin_bound (binary64.emin - 1) (by decide)
      have hp : (2 : ℚ) ^ (-((binary64.prec : Nat) : Int)) = 1 / 2 ^ 53 := by
        have : (-((binary64.prec : Nat) : Int)) = -53 := by decide
        rw [this, zpow_neg]; norm_num
      rw [hp] at h2
      have h3 := (abs_le.1 h2).1
      have hnn : (0 : ℚ) ≤ |(Fp.fin s m e).toRat - 1| := abs_nonneg _
      norm_num at h3 hb h ⊢
      linarith
    simpa using this

/-- When line 57 does not find a finite ratio within `1e-6` of `1.0f`, its distance from 1
is at least `9.99999e-7`. -/
theorem far_of_not_absLtEps (s : Bool) (m : Nat) (e : Int)
    (h : Fp.lt (binary32.sub (Fp.fin s m e) (binary32.ofInt 1)).abs eps = false) :
    (999999 : ℚ) / 10 ^ 12 ≤ |(Fp.fin s m e).toRat - 1| := by
  rw [eps_eq, one32_eq] at h
  unfold Format.sub at h
  have hneg : (Fp.fin false (2 ^ 23) (-23)).neg = Fp.fin true (2 ^ 23) (-23) := rfl
  have hnv : (Fp.fin true (2 ^ 23) (-23)).toRat = -1 := by
    rw [← hneg, toRat_neg, one32_toRat]
  rw [hneg] at h
  have hy : (Fp.fin s m e).toRat + (Fp.fin true (2 ^ 23) (-23)).toRat
      = (Fp.fin s m e).toRat - 1 := by rw [hnv]; ring
  have hspec := add_fin_spec binary32 (by decide) (by decide) s m e true (2 ^ 23) (-23)
  rw [hy] at hspec
  rcases hspec with ⟨-, s', h1⟩ | ⟨-, ⟨s', -, h2⟩ | ⟨s', m', e', h1, h2⟩⟩
  · rw [h1] at h
    have : Fp.lt (Fp.fin s' 0 binary32.emin).abs (Fp.fin false 4722366482869645 (-72))
        = true := by
      unfold Fp.abs
      rw [lt_fin_iff, eps_toRat]
      simp only [Fp.toRat, Nat.cast_zero, mul_zero, zero_mul]
      norm_num
    rw [this] at h
    exact absurd h (by decide)
  · have e127 : (2 : ℚ) ^ binary32.emax = 2 ^ 127 := by
      have : binary32.emax = ((127 : Nat) : Int) := by decide
      rw [this, zpow_natCast]
    rw [e127] at h2
    refine le_trans ?_ h2
    norm_num
  · rw [h1] at h
    have hlt : ¬ ((Fp.fin false m' e').toRat < (Fp.fin false 4722366482869645 (-72)).toRat) := by
      rw [← lt_fin_iff]
      unfold Fp.abs at h
      rw [h]; simp
    rw [eps_toRat] at hlt
    have hm : (Fp.fin false m' e').toRat = (m' : ℚ) * 2 ^ e' := by
      simp [Fp.toRat]
    rw [hm] at hlt
    have hb := emin_bound (binary32.emin - 1) (by decide)
    have hp : (2 : ℚ) ^ (-((binary32.prec : Nat) : Int)) = 1 / 2 ^ 24 := by
      have : (-((binary32.prec : Nat) : Int)) = -24 := by decide
      rw [this, zpow_neg]; norm_num
    rw [hp] at h2
    have h3 := (abs_le.1 h2).2
    by_contra hc
    norm_num at h3 hb hlt hc
    linarith

end AddSpec
section NearOne

theorem mul_zpow_lt (m k : Nat) (e : Int) (h : m < 2 ^ k) :
    (m : ℚ) * 2 ^ e < 2 ^ ((k : Int) + e) := by
  rw [zpow_add₀ (by norm_num : (2 : ℚ) ≠ 0), zpow_natCast]
  have : (m : ℚ) < 2 ^ k := by exact_mod_cast h
  exact mul_lt_mul_of_pos_right this (two_zpow_pos e)

theorem le_mul_zpow (m k : Nat) (e : Int) (h : 2 ^ k ≤ m) :
    (2 : ℚ) ^ ((k : Int) + e) ≤ (m : ℚ) * 2 ^ e := by
  rw [zpow_add₀ (by norm_num : (2 : ℚ) ≠ 0), zpow_natCast]
  have : (2 : ℚ) ^ k ≤ m := by exact_mod_cast h
  exact mul_le_mul_of_nonneg_right this (two_zpow_pos e).le

theorem zpow_le_half (k : Int) (hk : k ≤ -1) : (2 : ℚ) ^ k ≤ 1 / 2 := by
  have := zpow_le_zpow_right₀ (by norm_num : (1 : ℚ) ≤ 2) hk
  rw [zpow_neg, zpow_one] at this
  rw [one_div]; exact this

theorem two_le_zpow (k : Int) (hk : 1 ≤ k) : (2 : ℚ) ≤ 2 ^ k := by
  have := zpow_le_zpow_right₀ (by norm_num : (1 : ℚ) ≤ 2) hk
  rw [zpow_one] at this
  exact this

/-- A binary32 number at distance at least `9.99999e-7` from 1 is at least `1 + 9 * 2^-23` or
at most `1 - 17 * 2^-24`: the numbers of binary32 next to 1 are `2^-23` apart above 1 and
`2^-24` apart below. -/
theorem grid_near_one (s : Bool) (m : Nat) (e : Int)
    (hv : binary32.Valid (Fp.fin s m e) = true)
    (h : (999999 : ℚ) / 10 ^ 12 ≤ |(Fp.fin s m e).toRat - 1|) :
    1 + 9 / 2 ^ 23 ≤ (Fp.fin s m e).toRat ∨ (Fp.fin s m e).toRat ≤ 1 - 17 / 2 ^ 24 := by
  simp only [Format.Valid, binary32, decide_eq_true_eq] at hv
  obtain ⟨hm, -, -, hsub⟩ := hv
  have hpe : (0 : ℚ) < 2 ^ e := two_zpow_pos e
  have hm0 : (0 : ℚ) ≤ m := Nat.cast_nonneg m
  cases s with
  | true =>
    right
    have : (Fp.fin true m e).toRat = -((m : ℚ) * 2 ^ e) := by
      simp [Fp.toRat]
    rw [this]
    have : (0 : ℚ) ≤ (m : ℚ) * 2 ^ e := mul_nonneg hm0 hpe.le
    norm_num
    linarith
  | false =>
    have hval : (Fp.fin false m e).toRat = (m : ℚ) * 2 ^ e := by
      simp [Fp.toRat]
    rw [hval] at h ⊢
    by_cases hsmall : m < 2 ^ 23
    · right
      have he := hsub (by simpa using hsmall)
      have h1 := mul_zpow_lt m 23 e hsmall
      have h2 := zpow_le_half (((23 : Nat) : Int) + e) (by rw [he]; decide)
      norm_num at h1 h2 ⊢
      linarith
    · have hbig : 2 ^ 23 ≤ m := by omega
      obtain h4 | h4 | h4 | h4 : e ≤ -25 ∨ e = -24 ∨ e = -23 ∨ -22 ≤ e := by omega
      · right
        have h1 := mul_zpow_lt m 24 e hm
        have h2 := zpow_le_half (((24 : Nat) : Int) + e) (by omega)
        norm_num at h1 h2 ⊢
        linarith
      · right
        subst h4
        have e24 : (2 : ℚ) ^ (-24 : Int) = 1 / 16777216 := by rw [zpow_neg]; norm_num
        rw [e24] at h ⊢
        have hm' : m < 16777216 := by norm_num at hm; exact hm
        have hmq2 : (m : ℚ) < 16777216 := by exact_mod_cast hm'
        have key : m ≤ 16777199 := by
          by_contra hcon
          have h1 : (16777200 : ℚ) ≤ m := by exact_mod_cast (by omega : 16777200 ≤ m)
          rw [abs_of_nonpos (by linarith)] at h
          norm_num at h
          linarith
        have keyq : (m : ℚ) ≤ 16777199 := by exact_mod_cast key
        norm_num
        linarith
      · left
        subst h4
        have e23 : (2 : ℚ) ^ (-23 : Int) = 1 / 8388608 := by rw [zpow_neg]; norm_num
        rw [e23] at h ⊢
        have hb' : 8388608 ≤ m := by norm_num at hbig; exact hbig
        have hmq2 : (8388608 : ℚ) ≤ m := by exact_mod_cast hb'
        have key : 8388617 ≤ m := by
          by_contra hcon
          have h1 : (m : ℚ) ≤ 8388616 := by exact_mod_cast (by omega : m ≤ 8388616)
          rw [abs_of_nonneg (by linarith)] at h
          norm_num at h
          linarith
        have keyq : (8388617 : ℚ) ≤ m := by exact_mod_cast key
        norm_num
        linarith
      · left
        have h1 := le_mul_zpow m 23 e hbig
        have h2 := two_le_zpow (((23 : Nat) : Int) + e) (by omega)
        norm_num at h1 h2 ⊢
        linarith

end NearOne
section Flipped

theorem nearOne_inf (s : Bool) :
    Fp.lt (binary64.sub (Fp.inf s) (binary64.ofInt 1)).abs eps = false := by
  rw [one64_eq, eps_eq]
  cases s <;> rfl

/-- The reciprocal `1.0f / r` of a positive binary32 number `r` that is at least
`1 + 9 * 2^-23` or at most `1 - 17 * 2^-24` is not found within `1e-6` of 1 by line 190;
nor is the reciprocal of a negative one. -/
theorem flipped_far (s : Bool) (m : Nat) (e : Int) (hm : 0 < m)
    (hgrid : 1 + 9 / 2 ^ 23 ≤ (Fp.fin s m e).toRat ∨ (Fp.fin s m e).toRat ≤ 1 - 17 / 2 ^ 24) :
    Fp.lt (binary64.sub (binary32.div (binary32.ofInt 1) (Fp.fin s m e))
      (binary64.ofInt 1)).abs eps = false := by
  have h2 : (2 : ℚ) ≠ 0 := by norm_num
  have hdiv : binary32.div (binary32.ofInt 1) (Fp.fin s m e)
      = binary32.round s (2 ^ 23) m (-23 - e) := by
    rw [one32_eq]
    unfold Format.div
    simp only [Bool.false_bne]
    rw [if_neg (by omega)]
  rw [hdiv]
  have hmq : (0 : ℚ) < m := by exact_mod_cast hm
  have hpe : (0 : ℚ) < 2 ^ e := two_zpow_pos e
  have ha : (0 : ℚ) < (m : ℚ) * 2 ^ e := mul_pos hmq hpe
  -- the exact quotient
  have hq : (((2 ^ 23 : Nat) : ℚ) / m * 2 ^ (-23 - e)) * ((m : ℚ) * 2 ^ e) = 1 := by
    have e1 : (2 : ℚ) ^ (-23 - e) * 2 ^ e = 1 / 2 ^ 23 := by
      rw [← zpow_add₀ h2]
      have : (-23 - e + e) = -23 := by ring
      rw [this, zpow_neg]; norm_num
    have : (((2 ^ 23 : Nat) : ℚ) / m * 2 ^ (-23 - e)) * ((m : ℚ) * 2 ^ e)
        = ((2 ^ 23 : Nat) : ℚ) * (2 ^ (-23 - e) * 2 ^ e) * (m / m) := by ring
    rw [this, e1, div_self hmq.ne']
    norm_num
  set q := ((2 ^ 23 : Nat) : ℚ) / m * 2 ^ (-23 - e) with hqdef
  have hqpos : 0 < q := by
    by_contra hc
    have : q * ((m : ℚ) * 2 ^ e) ≤ 0 := mul_nonpos_of_nonpos_of_nonneg (not_lt.1 hc) ha.le
    linarith
  obtain ⟨n, E, hEmin, hnear, hupper, hlow, hres⟩ :=
    round_spec binary32 (by decide) (by decide) s (2 ^ 23) m (-23 - e) (by norm_num) hm
  have herr := round_err binary32 (by decide) (by decide) s (2 ^ 23) m (-23 - e)
    (by norm_num) hm
  rw [← hqdef] at hnear hupper hlow herr
  rcases herr with ⟨hinf, -⟩ | ⟨m', e', hfin, hbound⟩
  · rw [hinf]; exact nearOne_inf s
  · rw [hfin]
    apply nearOne_false_of_far
    have hb := emin_bound (binary32.emin - 1) (by decide)
    have hp : (2 : ℚ) ^ (-((binary32.prec : Nat) : Int)) = 1 / 2 ^ 24 := by
      have : (-((binary32.prec : Nat) : Int)) = -24 := by decide
      rw [this, zpow_neg]; norm_num
    rw [hp] at hbound
    have hR0 : (0 : ℚ) ≤ (m' : ℚ) * 2 ^ e' := mul_nonneg (Nat.cast_nonneg _) (two_zpow_pos _).le
    cases s with
    | true =>
      have : (Fp.fin true m' e').toRat = -((m' : ℚ) * 2 ^ e') := by simp [Fp.toRat]
      rw [this, abs_of_nonpos (by linarith)]
      norm_num
      linarith
    | false =>
      have hval : (Fp.fin false m' e').toRat = (m' : ℚ) * 2 ^ e' := by simp [Fp.toRat]
      have hv : (Fp.fin false m e).toRat = (m : ℚ) * 2 ^ e := by simp [Fp.toRat]
      rw [hval]
      rw [hv] at hgrid
      rcases hgrid with hg | hg
      · -- `r ≥ 1 + 9 * 2^-23`: the quotient is at most `1 / (1 + 9 * 2^-23)`
        have hqle : q * (1 + 9 / 2 ^ 23) ≤ 1 := by
          have := mul_le_mul_of_nonneg_left hg hqpos.le
          rw [hq] at this
          exact this
        have hup := (abs_le.1 hbound).2
        rw [abs_of_nonpos (by norm_num at hqle hup hb ⊢; linarith)]
        norm_num at hqle hup hb ⊢
        linarith
      · -- `r ≤ 1 - 17 * 2^-24`: the quotient exceeds `1 + 17 * 2^-24`
        have hqge : 1 ≤ q * (1 - 17 / 2 ^ 24) := by
          have := mul_le_mul_of_nonneg_left hg hqpos.le
          rw [hq] at this
          exact this
        have hq1 : 1 + 17 / 2 ^ 24 < q := by
          norm_num at hqge ⊢
          linarith
        by_cases hq2 : 2 ≤ q
        · have hlo := (abs_le.1 hbound).1
          rw [abs_of_nonneg (by norm_num at hlo hb ⊢; linarith)]
          norm_num at hlo hb ⊢
          linarith
        · -- `1 < q < 2`: the unit in the last place is `2^-23`
          have hq2' : q < 2 := not_le.1 hq2
          have hE1 : -23 ≤ E := by
            by_contra hc
            have : (2 : ℚ) ^ (E + ((binary32.prec : Nat) : Int)) ≤ 1 := by
              have h0 := zpow_le_zpow_right₀ (by norm_num : (1 : ℚ) ≤ 2)
                (show E + ((binary32.prec : Nat) : Int) ≤ 0 by
                  have : ((binary32.prec : Nat) : Int) = 24 := by decide
                  omega)
              rw [zpow_zero] at h0
              exact h0
            norm_num at hq1
            linarith
          have hE2 : E ≤ -23 := by
            rcases hlow with h | h
            · rw [h]; decide
            · by_contra hc
              have h0 := two_le_zpow (E + ((binary32.prec : Nat) : Int) - 1)
                (by
                  have : ((binary32.prec : Nat) : Int) = 24 := by decide
                  omega)
              linarith
          have hE : E = -23 := by omega
          rw [hE] at hnear hres
          have e23 : (2 : ℚ) ^ (-23 : Int) = 1 / 8388608 := by rw [zpow_neg]; norm_num
          rw [e23] at hnear hres
          have hn : 8388617 ≤ n := by
            by_contra hcon
            have h1 : (n : ℚ) ≤ 8388616 := by exact_mod_cast (by omega : n ≤ 8388616)
            have h3 := (abs_le.1 hnear).1
            norm_num at h3 hq1
            linarith
          have hnq : (8388617 : ℚ) ≤ n := by exact_mod_cast hn
          rcases hres with ⟨hinf, -⟩ | ⟨m2, e2, hfin2, hval2⟩
          · rw [hinf] at hfin; exact absurd hfin (by simp)
          · rw [hfin2] at hfin
            injection hfin with _ hm2 he2
            rw [← hm2, ← he2, hval2]
            rw [abs_of_nonneg (by linarith)]
            norm_num
            linarith

/-- Binary32 arithmetic: a configured ratio that line 57 does not find within `1e-6` of
`1.0f` is not found within `1e-6` of `1` by line 190, and neither is its reciprocal
`1.0f / r`. -/
theorem f32_flip_safe (sqrt : Fp → Fp) (sqrtInt : Int → Fp) (r : Fp)
    (hv : binary32.Valid r = true)
    (h : (f32Arith sqrt sqrtInt).absLtEps
      ((f32Arith sqrt sqrtInt).sub r (f32Arith sqrt sqrtInt).one) = false) :
    (f32Arith sqrt sqrtInt).nearOne r = false ∧
      (f32Arith sqrt sqrtInt).nearOne
        ((f32Arith sqrt sqrtInt).div (f32Arith sqrt sqrtInt).one r) = false := by
  change Fp.lt (binary32.sub r (binary32.ofInt 1)).abs eps = false at h
  change Fp.lt (binary64.sub r (binary64.ofInt 1)).abs eps = false ∧
    Fp.lt (binary64.sub (binary32.div (binary32.ofInt 1) r) (binary64.ofInt 1)).abs eps = false
  cases r with
  | nan => rw [one32_eq, one64_eq, eps_eq]; exact ⟨rfl, rfl⟩
  | inf s =>
    refine ⟨nearOne_inf s, ?_⟩
    rw [one32_eq, one64_eq, eps_eq]
    cases s <;> decide
  | fin s m e =>
    have hfar := far_of_not_absLtEps s m e h
    have hgrid := grid_near_one s m e hv hfar
    have h101 : (101 : ℚ) / 10 ^ 8 ≤ |(Fp.fin s m e).toRat - 1| := by
      rcases hgrid with hg | hg
      · rw [abs_of_nonneg (by norm_num at hg ⊢; linarith)]
        norm_num at hg ⊢
        linarith
      · rw [abs_of_nonpos (by norm_num at hg ⊢; linarith)]
        norm_num at hg ⊢
        linarith
    refine ⟨nearOne_false_of_far s m e h101, ?_⟩
    by_cases hm : m = 0
    · subst hm
      have : binary32.div (binary32.ofInt 1) (Fp.fin s 0 e) = Fp.inf s := by
        rw [one32_eq]
        cases s <;> rfl
      rw [this]
      exact nearOne_inf s
    · exact flipped_far s m e (by omega) hgrid

end Flipped
section ExactRemark

/-- In exact rational arithmetic the count of line 70 and the stores of lines 187-198 can
differ: the ratio `1.000001` is not within `1e-6` of 1, its reciprocal is.  The ratio
`1.000001` is not a binary32 number (`f32_flip_safe` covers every binary32 number), so this
is a property of the idealised arithmetic only. -/
theorem exactArith_boxesPerCell_lt (sqrt : ℚ → ℚ) :
    ∃ L, Setup (exactArith sqrt)
        { scenarioParamExact with aspectRatio := [1000001 / 1000000] } = some L ∧
      L.numPriors = 3 ∧ boxesPerCell (exactArith sqrt) L = 2 := by
  refine ⟨{ scenarioLayerExact with aspectRatios := [1, 1000001 / 1000000, 1000000 / 1000001] },
    ?_, rfl, ?_⟩
  · norm_num [Setup, resolveAspectRatios, pushAspectRatio, alreadyExist, resolveVariance,
      resolvePair, exactArith, scenarioParamExact, scenarioLayerExact, abs_lt]
  · norm_num [boxesPerCell, exactArith, scenarioLayerExact, List.filter, abs_lt]

end ExactRemark
/-! ## Binary32: the resolved ratio list -/

section F32Kept

/-- Binary32: line 57 finds a finite number within `1e-6` of itself. -/
theorem f32_absLtEps_sub_self (sqrt : Fp → Fp) (sqrtInt : Int → Fp) (s : Bool) (m : Nat)
    (e : Int) :
    (f32Arith sqrt sqrtInt).absLtEps
      ((f32Arith sqrt sqrtInt).sub (Fp.fin s m e) (Fp.fin s m e)) = true := by
  change Fp.lt (binary32.sub (Fp.fin s m e) (Fp.fin s m e)).abs eps = true
  have h0 : scaled s m e (min e e) + scaled (!s) m e (min e e) = 0 := by
    cases s <;> simp [scaled]
  have h1 : binary32.sub (Fp.fin s m e) (Fp.fin s m e) = Fp.fin (s && !s) 0 binary32.emin := by
    unfold Format.sub Fp.neg Format.add
    simp only [h0, if_true]
  rw [h1]
  cases s <;> decide

/-- Binary32: `1.0f` is the first entry of the resolved list and occurs nowhere else in
it. -/
theorem f32_one_once (sqrt : Fp → Fp) (sqrtInt : Int → Fp) (fl : Bool) (input : List Fp)
    (hv : ∀ r ∈ input, binary32.Valid r = true) :
    ∃ tl, resolveAspectRatios (f32Arith sqrt sqrtInt) fl input
        = (f32Arith sqrt sqrtInt).one :: tl ∧ (f32Arith sqrt sqrtInt).one ∉ tl := by
  obtain ⟨tl, htl, hall⟩ := resolveAspectRatios_shape (f32Arith sqrt sqrtInt) fl input
  refine ⟨tl, htl, ?_⟩
  intro hmem
  obtain ⟨r, hr, hfar, hcase⟩ := hall _ hmem
  have hone : (f32Arith sqrt sqrtInt).absLtEps
      ((f32Arith sqrt sqrtInt).sub (f32Arith sqrt sqrtInt).one (f32Arith sqrt sqrtInt).one)
        = true := by
    change Fp.lt (binary32.sub (binary32.ofInt 1) (binary32.ofInt 1)).abs eps = true
    decide
  rcases hcase with h | ⟨-, h⟩
  · rw [← h, hone] at hfar
    cases hfar
  · have hs := (f32_flip_safe sqrt sqrtInt r (hv r hr) hfar).2
    rw [← h, (f32Arith sqrt sqrtInt).nearOne_one] at hs
    cases hs

end F32Kept

/-! ## Properties of the layer -/

/-- C1: in binary32, for every configuration accepted by `Setup` (whose aspect ratios are
binary32 numbers) and every feature-map size, `ForwardCpu` stores `numPriors` boxes for each
cell.  The loop body for the cell `(h, w)`, started at `index`, returns the buffer in which
the `4 * numPriors` places from `index` on hold the corners of `numPriors` boxes with the
centre of the cell, every other place being as before, and `index + 4 * numPriors`.  The
loops over the whole feature map return the buffer whose first `layerH*layerW*numPriors*4`
places hold the values of all cells in row-major order, the rest being as before, and
`index = layerH*layerW*numPriors*4`.  The output of `ForwardCpu` begins with these values
(clipped when `clip` is set). -/
theorem C1_boxes_written (sqrt : Fp → Fp) (sqrtInt : Int → Fp) (p : PriorBoxParam Fp)
    (L : PriorBoxLayer Fp) (hF : ∀ r ∈ p.aspectRatio, binary32.Valid r = true)
    (hS : Setup (f32Arith sqrt sqrtInt) p = some L) (layerH layerW imgW imgH : Nat)
    (stepW stepH : Fp) :
    boxesPerCell (f32Arith sqrt sqrtInt) L = L.numPriors ∧
    (∀ (h w : Nat) (c : Cursor Fp), c.2 + L.numPriors * 4 ≤ c.1.length →
      ∃ dims : List (Fp × Fp), dims.length = L.numPriors ∧
        cellCoords (f32Arith sqrt sqrtInt) L imgW imgH stepW stepH h w
          = (dims.flatMap fun d =>
              boxCoords (f32Arith sqrt sqrtInt)
                (binary32.mul (binary32.add (binary32.ofInt w) L.offset) stepW)
                (binary32.mul (binary32.add (binary32.ofInt h) L.offset) stepH)
                d.1 d.2 imgW imgH) ∧
        cellStep (f32Arith sqrt sqrtInt) L imgW imgH stepW stepH h c w
          = some (c.1.take c.2
              ++ cellCoords (f32Arith sqrt sqrtInt) L imgW imgH stepW stepH h w
              ++ c.1.drop (c.2 + L.numPriors * 4), c.2 + L.numPriors * 4)) ∧
    (coords (f32Arith sqrt sqrtInt) L layerH layerW imgW imgH stepW stepH
        = (List.range layerH).flatMap fun h => (List.range layerW).flatMap fun w =>
            cellCoords (f32Arith sqrt sqrtInt) L imgW imgH stepW stepH h w) ∧
    (coords (f32Arith sqrt sqrtInt) L layerH layerW imgW imgH stepW stepH).length
        = layerH * layerW * L.numPriors * 4 ∧
    (∀ pDst : List Fp, layerH * layerW * L.numPriors * 4 ≤ pDst.length →
      boxLoop (f32Arith sqrt sqrtInt) L layerH layerW imgW imgH stepW stepH pDst
        = some (coords (f32Arith sqrt sqrtInt) L layerH layerW imgW imgH stepW stepH
            ++ pDst.drop (layerH * layerW * L.numPriors * 4),
          layerH * layerW * L.numPriors * 4)) ∧
    (∀ (src : List (Tensor Fp)) (dst : Tensor Fp) (g : Geometry Fp),
      resolveGeometry (f32Arith sqrt sqrtInt) L src = some g →
      dst.shape = [1, 2, g.dim L] → dst.data.length = dst.shape.prod →
      ∃ out, ForwardCpu (f32Arith sqrt sqrtInt) L src dst = some out ∧
        out.take (g.layerH * g.layerW * L.numPriors * 4)
          = (if L.clip then
              clipPass (f32Arith sqrt sqrtInt)
                (coords (f32Arith sqrt sqrtInt) L g.layerH g.layerW g.imgW g.imgH
                  g.stepW g.stepH)
            else
              coords (f32Arith sqrt sqrtInt) L g.layerH g.layerW g.imgW g.imgH
                g.stepW g.stepH)) := by
  have hbox : boxesPerCell (f32Arith sqrt sqrtInt) L = L.numPriors := by
    apply boxesPerCell_eq (f32Arith sqrt sqrtInt) (f32Arith sqrt sqrtInt).nearOne_one p L hS
    intro r hr hne
    have := f32_flip_safe sqrt sqrtInt r (hF r hr) hne
    exact ⟨this.1, fun _ => this.2⟩
  obtain ⟨-, -, -, -, hok, -⟩ := Setup_some _ p L hS
  have hlenc := length_coords (f32Arith sqrt sqrtInt) L layerH layerW imgW imgH stepW stepH
  rw [hbox] at hlenc
  refine ⟨hbox, ?_, rfl, hlenc, ?_, ?_⟩
  · intro h w c hc
    have hlen := length_cellCoords (f32Arith sqrt sqrtInt) L imgW imgH stepW stepH h w
    rw [hbox] at hlen
    obtain ⟨dims, hdl, hd⟩ :=
      cellCoords_boxes (f32Arith sqrt sqrtInt) L imgW imgH stepW stepH h w
    refine ⟨dims, by rw [hdl, hbox], hd, ?_⟩
    rw [cellStep_eq_blit _ L hok, blit_of_le 0 _ c (by rw [hlen]; omega), hlen]
    simp only [Nat.zero_add]
  · intro pDst hle
    rw [boxLoop_eq_blit _ L hok, blit_of_le 0 _ (pDst, 0) (by simp only [hlenc]; omega),
      hlenc]
    simp only [Nat.zero_add, List.take_zero, List.nil_append]
  · intro src dst g hg hR hD
    obtain ⟨blk, hblk, hcoords, hrun⟩ :=
      ForwardCpu_accepted (f32Arith sqrt sqrtInt) p L src dst g hS hg hR hD
    have hL : ({ L with clip := L.clip } : PriorBoxLayer Fp) = L := by cases L; rfl
    have h := hrun L.clip
    rw [hL, hcoords hbox] at h
    refine ⟨_, h, ?_⟩
    have hl2 := length_coords (f32Arith sqrt sqrtInt) L g.layerH g.layerW g.imgW g.imgH
      g.stepW g.stepH
    rw [hbox] at hl2
    by_cases hc : L.clip = true
    · simp only [hc, if_true]
      apply List.take_left'
      simp only [clipPass, List.length_map]
      exact hl2
    · simp only [hc, Bool.false_eq_true, if_false]
      exact List.take_left' hl2

/-- C1, on the scenario with a 2x2 feature map. -/
theorem C1_boxes_written_witness :
    boxesPerCell f32ArithNoSqrt scenarioLayer = scenarioLayer.numPriors ∧
    (∀ (h w : Nat) (c : Cursor Fp), c.2 + scenarioLayer.numPriors * 4 ≤ c.1.length →
      ∃ dims : List (Fp × Fp), dims.length = scenarioLayer.numPriors ∧
        cellCoords f32ArithNoSqrt scenarioLayer 300 300 (binary32.ofInt 150)
            (binary32.ofInt 150) h w
          = (dims.flatMap fun d =>
              boxCoords f32ArithNoSqrt
                (binary32.mul (binary32.add (binary32.ofInt w) scenarioLayer.offset)
                  (binary32.ofInt 150))
                (binary32.mul (binary32.add (binary32.ofInt h) scenarioLayer.offset)
                  (binary32.ofInt 150))
                d.1 d.2 300 300) ∧
        cellStep f32ArithNoSqrt scenarioLayer 300 300 (binary32.ofInt 150)
            (binary32.ofInt 150) h c w
          = some (c.1.take c.2
              ++ cellCoords f32ArithNoSqrt scenarioLayer 300 300 (binary32.ofInt 150)
                  (binary32.ofInt 150) h w
              ++ c.1.drop (c.2 + scenarioLayer.numPriors * 4),
            c.2 + scenarioLayer.numPriors * 4)) ∧
    (coords f32ArithNoSqrt scenarioLayer 2 2 300 300 (binary32.ofInt 150) (binary32.ofInt 150)
        = (List.range 2).flatMap fun h => (List.range 2).flatMap fun w =>
            cellCoords f32ArithNoSqrt scenarioLayer 300 300 (binary32.ofInt 150)
              (binary32.ofInt 150) h w) ∧
    (coords f32ArithNoSqrt scenarioLayer 2 2 300 300 (binary32.ofInt 150)
        (binary32.ofInt 150)).length = 2 * 2 * scenarioLayer.numPriors * 4 ∧
    (∀ pDst : List Fp, 2 * 2 * scenarioLayer.numPriors * 4 ≤ pDst.length →
      boxLoop f32ArithNoSqrt scenarioLayer 2 2 300 300 (binary32.ofInt 150)
          (binary32.ofInt 150) pDst
        = some (coords f32ArithNoSqrt scenarioLayer 2 2 300 300 (binary32.ofInt 150)
              (binary32.ofInt 150)
            ++ pDst.drop (2 * 2 * scenarioLayer.numPriors * 4),
          2 * 2 * scenarioLayer.numPriors * 4)) ∧
    (∀ (src : List (Tensor Fp)) (dst : Tensor Fp) (g : Geometry Fp),
      resolveGeometry f32ArithNoSqrt scenarioLayer src = some g →
      dst.shape = [1, 2, g.dim scenarioLayer] → dst.data.length = dst.shape.prod →
      ∃ out, ForwardCpu f32ArithNoSqrt scenarioLayer src dst = some out ∧
        out.take (g.layerH * g.layerW * scenarioLayer.numPriors * 4)
          = (if scenarioLayer.clip then
              clipPass f32ArithNoSqrt
                (coords f32ArithNoSqrt scenarioLayer g.layerH g.layerW g.imgW g.imgH
                  g.stepW g.stepH)
            else
              coords f32ArithNoSqrt scenarioLayer g.layerH g.layerW g.imgW g.imgH
                g.stepW g.stepH)) :=
  C1_boxes_written (fun _ => Fp.nan) (fun _ => Fp.nan) scenarioParam scenarioLayer
    (by decide) (by decide) 2 2 300 300 (binary32.ofInt 150) (binary32.ofInt 150)

/-- C2 fails on the code for a large feature map: for a primary tensor `2^31` high and
`2^31` wide and `numPriors = 3`, the `size_t` product of line 127 wraps to 0, so `Reshape`
gives the shape `[1, 2, 0]`, which is not `[1, 2, H*W*numPriors*4]`. -/
theorem C2_Reshape_wraps :
    scenarioLayer.numPriors = 3 ∧
      wideSrc.get? 0 = some { shape := [1, 0, 2147483648, 2147483648], data := [] } ∧
      Reshape scenarioLayer wideSrc = some [1, 2, 0] ∧
      2147483648 * 2147483648 * scenarioLayer.numPriors * 4 = 3 * 2 ^ 64 ∧
      Reshape scenarioLayer wideSrc
        ≠ some [1, 2, 2147483648 * 2147483648 * scenarioLayer.numPriors * 4] := by
  decide

/-- C2 as amended: for an input whose primary tensor has height `H` on axis 2 and width `W`
on axis 3, `Reshape` gives the shape `[1, 2, (H*W*numPriors*4) mod 2^64]`, which is exactly
`[1, 2, H*W*numPriors*4]` whenever that product is below `2^64`; two layers with the same
`numPriors` on inputs with the same `H` and `W` get the same shape, and the last dimension
is a multiple of 4. -/
theorem C2_Reshape_shape {F : Type} (L : PriorBoxLayer F) (src : List (Tensor F))
    (t : Tensor F) (H W : Nat) (h0 : src.get? 0 = some t) (hH : t.Axis 2 = some H)
    (hW : t.Axis 3 = some W) :
    Reshape L src = some [1, 2, (H * W * L.numPriors * 4) % 2 ^ 64] ∧
      (H * W * L.numPriors * 4 < 2 ^ 64 →
        Reshape L src = some [1, 2, H * W * L.numPriors * 4]) ∧
      (∀ (L' : PriorBoxLayer F) (src' : List (Tensor F)) (t' : Tensor F),
        src'.get? 0 = some t' → t'.Axis 2 = some H → t'.Axis 3 = some W →
        L'.numPriors = L.numPriors → Reshape L' src' = Reshape L src) ∧
      4 ∣ (H * W * L.numPriors * 4) % 2 ^ 64 := by
  have key : ∀ (L' : PriorBoxLayer F) (src' : List (Tensor F)) (t' : Tensor F),
      src'.get? 0 = some t' → t'.Axis 2 = some H → t'.Axis 3 = some W →
      Reshape L' src' = some [1, 2, (H * W * L'.numPriors * 4) % 2 ^ 64] := by
    intro L' src' t' h0' hH' hW'
    simp only [Reshape, h0', hH', hW', bind, Option.bind, Nat.mul_comm W H]
  refine ⟨key L src t h0 hH hW, ?_, ?_, ?_⟩
  · intro hlt
    rw [key L src t h0 hH hW, Nat.mod_eq_of_lt hlt]
  · intro L' src' t' h0' hH' hW' hnp
    rw [key L' src' t' h0' hH' hW', key L src t h0 hH hW, hnp]
  · have e : (2 : Nat) ^ 64 = 2 ^ 62 * 4 := by norm_num
    rw [e, Nat.mul_mod_mul_right]
    exact Dvd.intro_left _ rfl

/-- C2 as amended, on the scenario's inputs. -/
theorem C2_Reshape_shape_witness :
    Reshape scenarioLayer (scenarioSrc Fp)
        = some [1, 2, (2 * 2 * scenarioLayer.numPriors * 4) % 2 ^ 64] ∧
      (2 * 2 * scenarioLayer.numPriors * 4 < 2 ^ 64 →
        Reshape scenarioLayer (scenarioSrc Fp)
          = some [1, 2, 2 * 2 * scenarioLayer.numPriors * 4]) ∧
      (∀ (L' : PriorBoxLayer Fp) (src' : List (Tensor Fp)) (t' : Tensor Fp),
        src'.get? 0 = some t' → t'.Axis 2 = some 2 → t'.Axis 3 = some 2 →
        L'.numPriors = scenarioLayer.numPriors →
        Reshape L' src' = Reshape scenarioLayer (scenarioSrc Fp)) ∧
      4 ∣ (2 * 2 * scenarioLayer.numPriors * 4) % 2 ^ 64 :=
  C2_Reshape_shape scenarioLayer (scenarioSrc Fp) { shape := [1, 8, 2, 2], data := [] } 2 2
    rfl rfl rfl

/-- C3: for a configuration accepted by `Setup` whose `minSize` list is not empty,
`numPriors` is the number of resolved aspect ratios times the number of min sizes, plus the
number of min sizes when max sizes are configured; and `numPriors` is at least 1. -/
theorem C3_numPriors {F : Type} (A : Arith F) (p : PriorBoxParam F) (L : PriorBoxLayer F)
    (hS : Setup A p = some L) (hmin : p.minSize ≠ []) :
    L.aspectRatios = resolveAspectRatios A p.flip p.aspectRatio ∧
      L.numPriors = L.aspectRatios.length * p.minSize.length
        + (if p.maxSize.length = 0 then 0 else p.minSize.length) ∧
      1 ≤ L.numPriors := by
  obtain ⟨hmn, hmx, har, hnp, hok, -⟩ := Setup_some A p L hS
  have hlen : 1 ≤ p.minSize.length := by
    cases hp : p.minSize with
    | nil => exact absurd hp hmin
    | cons a as => simp
  have har1 : 1 ≤ L.aspectRatios.length := by
    rw [har]; exact length_resolveAspectRatios_pos A p.flip p.aspectRatio
  have hform : L.numPriors = L.aspectRatios.length * p.minSize.length
      + (if p.maxSize.length = 0 then 0 else p.minSize.length) := by
    rw [hnp, hmn]
    by_cases h0 : p.maxSize.length = 0
    · rw [if_pos h0, hmx, h0]
    · rw [if_neg h0]
      have := hok (by rw [hmx]; omega)
      rw [this, hmn]
  refine ⟨har, hform, ?_⟩
  rw [hform]
  have : 1 * 1 ≤ L.aspectRatios.length * p.minSize.length := Nat.mul_le_mul har1 hlen
  omega

/-- C3, on the scenario. -/
theorem C3_numPriors_witness :
    scenarioLayer.aspectRatios
        = resolveAspectRatios f32ArithNoSqrt scenarioParam.flip scenarioParam.aspectRatio ∧
      scenarioLayer.numPriors = scenarioLayer.aspectRatios.length * scenarioParam.minSize.length
        + (if scenarioParam.maxSize.length = 0 then 0 else scenarioParam.minSize.length) ∧
      1 ≤ scenarioLayer.numPriors :=
  C3_numPriors f32ArithNoSqrt scenarioParam scenarioLayer (by decide) (by decide)

/-- C4: the scenario (`minSize = [30]`, `aspectRatio = [2]`, `flip`, no `maxSize`, no
clipping, `variance = [0.1]`, `offset = 0.5`, a 2x2 feature map, a 300x300 image, no step
configured).  `Setup` resolves the ratios `1, 2, 0.5` in this order and `numPriors = 3`; the
steps resolve to 150; the output shape is `[1, 2, 48]` and the box loops store 48 values;
the first four values of the output are `0.2, 0.2, 0.3, 0.3` (in binary32 the `float`s
nearest to `1/5` and `3/10`, in exact arithmetic `1/5` and `3/10`). -/
theorem C4_scenario :
    (∀ (sqrt : Fp → Fp) (sqrtInt : Int → Fp),
      ∃ L, Setup (f32Arith sqrt sqrtInt) scenarioParam = some L ∧ L.numPriors = 3 ∧
        L.aspectRatios = [binary32.ofInt 1, binary32.ofInt 2, binary32.round false 1 2 0] ∧
        resolveGeometry (f32Arith sqrt sqrtInt) L (scenarioSrc Fp) = some scenarioGeometry ∧
        Reshape L (scenarioSrc Fp) = some [1, 2, 48] ∧
        ∀ dst : Tensor Fp, dst.shape = [1, 2, 48] → dst.data.length = 96 →
          (∃ buf, boxLoop (f32Arith sqrt sqrtInt) L 2 2 300 300 (binary32.ofInt 150)
            (binary32.ofInt 150) dst.data = some (buf, 48)) ∧
          ∃ out, ForwardCpu (f32Arith sqrt sqrtInt) L (scenarioSrc Fp) dst = some out ∧
            out.get? 0 = some (binary32.round false 1 5 0) ∧
            out.get? 1 = some (binary32.round false 1 5 0) ∧
            out.get? 2 = some (binary32.round false 3 10 0) ∧
            out.get? 3 = some (binary32.round false 3 10 0)) ∧
    (∀ sqrt : ℚ → ℚ,
      ∃ L, Setup (exactArith sqrt) scenarioParamExact = some L ∧ L.numPriors = 3 ∧
        L.aspectRatios = [1, 2, 1 / 2] ∧
        resolveGeometry (exactArith sqrt) L (scenarioSrc ℚ) = some scenarioGeometryExact ∧
        Reshape L (scenarioSrc ℚ) = some [1, 2, 48] ∧
        ∀ dst : Tensor ℚ, dst.shape = [1, 2, 48] → dst.data.length = 96 →
          (∃ buf, boxLoop (exactArith sqrt) L 2 2 300 300 150 150 dst.data = some (buf, 48)) ∧
          ∃ out, ForwardCpu (exactArith sqrt) L (scenarioSrc ℚ) dst = some out ∧
            out.get? 0 = some (1 / 5) ∧ out.get? 1 = some (1 / 5) ∧
            out.get? 2 = some (3 / 10) ∧ out.get? 3 = some (3 / 10)) := by
  constructor
  · intro sqrt sqrtInt
    refine ⟨scenarioLayer, scenario_Setup_f32 sqrt sqrtInt, rfl, rfl,
      scenario_geometry_f32 sqrt sqrtInt, rfl, ?_⟩
    intro dst hshape hdata
    constructor
    · exact boxLoop_count _ scenarioParam scenarioLayer (scenario_Setup_f32 sqrt sqrtInt)
        (scenario_boxes_f32 sqrt sqrtInt) 2 2 300 300 _ _ dst.data (by rw [hdata]; decide)
    · obtain ⟨out, hout, h0, h1, h2, h3⟩ :=
        row_major_layout (f32Arith sqrt sqrtInt) scenarioParam scenarioLayer (scenarioSrc Fp)
          dst scenarioGeometry (binary32.ofInt 30) [] 0 0 (scenario_Setup_f32 sqrt sqrtInt) rfl
          rfl (scenario_boxes_f32 sqrt sqrtInt) (scenario_geometry_f32 sqrt sqrtInt)
          (by rw [hshape]; rfl) (by rw [hdata, hshape]; rfl) (by decide) (by decide)
      have e0 : (0 * scenarioGeometry.layerW + 0) * scenarioLayer.numPriors * 4 = 0 := rfl
      rw [e0] at h0 h1 h2 h3
      simp only [f32Arith, scenarioParam, scenarioGeometry] at h0 h1 h2 h3
      refine ⟨out, hout, ?_, ?_, ?_, ?_⟩
      · rw [h0]; decide
      · rw [h1]; decide
      · rw [h2]; decide
      · rw [h3]; decide
  · intro sqrt
    refine ⟨scenarioLayerExact, scenario_Setup_exact sqrt, rfl, rfl,
      scenario_geometry_exact sqrt, rfl, ?_⟩
    intro dst hshape hdata
    constructor
    · exact boxLoop_count _ scenarioParamExact scenarioLayerExact (scenario_Setup_exact sqrt)
        (scenario_boxes_exact sqrt) 2 2 300 300 _ _ dst.data (by rw [hdata]; decide)
    · obtain ⟨out, hout, h0, h1, h2, h3⟩ :=
        row_major_layout (exactArith sqrt) scenarioParamExact scenarioLayerExact (scenarioSrc ℚ)
          dst scenarioGeometryExact 30 [] 0 0 (scenario_Setup_exact sqrt) rfl
          rfl (scenario_boxes_exact sqrt) (scenario_geometry_exact sqrt)
          (by rw [hshape]; rfl) (by rw [hdata, hshape]; rfl) (by decide) (by decide)
      have e0 : (0 * scenarioGeometryExact.layerW + 0) * scenarioLayerExact.numPriors * 4 = 0 :=
        rfl
      rw [e0] at h0 h1 h2 h3
      refine ⟨out, hout, ?_, ?_, ?_, ?_⟩
      · rw [h0]
        norm_num [exactArith, truncRat, scenarioParamExact, scenarioGeometryExact]
      · rw [h1]
        norm_num [exactArith, truncRat, scenarioParamExact, scenarioGeometryExact]
      · rw [h2]
        norm_num [exactArith, truncRat, scenarioParamExact, scenarioGeometryExact]
      · rw [h3]
        norm_num [exactArith, truncRat, scenarioParamExact, scenarioGeometryExact]

/-- C4, on an output tensor filled with zeros. -/
theorem C4_scenario_witness :
    ∃ L, Setup f32ArithNoSqrt scenarioParam = some L ∧
      (∃ buf, boxLoop f32ArithNoSqrt L 2 2 300 300 (binary32.ofInt 150)
        (binary32.ofInt 150) scenarioDst.data = some (buf, 48)) ∧
      ∃ out, ForwardCpu f32ArithNoSqrt L (scenarioSrc Fp) scenarioDst = some out ∧
        out.get? 0 = some (binary32.round false 1 5 0) ∧
        out.get? 1 = some (binary32.round false 1 5 0) ∧
        out.get? 2 = some (binary32.round false 3 10 0) ∧
        out.get? 3 = some (binary32.round false 3 10 0) :=
  match C4_scenario.1 (fun _ => Fp.nan) (fun _ => Fp.nan) with
  | ⟨L, hS, _, _, _, _, hdst⟩ => ⟨L, hS, hdst scenarioDst rfl rfl⟩

/-- C5: row-major layout.  For a configuration accepted by `Setup`, without clipping, in
which each cell receives `numPriors` boxes, and an output tensor of the shape `[1, 2, dim]`
with `dim = layerH*layerW*numPriors*4` (the shape `Reshape` gives it, `dim` being below `2^64`),
`ForwardCpu` returns an output whose four values from index `(h*layerW + w)*numPriors*4` on
are `(cx - m/2)/imgW`, `(cy - m/2)/imgH`, `(cx + m/2)/imgW`, `(cy + m/2)/imgH`, with
`cx = (w + offset)*stepW`, `cy = (h + offset)*stepH` and `m` the first min size truncated
to an integer, for every cell `(h, w)` of the feature map. -/
theorem C5_row_major_layout {F : Type} (A : Arith F) (p : PriorBoxParam F)
    (L : PriorBoxLayer F) (src : List (Tensor F)) (dst : Tensor F) (g : Geometry F)
    (m0 : F) (rest : List F) (h w : Nat)
    (hS : Setup A p = some L) (hclip : p.clip = false) (hmin : p.minSize = m0 :: rest)
    (hbox : boxesPerCell A L = L.numPriors)
    (hg : resolveGeometry A L src = some g) (hR : dst.shape = [1, 2, g.dim L])
    (hD : dst.data.length = dst.shape.prod) (hh : h < g.layerH) (hw : w < g.layerW) :
    ∃ out, ForwardCpu A L src dst = some out ∧
      out.get? ((h * g.layerW + w) * L.numPriors * 4) =
        some (A.div (A.sub (A.mul (A.add (A.ofNat w) p.offset) g.stepW)
          (A.div (A.ofInt (A.toInt m0)) A.two)) (A.ofNat g.imgW)) ∧
      out.get? ((h * g.layerW + w) * L.numPriors * 4 + 1) =
        some (A.div (A.sub (A.mul (A.add (A.ofNat h) p.offset) g.stepH)
          (A.div (A.ofInt (A.toInt m0)) A.two)) (A.ofNat g.imgH)) ∧
      out.get? ((h * g.layerW + w) * L.numPriors * 4 + 2) =
        some (A.div (A.add (A.mul (A.add (A.ofNat w) p.offset) g.stepW)
          (A.div (A.ofInt (A.toInt m0)) A.two)) (A.ofNat g.imgW)) ∧
      out.get? ((h * g.layerW + w) * L.numPriors * 4 + 3) =
        some (A.div (A.add (A.mul (A.add (A.ofNat h) p.offset) g.stepH)
          (A.div (A.ofInt (A.toInt m0)) A.two)) (A.ofNat g.imgH)) :=
  row_major_layout A p L src dst g m0 rest h w hS hclip hmin hbox hg hR hD hh hw

/-- C5, on the cell `(1, 0)` of the scenario. -/
theorem C5_row_major_layout_witness :
    ∃ out, ForwardCpu f32ArithNoSqrt scenarioLayer (scenarioSrc Fp) scenarioDst = some out ∧
      out.get? ((1 * scenarioGeometry.layerW + 0) * scenarioLayer.numPriors * 4) =
        some (f32ArithNoSqrt.div (f32ArithNoSqrt.sub
          (f32ArithNoSqrt.mul (f32ArithNoSqrt.add (f32ArithNoSqrt.ofNat 0) scenarioParam.offset)
            scenarioGeometry.stepW)
          (f32ArithNoSqrt.div (f32ArithNoSqrt.ofInt (f32ArithNoSqrt.toInt (binary32.ofInt 30)))
            f32ArithNoSqrt.two)) (f32ArithNoSqrt.ofNat scenarioGeometry.imgW)) ∧
      out.get? ((1 * scenarioGeometry.layerW + 0) * scenarioLayer.numPriors * 4 + 1) =
        some (f32ArithNoSqrt.div (f32ArithNoSqrt.sub
          (f32ArithNoSqrt.mul (f32ArithNoSqrt.add (f32ArithNoSqrt.ofNat 1) scenarioParam.offset)
            scenarioGeometry.stepH)
          (f32ArithNoSqrt.div (f32ArithNoSqrt.ofInt (f32ArithNoSqrt.toInt (binary32.ofInt 30)))
            f32ArithNoSqrt.two)) (f32ArithNoSqrt.ofNat scenarioGeometry.imgH)) ∧
      out.get? ((1 * scenarioGeometry.layerW + 0) * scenarioLayer.numPriors * 4 + 2) =
        some (f32ArithNoSqrt.div (f32ArithNoSqrt.add
          (f32ArithNoSqrt.mul (f32ArithNoSqrt.add (f32ArithNoSqrt.ofNat 0) scenarioParam.offset)
            scenarioGeometry.stepW)
          (f32ArithNoSqrt.div (f32ArithNoSqrt.ofInt (f32ArithNoSqrt.toInt (binary32.ofInt 30)))
            f32ArithNoSqrt.two)) (f32ArithNoSqrt.ofNat scenarioGeometry.imgW)) ∧
      out.get? ((1 * scenarioGeometry.layerW + 0) * scenarioLayer.numPriors * 4 + 3) =
        some (f32ArithNoSqrt.div (f32ArithNoSqrt.add
          (f32ArithNoSqrt.mul (f32ArithNoSqrt.add (f32ArithNoSqrt.ofNat 1) scenarioParam.offset)
            scenarioGeometry.stepH)
          (f32ArithNoSqrt.div (f32ArithNoSqrt.ofInt (f32ArithNoSqrt.toInt (binary32.ofInt 30)))
            f32ArithNoSqrt.two)) (f32ArithNoSqrt.ofNat scenarioGeometry.imgH)) :=
  C5_row_major_layout f32ArithNoSqrt scenarioParam scenarioLayer (scenarioSrc Fp) scenarioDst
    scenarioGeometry (binary32.ofInt 30) [] 1 0 (by decide) rfl rfl (by decide) (by decide)
    rfl rfl (by decide) (by decide)

/-- C6: the variance block.  For a configuration accepted by `Setup` and an output tensor
of the shape `[1, 2, dim]` (the shape `Reshape` gives it, `dim` being below `2^64`),
`ForwardCpu` returns `2*dim` values, `dim = layerH*layerW*numPriors*4`,
of which the last `dim` are variance entries: all equal to the single configured value
(`0.1f` when none is configured), or, with four configured values, entry `k` equal to
`variance[k mod 4]`. -/
theorem C6_variance_block {F : Type} (A : Arith F) (p : PriorBoxParam F)
    (L : PriorBoxLayer F) (src : List (Tensor F)) (dst : Tensor F) (g : Geometry F)
    (hS : Setup A p = some L) (hg : resolveGeometry A L src = some g)
    (hR : dst.shape = [1, 2, g.dim L]) (hD : dst.data.length = dst.shape.prod) :
    ∃ out, ForwardCpu A L src dst = some out ∧
      out.length = 2 * (g.layerH * g.layerW * L.numPriors * 4) ∧
      (∀ v, p.variance = [v] → ∀ k, k < g.layerH * g.layerW * L.numPriors * 4 →
        out.get? (g.layerH * g.layerW * L.numPriors * 4 + k) = some v) ∧
      (p.variance = [] → ∀ k, k < g.layerH * g.layerW * L.numPriors * 4 →
        out.get? (g.layerH * g.layerW * L.numPriors * 4 + k) = some A.tenth) ∧
      (p.variance.length = 4 → ∀ k, k < g.layerH * g.layerW * L.numPriors * 4 →
        out.get? (g.layerH * g.layerW * L.numPriors * 4 + k) = p.variance.get? (k % 4)) := by
  obtain ⟨blk, hblk, -, hF⟩ := ForwardCpu_accepted A p L src dst g hS hg hR hD
  obtain ⟨-, -, -, -, -, hvar, -⟩ := Setup_some A p L hS
  have hv := Setup_variance_length A p L hS
  have hF' := hF L.clip
  have hL : ({ L with clip := L.clip } : PriorBoxLayer F) = L := rfl
  rw [hL] at hF'
  have hX : (if L.clip = true then clipPass A blk else blk).length
      = g.layerH * g.layerW * L.numPriors * 4 := by
    split
    · simp only [clipPass, List.length_map]; exact hblk
    · exact hblk
  have hget : ∀ k, k < g.layerH * g.layerW * L.numPriors * 4 →
      ((if L.clip = true then clipPass A blk else blk)
          ++ varianceValues L g.layerH g.layerW).get?
        (g.layerH * g.layerW * L.numPriors * 4 + k)
        = L.variance.get? (k % L.variance.length) := by
    intro k hk
    rw [List.get?_eq_getElem?, List.getElem?_append_right (by rw [hX]; omega), hX,
      Nat.add_sub_cancel_left, ← List.get?_eq_getElem?]
    exact get?_varianceValues L g.layerH g.layerW k hv hk
  refine ⟨_, hF', ?_, ?_, ?_, ?_⟩
  · rw [List.length_append, hX, length_varianceValues L hv]; ring
  · intro v hpv k hk
    rw [hget k hk]
    rw [hpv] at hvar
    have e : resolveVariance A [v] = some [v] := rfl
    rw [e, Option.some.injEq] at hvar
    rw [← hvar, List.length_singleton, Nat.mod_one]
    rfl
  · intro hpv k hk
    rw [hget k hk]
    rw [hpv] at hvar
    have e : resolveVariance A ([] : List F) = some [A.tenth] := rfl
    rw [e, Option.some.injEq] at hvar
    rw [← hvar, List.length_singleton, Nat.mod_one]
    rfl
  · intro hpv k hk
    rw [hget k hk]
    simp only [resolveVariance, hpv, gt_iff_lt, Nat.one_lt_ofNat, if_true,
      Option.some.injEq] at hvar
    rw [← hvar, hpv]

/-- C6, on the scenario. -/
theorem C6_variance_block_witness :
    ∃ out, ForwardCpu f32ArithNoSqrt scenarioLayer (scenarioSrc Fp) scenarioDst = some out ∧
      out.length = 2 * (scenarioGeometry.layerH * scenarioGeometry.layerW
        * scenarioLayer.numPriors * 4) ∧
      (∀ v, scenarioParam.variance = [v] → ∀ k,
        k < scenarioGeometry.layerH * scenarioGeometry.layerW * scenarioLayer.numPriors * 4 →
        out.get? (scenarioGeometry.layerH * scenarioGeometry.layerW * scenarioLayer.numPriors * 4
          + k) = some v) ∧
      (scenarioParam.variance = [] → ∀ k,
        k < scenarioGeometry.layerH * scenarioGeometry.layerW * scenarioLayer.numPriors * 4 →
        out.get? (scenarioGeometry.layerH * scenarioGeometry.layerW * scenarioLayer.numPriors * 4
          + k) = some f32ArithNoSqrt.tenth) ∧
      (scenarioParam.variance.length = 4 → ∀ k,
        k < scenarioGeometry.layerH * scenarioGeometry.layerW * scenarioLayer.numPriors * 4 →
        out.get? (scenarioGeometry.layerH * scenarioGeometry.layerW * scenarioLayer.numPriors * 4
          + k) = scenarioParam.variance.get? (k % 4)) :=
  C6_variance_block f32ArithNoSqrt scenarioParam scenarioLayer (scenarioSrc Fp) scenarioDst
    scenarioGeometry (by decide) (by decide) rfl rfl

/-- C7 fails on the code when a coordinate is NaN: with `minSize = [0.5f]` (which `(int)`
truncates to 0) and an image tensor of width 0, the configuration is accepted, `xmin` and
`xmax` are `(0 - 0) / 0 = NaN`, and the output with `clip` enabled still holds NaN at the
places 0 and 2: both comparisons of `std::max` and `std::min` are false on NaN.  NaN is no
number of `[0, 1]`. -/
theorem C7_clipped_NaN :
    Setup f32ArithNoSqrt halfSizeParam = some halfSizeLayer ∧
      halfSizeLayer.clip = true ∧
      Reshape halfSizeLayer noWidthSrc = some halfSizeDst.shape ∧
      halfSizeDst.data.length = halfSizeDst.shape.prod ∧
      ForwardCpu f32ArithNoSqrt halfSizeLayer noWidthSrc halfSizeDst
        = some [Fp.nan, binary32.round false 1 2 0, Fp.nan, binary32.round false 1 2 0,
            binary32.round false 1 10 0, binary32.round false 1 10 0,
            binary32.round false 1 10 0, binary32.round false 1 10 0] ∧
      clamp f32ArithNoSqrt Fp.nan = Fp.nan ∧
      ¬ ∃ s m e, Fp.nan = Fp.fin s m e ∧
        0 ≤ (Fp.fin s m e).toRat ∧ (Fp.fin s m e).toRat ≤ 1 := by
  refine ⟨by decide, rfl, by decide, by decide, by decide, by decide, ?_⟩
  rintro ⟨s, m, e, h, -⟩
  cases h

/-- C7 as amended: clipping.  The output of `ForwardCpu` with `clip` enabled is the output
with `clip` disabled in which each of the `dim = layerH*layerW*numPriors*4` values `x` of
the coordinate block is replaced by `min(max(x, 0), 1)`, the variance block being the same;
no clipped coordinate compares below 0 or above 1.  In exact arithmetic `min(max(x, 0), 1)`
lies in `[0, 1]` for every `x`; in binary32 it is a finite number of `[0, 1]` for every `x`
but NaN, the infinities included, and it is NaN for NaN.  (The output tensor has the shape
`[1, 2, dim]`, which `Reshape` gives it, `dim` being below `2^64`.) -/
theorem C7_clip :
    (∀ (F : Type) (A : Arith F) (p : PriorBoxParam F) (L0 L1 : PriorBoxLayer F)
        (src : List (Tensor F)) (dst : Tensor F) (g : Geometry F),
      Setup A { p with clip := false } = some L0 →
      Setup A { p with clip := true } = some L1 →
      resolveGeometry A L0 src = some g → dst.shape = [1, 2, g.dim L0] →
      dst.data.length = dst.shape.prod →
      ∃ o, ForwardCpu A L0 src dst = some o ∧
        ForwardCpu A L1 src dst
          = some (clipPass A (o.take (g.dim L0)) ++ o.drop (g.dim L0)) ∧
        (clipPass A (o.take (g.dim L0))).length = g.dim L0 ∧
        ∀ c ∈ clipPass A (o.take (g.dim L0)), A.lt c A.zero = false ∧ A.lt A.one c = false) ∧
    (∀ (sqrt : ℚ → ℚ) (x : ℚ),
      0 ≤ clamp (exactArith sqrt) x ∧ clamp (exactArith sqrt) x ≤ 1) ∧
    (∀ (sqrt : Fp → Fp) (sqrtInt : Int → Fp) (x : Fp), x ≠ Fp.nan →
      ∃ s m e, clamp (f32Arith sqrt sqrtInt) x = Fp.fin s m e ∧
        0 ≤ (Fp.fin s m e).toRat ∧ (Fp.fin s m e).toRat ≤ 1) ∧
    (∀ (sqrt : Fp → Fp) (sqrtInt : Int → Fp), clamp (f32Arith sqrt sqrtInt) Fp.nan = Fp.nan) := by
  refine ⟨?_, ?_, ?_, fun _ _ => rfl⟩
  · intro F A p L0 L1 src dst g hS0 hS1 hg hR hD
    have h1 : L1 = { L0 with clip := true } := by
      have := Setup_clip A { p with clip := false } true
      simp only [hS0, Option.map_some'] at this
      have e : ({ p with clip := false } : PriorBoxParam F) = { { p with clip := false } with
          clip := false } := rfl
      rw [hS1] at this
      exact Option.some.inj this
    have h0 : L0 = { L0 with clip := false } := by
      have := Setup_clip A { p with clip := false } false
      simp only [hS0, Option.map_some'] at this
      exact Option.some.inj this
    obtain ⟨blk, hblk, -, hF⟩ := ForwardCpu_accepted A _ L0 src dst g hS0 hg hR hD
    have hF0 := hF false
    have hF1 := hF true
    rw [← h0] at hF0
    rw [← h1] at hF1
    simp only [Bool.false_eq_true, if_false] at hF0
    simp only [if_true] at hF1
    refine ⟨_, hF0, ?_, ?_, ?_⟩
    · rw [hF1, List.take_left' hblk, List.drop_left' hblk]
    · rw [List.take_left' hblk]
      simp only [clipPass, List.length_map]; exact hblk
    · intro c hc
      simp only [clipPass, List.mem_map] at hc
      obtain ⟨x, -, rfl⟩ := hc
      exact clamp_range A x
  · intro sqrt x
    simp only [clamp, stdMin, stdMax, exactArith, decide_eq_true_eq]
    split_ifs <;> constructor <;> linarith
  · intro sqrt sqrtInt x hx
    have hz : (f32Arith sqrt sqrtInt).zero = Fp.fin false 0 (-149) := rfl
    have ho : (f32Arith sqrt sqrtInt).one = Fp.fin false (2 ^ 23) (-23) :=
      (by decide : binary32.ofInt 1 = Fp.fin false (2 ^ 23) (-23))
    have hz0 : (Fp.fin false 0 (-149)).toRat = 0 := by simp [Fp.toRat]
    have ho1 : (Fp.fin false (2 ^ 23) (-23)).toRat = 1 := by
      simp only [Fp.toRat, Bool.false_eq_true, if_false, one_mul]
      norm_num
    rcases clamp_cases (f32Arith sqrt sqrtInt) x with h | h | ⟨h, h1, h2⟩
    · exact ⟨false, 0, -149, by rw [h, hz], by rw [hz0], by rw [hz0]; norm_num⟩
    · exact ⟨false, 2 ^ 23, -23, by rw [h, ho], by rw [ho1]; norm_num, by rw [ho1]⟩
    · rw [h]
      rw [hz] at h1
      rw [ho] at h2
      change Fp.lt _ _ = false at h1
      change Fp.lt _ _ = false at h2
      cases x with
      | nan => exact absurd rfl hx
      | inf s =>
        cases s
        · exact absurd h2 (by decide)
        · exact absurd h1 (by decide)
      | fin s m e =>
        refine ⟨s, m, e, rfl, ?_, ?_⟩
        · have := (lt_fin_iff s m e false 0 (-149)).not.1 (by rw [h1]; simp)
          rw [hz0] at this
          exact not_lt.1 this
        · have := (lt_fin_iff false (2 ^ 23) (-23) s m e).not.1 (by rw [h2]; simp)
          rw [ho1] at this
          exact not_lt.1 this

/-- C7 as amended, on the scenario. -/
theorem C7_clip_witness :
    ∃ o, ForwardCpu f32ArithNoSqrt scenarioLayer (scenarioSrc Fp) scenarioDst = some o ∧
      ForwardCpu f32ArithNoSqrt { scenarioLayer with clip := true } (scenarioSrc Fp) scenarioDst
        = some (clipPass f32ArithNoSqrt (o.take (scenarioGeometry.dim scenarioLayer))
            ++ o.drop (scenarioGeometry.dim scenarioLayer)) ∧
      (clipPass f32ArithNoSqrt (o.take (scenarioGeometry.dim scenarioLayer))).length
        = scenarioGeometry.dim scenarioLayer ∧
      ∀ c ∈ clipPass f32ArithNoSqrt (o.take (scenarioGeometry.dim scenarioLayer)),
        f32ArithNoSqrt.lt c f32ArithNoSqrt.zero = false ∧
          f32ArithNoSqrt.lt f32ArithNoSqrt.one c = false :=
  C7_clip.1 Fp f32ArithNoSqrt scenarioParam scenarioLayer { scenarioLayer with clip := true }
    (scenarioSrc Fp) scenarioDst scenarioGeometry (by decide) (by decide) (by decide) rfl rfl

/-- C8: clip idempotence.  The clip pass of line 205 over a whole block replaces every
element `x` by `min(max(x, 0), 1)`, and applying it twice gives the same block as applying
it once. -/
theorem C8_clip_idempotent {F : Type} (A : Arith F) (block : List F) :
    clipLoop A block.length block = some (clipPass A block) ∧
      clipLoop A block.length (clipPass A block) = some (clipPass A block) ∧
      clipPass A (clipPass A block) = clipPass A block := by
  have hidem : clipPass A (clipPass A block) = clipPass A block := by
    simp only [clipPass, List.map_map]
    apply List.map_congr_left
    intro x _
    exact clamp_idem A x
  refine ⟨?_, ?_, hidem⟩
  · rw [clipLoop_eq A block.length block (Nat.le_refl _)]
    simp
  · have hl : (clipPass A block).length = block.length := by simp [clipPass]
    rw [← hl, clipLoop_eq A _ _ (Nat.le_refl _)]
    simp [hidem]

/-- C9: a configured ratio that lies within `1e-6` of an entry of the list resolved from the
ratios before it can be removed without changing the list `Setup` resolves, nor anything
else `Setup` stores (`numPriors` included); and `aspectRatio = [1, 2, 2, 0.5]` with `flip`
resolves to the same list as `aspectRatio = [2]` with `flip`, namely `[1, 2, 0.5]` in this
order, in exact arithmetic as in binary32. -/
theorem C9_aspect_ratio_dedup :
    (∀ (F : Type) (A : Arith F) (p : PriorBoxParam F) (pre post : List F) (r : F),
      p.aspectRatio = pre ++ r :: post →
      alreadyExist A r (resolveAspectRatios A p.flip pre) = true →
      resolveAspectRatios A p.flip (pre ++ r :: post)
          = resolveAspectRatios A p.flip (pre ++ post) ∧
        Setup A p = Setup A { p with aspectRatio := pre ++ post }) ∧
    (∀ sqrt : ℚ → ℚ,
      resolveAspectRatios (exactArith sqrt) true [1, 2, 2, 1 / 2] = [1, 2, 1 / 2] ∧
      resolveAspectRatios (exactArith sqrt) true [2] = [1, 2, 1 / 2]) ∧
    (∀ (sqrt : Fp → Fp) (sqrtInt : Int → Fp),
      resolveAspectRatios (f32Arith sqrt sqrtInt) true
          [binary32.ofInt 1, binary32.ofInt 2, binary32.ofInt 2, binary32.round false 1 2 0]
        = [binary32.ofInt 1, binary32.ofInt 2, binary32.round false 1 2 0] ∧
      resolveAspectRatios (f32Arith sqrt sqrtInt) true [binary32.ofInt 2]
        = [binary32.ofInt 1, binary32.ofInt 2, binary32.round false 1 2 0]) := by
  refine ⟨?_, ?_, ?_⟩
  · intro F A p pre post r hp hex
    have h1 := resolveAspectRatios_remove A p.flip pre post r hex
    refine ⟨h1, ?_⟩
    unfold Setup
    simp only [hp, h1]
  · intro sqrt
    constructor <;>
      norm_num [resolveAspectRatios, pushAspectRatio, alreadyExist, exactArith, abs_lt]
  · intro sqrt sqrtInt
    constructor <;> rfl

/-- C9, removing the second `2` of `[1, 2, 2, 0.5]` in binary32. -/
theorem C9_aspect_ratio_dedup_witness :
    resolveAspectRatios f32ArithNoSqrt true
        ([binary32.ofInt 1, binary32.ofInt 2] ++ binary32.ofInt 2 :: [binary32.round false 1 2 0])
      = resolveAspectRatios f32ArithNoSqrt true
        ([binary32.ofInt 1, binary32.ofInt 2] ++ [binary32.round false 1 2 0]) ∧
    Setup f32ArithNoSqrt
        { scenarioParam with
          aspectRatio := [binary32.ofInt 1, binary32.ofInt 2, binary32.ofInt 2,
            binary32.round false 1 2 0] }
      = Setup f32ArithNoSqrt
        { scenarioParam with
          aspectRatio := [binary32.ofInt 1, binary32.ofInt 2] ++ [binary32.round false 1 2 0] } :=
  C9_aspect_ratio_dedup.1 Fp f32ArithNoSqrt
    { scenarioParam with
      aspectRatio := [binary32.ofInt 1, binary32.ofInt 2, binary32.ofInt 2,
        binary32.round false 1 2 0] }
    [binary32.ofInt 1, binary32.ofInt 2] [binary32.round false 1 2 0] (binary32.ofInt 2)
    rfl (by decide)

/-- C10: `Setup` fails exactly when `maxSize` is not empty and differs in length from
`minSize`, or the number of variance values is none of 0, 1 and 4 (so 2 or 3 values are
rejected); on every other parameter bundle it succeeds. -/
theorem C10_Setup_fails_iff {F : Type} (A : Arith F) (p : PriorBoxParam F) :
    (Setup A p = none ↔
      (p.maxSize ≠ [] ∧ p.maxSize.length ≠ p.minSize.length) ∨
        (p.variance.length ≠ 0 ∧ p.variance.length ≠ 1 ∧ p.variance.length ≠ 4)) ∧
    (p.variance.length = 2 ∨ p.variance.length = 3 → Setup A p = none) ∧
    (¬ ((p.maxSize ≠ [] ∧ p.maxSize.length ≠ p.minSize.length) ∨
        (p.variance.length ≠ 0 ∧ p.variance.length ≠ 1 ∧ p.variance.length ≠ 4)) →
      ∃ L, Setup A p = some L) := by
  have hiff : Setup A p = none ↔
      (p.maxSize ≠ [] ∧ p.maxSize.length ≠ p.minSize.length) ∨
        (p.variance.length ≠ 0 ∧ p.variance.length ≠ 1 ∧ p.variance.length ≠ 4) := by
    rw [Setup_eq_none_iff]
    have e1 : p.maxSize.length > 0 ↔ p.maxSize ≠ [] := by
      rw [gt_iff_lt, List.length_pos]
    constructor
    · rintro (⟨h1, h2⟩ | ⟨h1, h2⟩)
      · exact Or.inl ⟨e1.1 h1, fun e => h2 e.symm⟩
      · exact Or.inr ⟨by omega, by omega, h2⟩
    · rintro (⟨h1, h2⟩ | ⟨h1, h2, h3⟩)
      · exact Or.inl ⟨e1.2 h1, fun e => h2 e.symm⟩
      · exact Or.inr ⟨by omega, h3⟩
  refine ⟨hiff, ?_, ?_⟩
  · intro h
    rw [hiff]
    right
    omega
  · intro h
    cases hs : Setup A p with
    | none => exact absurd (hiff.1 hs) h
    | some L => exact ⟨L, rfl⟩

/-- C11: image-size and step resolution in `Setup`.  For `imgSize` and for `step` alike, two
configured values `[a, b]` are stored as `H = a`, `W = b`, one value `[a]` as `H = a`,
`W = a`, and no value as `H = 0`, `W = 0`. -/
theorem C11_imgSize_step_resolution {F : Type} (A : Arith F) (p : PriorBoxParam F)
    (L : PriorBoxLayer F) (hS : Setup A p = some L) :
    (∀ a b, p.imgSize = [a, b] → L.imgH = a ∧ L.imgW = b) ∧
      (∀ a, p.imgSize = [a] → L.imgH = a ∧ L.imgW = a) ∧
      (p.imgSize = [] → L.imgH = 0 ∧ L.imgW = 0) ∧
      (∀ a b, p.step = [a, b] → L.stepH = a ∧ L.stepW = b) ∧
      (∀ a, p.step = [a] → L.stepH = a ∧ L.stepW = a) ∧
      (p.step = [] → L.stepH = A.zero ∧ L.stepW = A.zero) := by
  obtain ⟨-, -, -, -, -, -, -, -, -, himg, hstep⟩ := Setup_some A p L hS
  have hi : L.imgH = (resolvePair 0 p.imgSize).1 ∧ L.imgW = (resolvePair 0 p.imgSize).2 := by
    rw [← himg]; exact ⟨rfl, rfl⟩
  have hs : L.stepH = (resolvePair A.zero p.step).1 ∧ L.stepW = (resolvePair A.zero p.step).2 := by
    rw [← hstep]; exact ⟨rfl, rfl⟩
  refine ⟨?_, ?_, ?_, ?_, ?_, ?_⟩
  · intro a b h; rw [hi.1, hi.2, h]; exact ⟨rfl, rfl⟩
  · intro a h; rw [hi.1, hi.2, h]; exact ⟨rfl, rfl⟩
  · intro h; rw [hi.1, hi.2, h]; exact ⟨rfl, rfl⟩
  · intro a b h; rw [hs.1, hs.2, h]; exact ⟨rfl, rfl⟩
  · intro a h; rw [hs.1, hs.2, h]; exact ⟨rfl, rfl⟩
  · intro h; rw [hs.1, hs.2, h]; exact ⟨rfl, rfl⟩

/-- C11, on the scenario with `imgSize = [300, 200]` and `step = [8]`. -/
theorem C11_imgSize_step_resolution_witness :
    (∀ a b, configuredParam.imgSize = [a, b] →
        configuredLayer.imgH = a ∧ configuredLayer.imgW = b) ∧
      (∀ a, configuredParam.imgSize = [a] →
        configuredLayer.imgH = a ∧ configuredLayer.imgW = a) ∧
      (configuredParam.imgSize = [] → configuredLayer.imgH = 0 ∧ configuredLayer.imgW = 0) ∧
      (∀ a b, configuredParam.step = [a, b] →
        configuredLayer.stepH = a ∧ configuredLayer.stepW = b) ∧
      (∀ a, configuredParam.step = [a] →
        configuredLayer.stepH = a ∧ configuredLayer.stepW = a) ∧
      (configuredParam.step = [] →
        configuredLayer.stepH = f32ArithNoSqrt.zero ∧
          configuredLayer.stepW = f32ArithNoSqrt.zero) :=
  C11_imgSize_step_resolution f32ArithNoSqrt configuredParam configuredLayer (by decide)

/-- C12, refuted: on a feature map without rows (`layerH = 0`) the layer of the scenario is
set up, `Reshape` gives the shape `[1, 2, 0]`, and `ForwardCpu` returns normally with the
(empty) output buffer; the step `300 / 0` it computes on the way is `+inf`, not a failure.
(No loop has an iteration, so `sqrt` is not called.) -/
theorem C12_zero_sized_returns :
    Setup f32ArithNoSqrt scenarioParam = some scenarioLayer ∧
      Reshape scenarioLayer emptySrc = some emptyDst.shape ∧
      resolveGeometry f32ArithNoSqrt scenarioLayer emptySrc = some emptyGeometry ∧
      emptyGeometry.layerH = 0 ∧
      ForwardCpu f32ArithNoSqrt scenarioLayer emptySrc emptyDst = some [] := by
  decide

/-- C12, amended: on a zero-sized feature map (`layerH = 0` or `layerW = 0`) `ForwardCpu`
does not fail.  Whenever the input tensors it reads are present, so that the sizes and
steps are resolved, it returns without a single store, the output buffer being as it was
before the call, whatever the layer and the buffer are. -/
theorem C12_zero_sized_no_failure {F : Type} (A : Arith F) (L : PriorBoxLayer F)
    (src : List (Tensor F)) (dst : Tensor F) (g : Geometry F)
    (hg : resolveGeometry A L src = some g) (h0 : g.layerH = 0 ∨ g.layerW = 0) :
    ForwardCpu A L src dst = some dst.data := by
  unfold ForwardCpu
  rw [hg]
  exact fill_zero_sized A L g dst h0

/-- C12 amended, on the scenario's layer and a feature map without rows. -/
theorem C12_zero_sized_no_failure_witness :
    resolveGeometry f32ArithNoSqrt scenarioLayer emptySrc = some emptyGeometry ∧
      (emptyGeometry.layerH = 0 ∨ emptyGeometry.layerW = 0) ∧
      ForwardCpu f32ArithNoSqrt scenarioLayer emptySrc emptyDst = some emptyDst.data :=
  ⟨by decide, Or.inl (by decide),
    C12_zero_sized_no_failure f32ArithNoSqrt scenarioLayer emptySrc emptyDst emptyGeometry
      (by decide) (Or.inl (by decide))⟩

/-- C13: the minimal and maximal sizes enter `ForwardCpu` through the cast `(int)` only.
Two parameter bundles accepted by `Setup` that are the same except for the values of
`minSize` and `maxSize`, the casts `(int)` of these values being the same entry by entry,
give layers with the same `Reshape` and the same `ForwardCpu` on every input and every
output buffer (failure included). -/
theorem C13_size_truncation {F : Type} (A : Arith F) (p p' : PriorBoxParam F)
    (L L' : PriorBoxLayer F) (hS : Setup A p = some L) (hS' : Setup A p' = some L')
    (hsame : { p' with minSize := p.minSize, maxSize := p.maxSize } = p)
    (hmin : p'.minSize.map A.toInt = p.minSize.map A.toInt)
    (hmax : p'.maxSize.map A.toInt = p.maxSize.map A.toInt) :
    ∀ (src : List (Tensor F)) (dst : Tensor F),
      Reshape L' src = Reshape L src ∧ ForwardCpu A L' src dst = ForwardCpu A L src dst := by
  obtain ⟨a1, a2, a3, a4, -, a6, a7, a8, a9, a10, a11⟩ := Setup_some A p L hS
  obtain ⟨b1, b2, b3, b4, -, b6, b7, b8, b9, b10, b11⟩ := Setup_some A p' L' hS'
  have e1 : p'.aspectRatio = p.aspectRatio := by rw [← hsame]
  have e2 : p'.flip = p.flip := by rw [← hsame]
  have e3 : p'.clip = p.clip := by rw [← hsame]
  have e4 : p'.variance = p.variance := by rw [← hsame]
  have e5 : p'.imgSize = p.imgSize := by rw [← hsame]
  have e6 : p'.step = p.step := by rw [← hsame]
  have e7 : p'.offset = p.offset := by rw [← hsame]
  have hmin' : L'.minSizes.map A.toInt = L.minSizes.map A.toInt := by rw [a1, b1, hmin]
  have hmax' : L'.maxSizes.map A.toInt = L.maxSizes.map A.toInt := by rw [a2, b2, hmax]
  have l1 : L'.minSizes.length = L.minSizes.length := by
    simpa using congrArg List.length hmin'
  have l2 : L'.maxSizes.length = L.maxSizes.length := by
    simpa using congrArg List.length hmax'
  have f1 : L'.aspectRatios = L.aspectRatios := by rw [a3, b3, e1, e2]
  have f2 : L'.numPriors = L.numPriors := by rw [a4, b4, f1, l1, l2]
  have f3 : L'.variance = L.variance := by
    rw [e4, a6] at b6
    exact (Option.some.inj b6).symm
  have f4 : L'.clip = L.clip := by rw [a7, b7, e3]
  have f5 : L'.flip = L.flip := by rw [a8, b8, e2]
  have f6 : L'.offset = L.offset := by rw [a9, b9, e7]
  have f7 : (L'.imgH, L'.imgW) = (L.imgH, L.imgW) := by rw [a10, b10, e5]
  have f8 : (L'.stepH, L'.stepW) = (L.stepH, L.stepW) := by rw [a11, b11, e6]
  have hrest : { L' with minSizes := L.minSizes, maxSizes := L.maxSizes } = L := by
    cases L
    cases L'
    simp only [Prod.mk.injEq] at f1 f2 f3 f4 f5 f6 f7 f8
    simp only [PriorBoxLayer.mk.injEq, true_and]
    exact ⟨f1, f3, f5, f4, f2, f7.2, f7.1, f8.2, f8.1, f6⟩
  intro src dst
  refine ⟨?_, ForwardCpu_congr_trunc A L L' hmin' hmax' hrest src dst⟩
  unfold Reshape
  rw [f2]

/-- C13, on the scenario with `minSize = [30.7f]` against `minSize = [30]`: both casts give
the integer 30. -/
theorem C13_size_truncation_witness :
    Fp.toInt32 (binary32.round false 307 10 0) = 30 ∧
      Fp.toInt32 (binary32.ofInt 30) = 30 ∧
      binary32.round false 307 10 0 ≠ binary32.ofInt 30 ∧
      ∀ (src : List (Tensor Fp)) (dst : Tensor Fp),
        Reshape fractionalLayer src = Reshape scenarioLayer src ∧
          ForwardCpu f32ArithNoSqrt fractionalLayer src dst
            = ForwardCpu f32ArithNoSqrt scenarioLayer src dst :=
  ⟨by decide, by decide, by decide,
    C13_size_truncation f32ArithNoSqrt scenarioParam fractionalParam scenarioLayer
      fractionalLayer (by decide) (by decide) (by decide) (by decide) (by decide)⟩

/-- C14, refuted in binary32 with `flip`: the positive ratios `30` and `29.999998f` are
`2^-19 > 1e-6` apart, so `Setup` keeps both; both reciprocals `1.0f / r` round to the same
binary32 number, so the resolved list has two equal entries (places 2 and 4).  (`Setup`
does not call `sqrt`.) -/
theorem C14_equal_reciprocals :
    closeRatiosParam.flip = true ∧
      closeRatiosParam.aspectRatio
        = [Fp.fin false 15728640 (-19), Fp.fin false 15728639 (-19)] ∧
      (∀ r ∈ closeRatiosParam.aspectRatio, binary32.Valid r = true) ∧
      Setup f32ArithNoSqrt closeRatiosParam = some closeRatiosLayer ∧
      closeRatiosLayer.aspectRatios.get? 2 = some (Fp.fin false 8947849 (-28)) ∧
      closeRatiosLayer.aspectRatios.get? 4 = some (Fp.fin false 8947849 (-28)) ∧
      ¬ closeRatiosLayer.aspectRatios.Nodup := by
  refine ⟨rfl, by decide, by decide, by decide, rfl, rfl, by decide⟩

/-- C14, amended: for every list of positive (finite) binary32 input ratios and either
`flip` setting, the list resolved by `Setup` is `1.0f` followed by the configured ratios
that were kept, each followed by its reciprocal when `flip` is set; `1.0f` is the first
entry and occurs exactly once; every kept configured ratio differs from every entry before
it, so the kept ratios are pairwise different and without `flip` no two entries are equal.
With `flip` a pushed reciprocal is compared with nothing and may equal an earlier entry. -/
theorem C14_resolved_ratios (sqrt : Fp → Fp) (sqrtInt : Int → Fp) (p : PriorBoxParam Fp)
    (L : PriorBoxLayer Fp) (hS : Setup (f32Arith sqrt sqrtInt) p = some L)
    (hpos : ∀ r ∈ p.aspectRatio,
      binary32.Valid r = true ∧ ∃ m e, r = Fp.fin false m e ∧ 0 < m) :
    ∃ kept : List Fp,
      L.aspectRatios = binary32.ofInt 1 ::
        (if p.flip then kept.flatMap (fun r => [r, binary32.div (binary32.ofInt 1) r])
          else kept) ∧
      binary32.ofInt 1 ∉
        (if p.flip then kept.flatMap (fun r => [r, binary32.div (binary32.ofInt 1) r])
          else kept) ∧
      (∀ r ∈ kept, r ∈ p.aspectRatio) ∧
      (∀ pre r post, kept = pre ++ r :: post →
        r ∉ binary32.ofInt 1 ::
          (if p.flip then pre.flatMap (fun r => [r, binary32.div (binary32.ofInt 1) r])
            else pre)) ∧
      kept.Nodup ∧
      (p.flip = false → L.aspectRatios.Nodup) := by
  obtain ⟨-, -, hAR, -⟩ := Setup_some (f32Arith sqrt sqrtInt) p L hS
  obtain ⟨kept, hk, hmem, hdec⟩ :=
    resolveAspectRatios_kept (f32Arith sqrt sqrtInt) p.flip p.aspectRatio
  obtain ⟨tl, htl, hone⟩ := f32_one_once sqrt sqrtInt p.flip p.aspectRatio
    (fun r hr => (hpos r hr).1)
  have hk' : resolveAspectRatios (f32Arith sqrt sqrtInt) p.flip p.aspectRatio
      = binary32.ofInt 1 ::
        (if p.flip then kept.flatMap (fun r => [r, binary32.div (binary32.ofInt 1) r])
          else kept) := hk
  have htl' : resolveAspectRatios (f32Arith sqrt sqrtInt) p.flip p.aspectRatio
      = binary32.ofInt 1 :: tl := htl
  have hone' : binary32.ofInt 1 ∉ tl := hone
  have htleq : tl = (if p.flip then
      kept.flatMap (fun r => [r, binary32.div (binary32.ofInt 1) r]) else kept) := by
    rw [htl'] at hk'
    exact List.tail_eq_of_cons_eq hk'
  have hnot : ∀ pre r post, kept = pre ++ r :: post →
      r ∉ binary32.ofInt 1 ::
        (if p.flip then pre.flatMap (fun r => [r, binary32.div (binary32.ofInt 1) r])
          else pre) := by
    intro pre r post h
    have hr : r ∈ p.aspectRatio := hmem r (by rw [h]; simp)
    obtain ⟨-, m, e, hre, -⟩ := hpos r hr
    have hrefl := f32_absLtEps_sub_self sqrt sqrtInt false m e
    rw [← hre] at hrefl
    exact not_mem_of_alreadyExist_false (f32Arith sqrt sqrtInt) r _ hrefl (hdec pre r post h)
  have hsub : ∀ pre : List Fp, ∀ x ∈ pre, x ∈ binary32.ofInt 1 ::
      (if p.flip then pre.flatMap (fun r => [r, binary32.div (binary32.ofInt 1) r])
        else pre) := by
    intro pre x hx
    apply List.mem_cons_of_mem
    split
    · exact List.mem_flatMap.2 ⟨x, hx, by simp⟩
    · exact hx
  have hnd : kept.Nodup :=
    nodup_of_not_mem_earlier kept fun pre r post h hr => hnot pre r post h (hsub pre r hr)
  refine ⟨kept, ?_, ?_, hmem, hnot, hnd, ?_⟩
  · rw [hAR]; exact hk'
  · rw [← htleq]; exact hone'
  · intro hf
    rw [hAR, hk', hf]
    rw [hf] at htleq
    simp only [Bool.false_eq_true, if_false] at htleq ⊢
    rw [List.nodup_cons]
    exact ⟨by rw [← htleq]; exact hone', hnd⟩

/-- C14 amended, on the two close ratios `30` and `29.999998f` with `flip`. -/
theorem C14_resolved_ratios_witness :
    ∃ kept : List Fp,
      closeRatiosLayer.aspectRatios = binary32.ofInt 1 ::
        (if closeRatiosParam.flip then
          kept.flatMap (fun r => [r, binary32.div (binary32.ofInt 1) r])
          else kept) ∧
      binary32.ofInt 1 ∉
        (if closeRatiosParam.flip then
          kept.flatMap (fun r => [r, binary32.div (binary32.ofInt 1) r])
          else kept) ∧
      (∀ r ∈ kept, r ∈ closeRatiosParam.aspectRatio) ∧
      (∀ pre r post, kept = pre ++ r :: post →
        r ∉ binary32.ofInt 1 ::
          (if closeRatiosParam.flip then
            pre.flatMap (fun r => [r, binary32.div (binary32.ofInt 1) r])
            else pre)) ∧
      kept.Nodup ∧
      (closeRatiosParam.flip = false → closeRatiosLayer.aspectRatios.Nodup) :=
  C14_resolved_ratios (fun _ => Fp.nan) (fun _ => Fp.nan) closeRatiosParam closeRatiosLayer
    (by decide)
    (fun r hr => by
      have h : r = Fp.fin false 15728640 (-19) ∨ r = Fp.fin false 15728639 (-19) := by
        simpa [closeRatiosParam, scenarioParam, show binary32.ofInt 30
          = Fp.fin false 15728640 (-19) from by decide] using hr
      rcases h with h | h
      · exact ⟨by rw [h]; decide, 15728640, -19, h, by decide⟩
      · exact ⟨by rw [h]; decide, 15728639, -19, h, by decide⟩)

/-- C15: no access of `ForwardCpu` is out of bounds, for every configuration accepted by
`Setup` and every feature-map size.  The loops over `h` and `w`, run on a buffer that has at
least `layerH*layerW*numPriors*4` places, make every store inside the buffer and end with
`index = layerH*layerW*boxesPerCell*4 ≤ layerH*layerW*numPriors*4`; `_maxSizes[s]` exists
for every `s` of the loop when `_maxSizes` is not empty; `_variance[0]` exists when
`_variance` has one element and `_variance[0..3]` exist otherwise; and the whole of
`ForwardCpu`, on an output tensor of the shape `[1, 2, dim]` (the shape `Reshape` gives it,
`dim = layerH*layerW*numPriors*4` being below `2^64`), returns a buffer of the same length. -/
theorem C15_no_out_of_bounds {F : Type} (A : Arith F) (p : PriorBoxParam F)
    (L : PriorBoxLayer F) (hS : Setup A p = some L) :
    (∀ (layerH layerW imgW imgH : Nat) (stepW stepH : F) (buf : List F),
      layerH * layerW * L.numPriors * 4 ≤ buf.length →
      ∃ out n, boxLoop A L layerH layerW imgW imgH stepW stepH buf = some (out, n) ∧
        n = layerH * layerW * boxesPerCell A L * 4 ∧
        n ≤ layerH * layerW * L.numPriors * 4 ∧ out.length = buf.length) ∧
    (L.maxSizes.length > 0 → ∀ s, s < L.minSizes.length → ∃ x, L.maxSizes.get? s = some x) ∧
    (L.variance.length = 1 → ∃ v, L.variance.get? 0 = some v) ∧
    (L.variance.length ≠ 1 → ∀ j, j < 4 → ∃ v, L.variance.get? j = some v) ∧
    (∀ (src : List (Tensor F)) (dst : Tensor F) (g : Geometry F),
      resolveGeometry A L src = some g → dst.shape = [1, 2, g.dim L] →
      dst.data.length = dst.shape.prod →
      ∃ out, ForwardCpu A L src dst = some out ∧ out.length = dst.data.length) := by
  obtain ⟨-, -, -, -, hok, -⟩ := Setup_some A p L hS
  have hv := Setup_variance_length A p L hS
  have hb := boxesPerCell_le A A.nearOne_one p L hS
  refine ⟨?_, ?_, ?_, ?_, ?_⟩
  · intro layerH layerW imgW imgH stepW stepH buf hle
    have hlen := length_coords A L layerH layerW imgW imgH stepW stepH
    have hn : layerH * layerW * boxesPerCell A L * 4 ≤ layerH * layerW * L.numPriors * 4 :=
      Nat.mul_le_mul_right 4 (Nat.mul_le_mul_left (layerH * layerW) hb)
    rw [boxLoop_eq_blit A L hok,
      blit_of_le 0 _ (buf, 0) (by simp only [Nat.zero_add]; omega)]
    refine ⟨_, _, rfl, ?_, ?_, ?_⟩
    · simp only [Nat.zero_add]; exact hlen
    · simp only [Nat.zero_add]; omega
    · simp only [Nat.zero_add, List.take_zero, List.nil_append, List.length_append,
        List.length_drop]
      omega
  · intro hpos s hs
    have hlt : s < L.maxSizes.length := by rw [hok hpos]; exact hs
    exact ⟨L.maxSizes.get ⟨s, hlt⟩, List.get?_eq_get hlt⟩
  · intro h1
    have hlt : 0 < L.variance.length := by omega
    exact ⟨L.variance.get ⟨0, hlt⟩, List.get?_eq_get hlt⟩
  · intro h1 j hj
    have hlt : j < L.variance.length := by omega
    exact ⟨L.variance.get ⟨j, hlt⟩, List.get?_eq_get hlt⟩
  · intro src dst g hg hR hD
    obtain ⟨blk, hblk, -, hrun⟩ := ForwardCpu_accepted A p L src dst g hS hg hR hD
    have hL : ({ L with clip := L.clip } : PriorBoxLayer F) = L := by cases L; rfl
    have h := hrun L.clip
    rw [hL] at h
    refine ⟨_, h, ?_⟩
    have hshape := hR
    have hvl := length_varianceValues L hv g.layerH g.layerW
    have hcp : (if L.clip = true then clipPass A blk else blk).length = g.dim L := by
      split
      · unfold clipPass; rw [List.length_map]; exact hblk
      · exact hblk
    rw [List.length_append, hcp, hvl, hD, hshape]
    unfold Geometry.dim
    simp only [List.prod_cons, List.prod_nil]
    omega

/-- C15, on the scenario. -/
theorem C15_no_out_of_bounds_witness :
    (∀ (layerH layerW imgW imgH : Nat) (stepW stepH : Fp) (buf : List Fp),
      layerH * layerW * scenarioLayer.numPriors * 4 ≤ buf.length →
      ∃ out n, boxLoop f32ArithNoSqrt scenarioLayer layerH layerW imgW imgH stepW stepH buf
          = some (out, n) ∧
        n = layerH * layerW * boxesPerCell f32ArithNoSqrt scenarioLayer * 4 ∧
        n ≤ layerH * layerW * scenarioLayer.numPriors * 4 ∧ out.length = buf.length) ∧
    (scenarioLayer.maxSizes.length > 0 →
      ∀ s, s < scenarioLayer.minSizes.length → ∃ x, scenarioLayer.maxSizes.get? s = some x) ∧
    (scenarioLayer.variance.length = 1 → ∃ v, scenarioLayer.variance.get? 0 = some v) ∧
    (scenarioLayer.variance.length ≠ 1 →
      ∀ j, j < 4 → ∃ v, scenarioLayer.variance.get? j = some v) ∧
    (∀ (src : List (Tensor Fp)) (dst : Tensor Fp) (g : Geometry Fp),
      resolveGeometry f32ArithNoSqrt scenarioLayer src = some g →
      dst.shape = [1, 2, g.dim scenarioLayer] →
      dst.data.length = dst.shape.prod →
      ∃ out, ForwardCpu f32ArithNoSqrt scenarioLayer src dst = some out ∧
        out.length = dst.data.length) :=
  C15_no_out_of_bounds f32ArithNoSqrt scenarioParam scenarioLayer (by decide)

/-- C16: in exact real arithmetic (`sqrt` being the real square root), with `clip` off and
`imgW`, `imgH` non-zero, `ForwardCpu` on an output tensor of the shape `[1, 2, dim]` (the
shape `Reshape` gives it, `dim` being below `2^64`) returns, and
for every cell `(h, w)`, every size index `s` and every resolved ratio `r > 0` (at place `j`
of `_aspectRatios`) that line 190 does not skip, the box stored for them, which lies at the
box place `(h*layerW + w)*boxesPerCell + s*boxesPerSize + 1 + [maxSizes not empty] + (number
of ratios before place j that are not skipped)` of the output, has the un-normalised width
`W = (xmax - xmin) * imgW = m * sqrt r` and height `H = (ymax - ymin) * imgH = m / sqrt r`,
`m` being `(int)_minSizes[s]`; hence `W = r * H` and `W * H = m * m`. -/
theorem C16_ratio_box_geometry (p : PriorBoxParam ℝ) (L : PriorBoxLayer ℝ)
    (src : List (Tensor ℝ)) (dst : Tensor ℝ) (g : Geometry ℝ)
    (hS : Setup (fieldArith Real.sqrt) p = some L) (hclip : p.clip = false)
    (hg : resolveGeometry (fieldArith Real.sqrt) L src = some g)
    (hR : dst.shape = [1, 2, g.dim L]) (hD : dst.data.length = dst.shape.prod)
    (hiw : g.imgW ≠ 0) (hih : g.imgH ≠ 0) :
    ∃ out, ForwardCpu (fieldArith Real.sqrt) L src dst = some out ∧
      ∀ (h w s j : Nat) (minSize r : ℝ), h < g.layerH → w < g.layerW →
        L.minSizes.get? s = some minSize → L.aspectRatios.get? j = some r → 0 < r →
        (fieldArith Real.sqrt).nearOne r = false →
        ∃ xmin ymin xmax ymax : ℝ,
          (∀ i, i < 4 →
            out.get? (((h * g.layerW + w) * boxesPerCell (fieldArith Real.sqrt) L
                + (s * (1 + (if L.maxSizes.length > 0 then 1 else 0)
                      + (L.aspectRatios.filter
                          fun a => !(fieldArith Real.sqrt).nearOne a).length)
                  + (1 + (if L.maxSizes.length > 0 then 1 else 0)
                      + ((L.aspectRatios.take j).filter
                          fun a => !(fieldArith Real.sqrt).nearOne a).length))) * 4 + i)
              = [xmin, ymin, xmax, ymax].get? i) ∧
          (xmax - xmin) * g.imgW = ((fieldArith Real.sqrt).toInt minSize : ℝ) * Real.sqrt r ∧
          (ymax - ymin) * g.imgH = ((fieldArith Real.sqrt).toInt minSize : ℝ) / Real.sqrt r ∧
          (xmax - xmin) * g.imgW = r * ((ymax - ymin) * g.imgH) ∧
          (xmax - xmin) * g.imgW * ((ymax - ymin) * g.imgH)
            = ((fieldArith Real.sqrt).toInt minSize : ℝ)
                * ((fieldArith Real.sqrt).toInt minSize : ℝ) :=
  ForwardCpu_ratio_box_exact Real.sqrt (fun _ hx => Real.mul_self_sqrt hx.le) p L src dst g
    hS hclip hg hR hD hiw hih

/-- C16, on the configuration with the ratio 4 and the size 30 (a box 60 wide and 15
high). -/
theorem C16_ratio_box_geometry_witness :
    ∃ out, ForwardCpu (fieldArith Real.sqrt) (ratioFourLayer ℝ) (ratioFourSrc ℝ)
        (ratioFourDst ℝ) = some out ∧
      ∀ (h w s j : Nat) (minSize r : ℝ), h < (ratioFourGeometry ℝ).layerH →
        w < (ratioFourGeometry ℝ).layerW →
        (ratioFourLayer ℝ).minSizes.get? s = some minSize →
        (ratioFourLayer ℝ).aspectRatios.get? j = some r → 0 < r →
        (fieldArith Real.sqrt).nearOne r = false →
        ∃ xmin ymin xmax ymax : ℝ,
          (∀ i, i < 4 →
            out.get? (((h * (ratioFourGeometry ℝ).layerW + w)
                  * boxesPerCell (fieldArith Real.sqrt) (ratioFourLayer ℝ)
                + (s * (1 + (if (ratioFourLayer ℝ).maxSizes.length > 0 then 1 else 0)
                      + ((ratioFourLayer ℝ).aspectRatios.filter
                          fun a => !(fieldArith Real.sqrt).nearOne a).length)
                  + (1 + (if (ratioFourLayer ℝ).maxSizes.length > 0 then 1 else 0)
                      + (((ratioFourLayer ℝ).aspectRatios.take j).filter
                          fun a => !(fieldArith Real.sqrt).nearOne a).length))) * 4 + i)
              = [xmin, ymin, xmax, ymax].get? i) ∧
          (xmax - xmin) * (ratioFourGeometry ℝ).imgW
            = ((fieldArith Real.sqrt).toInt minSize : ℝ) * Real.sqrt r ∧
          (ymax - ymin) * (ratioFourGeometry ℝ).imgH
            = ((fieldArith Real.sqrt).toInt minSize : ℝ) / Real.sqrt r ∧
          (xmax - xmin) * (ratioFourGeometry ℝ).imgW
            = r * ((ymax - ymin) * (ratioFourGeometry ℝ).imgH) ∧
          (xmax - xmin) * (ratioFourGeometry ℝ).imgW * ((ymax - ymin) * (ratioFourGeometry ℝ).imgH)
            = ((fieldArith Real.sqrt).toInt minSize : ℝ)
                * ((fieldArith Real.sqrt).toInt minSize : ℝ) :=
  C16_ratio_box_geometry (ratioFourParam ℝ) (ratioFourLayer ℝ) (ratioFourSrc ℝ)
    (ratioFourDst ℝ) (ratioFourGeometry ℝ)
    (by norm_num [Setup, resolveAspectRatios, pushAspectRatio, alreadyExist, resolveVariance,
      resolvePair, fieldArith, ratioFourParam, ratioFourLayer, abs_lt])
    rfl
    (by norm_num [resolveGeometry, resolveImg, resolveStep, fieldArith, ratioFourLayer,
      ratioFourSrc, ratioFourGeometry, Tensor.Axis])
    rfl (by simp [ratioFourDst]) (by simp [ratioFourGeometry]) (by simp [ratioFourGeometry])

/-- C17: the sizes and steps in effect in `ForwardCpu`, `src[0]` being a tensor with height
`lh` and width `lw`.  If both configured image sizes are non-zero, they are `imgH` and
`imgW`, and `ForwardCpu` gives the same result (failure included) on every input list with
the same `src[0]`, whatever `src[1]` is and whether it is there or not.  If one of them is
zero, `imgH` and `imgW` are the height and the width of `src[1]`.  If both configured steps
are non-zero, they are `stepH` and `stepW`; if one of them is zero, `stepW = imgW / layerW`
and `stepH = imgH / layerH`. -/
theorem C17_effective_geometry {F : Type} (A : Arith F) (L : PriorBoxLayer F)
    (src : List (Tensor F)) (t0 : Tensor F) (lh lw : Nat) (h0 : src.get? 0 = some t0)
    (hlh : t0.Axis 2 = some lh) (hlw : t0.Axis 3 = some lw) :
    (L.imgH ≠ 0 → L.imgW ≠ 0 →
      (∃ g, resolveGeometry A L src = some g ∧ g.imgH = L.imgH ∧ g.imgW = L.imgW) ∧
      ∀ (src' : List (Tensor F)) (dst : Tensor F), src'.get? 0 = src.get? 0 →
        ForwardCpu A L src' dst = ForwardCpu A L src dst) ∧
    (L.imgH = 0 ∨ L.imgW = 0 →
      ∀ (t1 : Tensor F) (ih iw : Nat), src.get? 1 = some t1 → t1.Axis 2 = some ih →
        t1.Axis 3 = some iw →
        ∃ g, resolveGeometry A L src = some g ∧ g.imgH = ih ∧ g.imgW = iw) ∧
    (∀ g, resolveGeometry A L src = some g →
      g.layerH = lh ∧ g.layerW = lw ∧
      (A.isZero L.stepH = false → A.isZero L.stepW = false →
        g.stepH = L.stepH ∧ g.stepW = L.stepW) ∧
      (A.isZero L.stepH = true ∨ A.isZero L.stepW = true →
        g.stepW = A.div (A.ofNat g.imgW) (A.ofNat g.layerW) ∧
          g.stepH = A.div (A.ofNat g.imgH) (A.ofNat g.layerH))) := by
  refine ⟨?_, ?_, ?_⟩
  · intro hH hW
    refine ⟨⟨_, resolveGeometry_of_parts A L src t0 lw lh L.imgW L.imgH h0 hlw hlh
      (resolveImg_configured L src hH hW), rfl, rfl⟩, ?_⟩
    intro src' dst hs
    exact ForwardCpu_configured A L src src' dst hH hW hs
  · intro hz t1 ih iw h1 h2 h3
    exact ⟨_, resolveGeometry_of_parts A L src t0 lw lh iw ih h0 hlw hlh
      (resolveImg_runtime L src t1 ih iw hz h1 h2 h3), rfl, rfl⟩
  · intro g hg
    obtain ⟨t, ht, h3, h2, -, hstep⟩ := resolveGeometry_eq_some A L src g hg
    rw [h0] at ht
    have ht' : t0 = t := Option.some.inj ht
    subst ht'
    rw [hlw] at h3
    rw [hlh] at h2
    have e2 : lh = g.layerH := Option.some.inj h2
    have e3 : lw = g.layerW := Option.some.inj h3
    have hsW : g.stepW = (resolveStep A L g.layerW g.layerH g.imgW g.imgH).1 := by rw [hstep]
    have hsH : g.stepH = (resolveStep A L g.layerW g.layerH g.imgW g.imgH).2 := by rw [hstep]
    refine ⟨e2.symm, e3.symm, ?_, ?_⟩
    · intro zH zW
      rw [hsW, hsH]
      unfold resolveStep
      rw [if_neg (by rw [zH, zW]; simp)]
      exact ⟨rfl, rfl⟩
    · intro hz
      rw [hsW, hsH]
      unfold resolveStep
      rw [if_pos (by rcases hz with h | h <;> simp [h])]
      exact ⟨rfl, rfl⟩

/-- C17, on the layer with `imgSize = [300, 200]` and `step = [8]` and the scenario's
inputs. -/
theorem C17_effective_geometry_witness :
    (configuredLayer.imgH ≠ 0 → configuredLayer.imgW ≠ 0 →
      (∃ g, resolveGeometry f32ArithNoSqrt configuredLayer (scenarioSrc Fp) = some g ∧
        g.imgH = configuredLayer.imgH ∧ g.imgW = configuredLayer.imgW) ∧
      ∀ (src' : List (Tensor Fp)) (dst : Tensor Fp), src'.get? 0 = (scenarioSrc Fp).get? 0 →
        ForwardCpu f32ArithNoSqrt configuredLayer src' dst
          = ForwardCpu f32ArithNoSqrt configuredLayer (scenarioSrc Fp) dst) ∧
    (configuredLayer.imgH = 0 ∨ configuredLayer.imgW = 0 →
      ∀ (t1 : Tensor Fp) (ih iw : Nat), (scenarioSrc Fp).get? 1 = some t1 →
        t1.Axis 2 = some ih → t1.Axis 3 = some iw →
        ∃ g, resolveGeometry f32ArithNoSqrt configuredLayer (scenarioSrc Fp) = some g ∧
          g.imgH = ih ∧ g.imgW = iw) ∧
    (∀ g, resolveGeometry f32ArithNoSqrt configuredLayer (scenarioSrc Fp) = some g →
      g.layerH = 2 ∧ g.layerW = 2 ∧
      (f32ArithNoSqrt.isZero configuredLayer.stepH = false →
        f32ArithNoSqrt.isZero configuredLayer.stepW = false →
        g.stepH = configuredLayer.stepH ∧ g.stepW = configuredLayer.stepW) ∧
      (f32ArithNoSqrt.isZero configuredLayer.stepH = true ∨
          f32ArithNoSqrt.isZero configuredLayer.stepW = true →
        g.stepW = f32ArithNoSqrt.div (f32ArithNoSqrt.ofNat g.imgW)
            (f32ArithNoSqrt.ofNat g.layerW) ∧
          g.stepH = f32ArithNoSqrt.div (f32ArithNoSqrt.ofNat g.imgH)
            (f32ArithNoSqrt.ofNat g.layerH))) :=
  C17_effective_geometry f32ArithNoSqrt configuredLayer (scenarioSrc Fp)
    { shape := [1, 8, 2, 2], data := [] } 2 2 (by decide) (by decide) (by decide)

/-- C18: in exact arithmetic (any ordered field, any `sqrt`), with `clip` off, no step
configured and `imgW`, `imgH` non-zero, `ForwardCpu` on an output tensor of the shape
`[1, 2, dim]` (the shape `Reshape` gives it, `dim` being below `2^64`) returns, and every
box it stores for the cell `(h, w)`, the `k`-th one being at the places
`((h*layerW + w)*boxesPerCell + k)*4 ..+3` of the output, is centred at the normalised point
`((w + offset)/layerW, (h + offset)/layerH)`, which does not depend on the image size.
(`layerW` and `layerH` are non-zero whenever there is a cell.) -/
theorem C18_box_centres {K : Type} [LinearOrderedField K] [FloorRing K] (sqrt : K → K)
    (p : PriorBoxParam K) (L : PriorBoxLayer K) (src : List (Tensor K)) (dst : Tensor K)
    (g : Geometry K) (hS : Setup (fieldArith sqrt) p = some L) (hclip : p.clip = false)
    (hstep : p.step = []) (hg : resolveGeometry (fieldArith sqrt) L src = some g)
    (hR : dst.shape = [1, 2, g.dim L]) (hD : dst.data.length = dst.shape.prod)
    (hiw : g.imgW ≠ 0) (hih : g.imgH ≠ 0) :
    ∃ out, ForwardCpu (fieldArith sqrt) L src dst = some out ∧
      ∀ h w k, h < g.layerH → w < g.layerW → k < boxesPerCell (fieldArith sqrt) L →
        ∃ xmin ymin xmax ymax : K,
          out.get? (((h * g.layerW + w) * boxesPerCell (fieldArith sqrt) L + k) * 4)
            = some xmin ∧
          out.get? (((h * g.layerW + w) * boxesPerCell (fieldArith sqrt) L + k) * 4 + 1)
            = some ymin ∧
          out.get? (((h * g.layerW + w) * boxesPerCell (fieldArith sqrt) L + k) * 4 + 2)
            = some xmax ∧
          out.get? (((h * g.layerW + w) * boxesPerCell (fieldArith sqrt) L + k) * 4 + 3)
            = some ymax ∧
          (xmin + xmax) / 2 = ((w : K) + p.offset) / g.layerW ∧
          (ymin + ymax) / 2 = ((h : K) + p.offset) / g.layerH := by
  obtain ⟨out, hout, hbox⟩ := ForwardCpu_box (fieldArith sqrt) p L src dst g hS hclip hg hR hD
  obtain ⟨-, -, -, -, -, -, -, -, hoff, -, hst⟩ := Setup_some (fieldArith sqrt) p L hS
  obtain ⟨-, -, -, -, -, hrs⟩ := resolveGeometry_eq_some (fieldArith sqrt) L src g hg
  have hL : L.stepH = 0 ∧ L.stepW = 0 := by
    rw [hstep] at hst
    have h1 : L.stepH = (resolvePair (fieldArith sqrt).zero ([] : List K)).1 := by rw [← hst]
    have h2 : L.stepW = (resolvePair (fieldArith sqrt).zero ([] : List K)).2 := by rw [← hst]
    exact ⟨h1, h2⟩
  have hsW : g.stepW = (g.imgW : K) / g.layerW := by
    have : g.stepW = (resolveStep (fieldArith sqrt) L g.layerW g.layerH g.imgW g.imgH).1 := by
      rw [hrs]
    rw [this]
    unfold resolveStep
    rw [if_pos (Or.inl (by rw [hL.2]; simp [fieldArith]))]
    rfl
  have hsH : g.stepH = (g.imgH : K) / g.layerH := by
    have : g.stepH = (resolveStep (fieldArith sqrt) L g.layerW g.layerH g.imgW g.imgH).2 := by
      rw [hrs]
    rw [this]
    unfold resolveStep
    rw [if_pos (Or.inl (by rw [hL.2]; simp [fieldArith]))]
    rfl
  have hw0 : (g.imgW : K) ≠ 0 := Nat.cast_ne_zero.2 hiw
  have hh0 : (g.imgH : K) ≠ 0 := Nat.cast_ne_zero.2 hih
  refine ⟨out, hout, ?_⟩
  intro h w k hh hw hk
  obtain ⟨bw, bh, h0, h1, h2, h3⟩ := hbox h w k hh hw hk
  refine ⟨_, _, _, _, h0, h1, h2, h3, ?_, ?_⟩
  · rw [hoff, hsW]
    change ((((w : K) + p.offset) * ((g.imgW : K) / g.layerW) - bw / 2) / g.imgW
      + (((w : K) + p.offset) * ((g.imgW : K) / g.layerW) + bw / 2) / g.imgW) / 2
      = ((w : K) + p.offset) / g.layerW
    have hlw : (g.layerW : K) ≠ 0 := Nat.cast_ne_zero.2 (by omega)
    field_simp
    ring
  · rw [hoff, hsH]
    change ((((h : K) + p.offset) * ((g.imgH : K) / g.layerH) - bh / 2) / g.imgH
      + (((h : K) + p.offset) * ((g.imgH : K) / g.layerH) + bh / 2) / g.imgH) / 2
      = ((h : K) + p.offset) / g.layerH
    have hlh : (g.layerH : K) ≠ 0 := Nat.cast_ne_zero.2 (by omega)
    field_simp
    ring

/-- C18, on the scenario in rational arithmetic (2x2 feature map, 300x300 image, offset
1/2). -/
theorem C18_box_centres_witness :
    ∃ out, ForwardCpu (fieldArith fun _ => 0) scenarioLayerExact (scenarioSrc ℚ)
        scenarioDstExact = some out ∧
      ∀ h w k, h < scenarioGeometryExact.layerH → w < scenarioGeometryExact.layerW →
        k < boxesPerCell (fieldArith fun _ => 0) scenarioLayerExact →
        ∃ xmin ymin xmax ymax : ℚ,
          out.get? (((h * scenarioGeometryExact.layerW + w)
              * boxesPerCell (fieldArith fun _ => 0) scenarioLayerExact + k) * 4)
            = some xmin ∧
          out.get? (((h * scenarioGeometryExact.layerW + w)
              * boxesPerCell (fieldArith fun _ => 0) scenarioLayerExact + k) * 4 + 1)
            = some ymin ∧
          out.get? (((h * scenarioGeometryExact.layerW + w)
              * boxesPerCell (fieldArith fun _ => 0) scenarioLayerExact + k) * 4 + 2)
            = some xmax ∧
          out.get? (((h * scenarioGeometryExact.layerW + w)
              * boxesPerCell (fieldArith fun _ => 0) scenarioLayerExact + k) * 4 + 3)
            = some ymax ∧
          (xmin + xmax) / 2 = ((w : ℚ) + scenarioParamExact.offset)
            / scenarioGeometryExact.layerW ∧
          (ymin + ymax) / 2 = ((h : ℚ) + scenarioParamExact.offset)
            / scenarioGeometryExact.layerH :=
  C18_box_centres (fun _ => 0) scenarioParamExact scenarioLayerExact (scenarioSrc ℚ)
    scenarioDstExact scenarioGeometryExact
    (by norm_num [Setup, resolveAspectRatios, pushAspectRatio, alreadyExist, resolveVariance,
      resolvePair, fieldArith, scenarioParamExact, scenarioLayerExact, abs_lt])
    rfl rfl
    (by norm_num [resolveGeometry, resolveImg, resolveStep, fieldArith, scenarioLayerExact,
      scenarioSrc, scenarioGeometryExact, Tensor.Axis])
    rfl (by decide) (by decide) (by decide)


end Synet
